import Mathlib

/-! # A shallow embedding of `list.hpp`

`List<T, Allocator>` is a doubly linked ring of nodes around a sentinel
(`fake_node_`) that is embedded in the container object.  The embedding keeps
the pointer graph: a heap maps addresses to what they hold, the member functions are
state transformers that follow the C++ statements one by one, exceptions are a
second kind of outcome that carries the state reached when they were thrown,
and an access that C++ leaves undefined is a third outcome.

The allocator is not part of `list.hpp`; it is the collaborator described by
`std::allocator_traits`.  It is modelled by `allocate`, `construct`, `destroy`
and `deallocate` below, whose failures are dictated by an arbitrary plan
(`Env`) and whose calls are recorded in a trace.
-/

namespace ListHpp

/-- Identity of an allocator instance (a value of `node_allocator`). -/
abbrev AllocId := Nat

/-- Number of values of `size_t`, which is also the number of addresses. -/
def SIZE_MOD : Nat := 18446744073709551616

/-- What an address holds; addresses are natural numbers below `SIZE_MOD`.
* `free`: nothing, the address is not in use;
* `raw`: storage obtained from `allocate` in which no object lives;
* `node value`: a constructed `Node`, with its `value`;
* `base`: a `BaseNode` that is not a `Node`, that is a `fake_node_`.
The two links of a `BaseNode` are kept apart, in `State.prev` and `State.next`. -/
inductive Kind (T : Type) where
  | free : Kind T
  | raw : Kind T
  | node (value : T) : Kind T
  | base : Kind T
  deriving DecidableEq, Repr

/-- Whether a `BaseNode` lives at an address of this kind. -/
def Kind.is_object {T : Type} : Kind T → Bool
  | Kind.node _ => true
  | Kind.base => true
  | _ => false

/-- Calls of the allocator that took effect, with the allocator instance used. -/
inductive Event where
  | allocate (al : AllocId) (p : Nat)
  | construct (al : AllocId) (p : Nat)
  | destroy (al : AllocId) (p : Nat)
  | deallocate (al : AllocId) (p : Nat)
  deriving DecidableEq, Repr

/-- The exceptions that can travel through the container. -/
inductive Exc where
  | bad_alloc
  | construct_failed
  deriving DecidableEq, Repr

/-- The data members of a `List` object; `fake_node_` is the address of the
embedded sentinel, whose two links live in the heap at that address. -/
structure ListObj where
  fake_node_ : Nat
  size_ : Nat
  alloc_ : AllocId
  deriving DecidableEq, Repr

/-- Everything the container takes from its surroundings: which calls of
`allocate` and `construct` throw (numbered from 0 in the order they are made),
the two allocator policies, and the default-constructed allocator. -/
structure Env where
  allocate_fails : Nat → Bool
  construct_fails : Nat → Bool
  select_on_container_copy_construction : AllocId → AllocId
  propagate_on_container_copy_assignment : Bool
  default_allocator : AllocId

/-- Machine state: the heap stored field by field (what each address holds, and
the `prev` and `next` link of the `BaseNode` at each address), the first
address never handed out, the trace of allocator calls (newest first), the
number of `allocate` and `construct` calls made so far, and the object the
running member function was called on. -/
structure State (T : Type) where
  kind : Nat → Kind T
  prev : Nat → Nat
  next : Nat → Nat
  brk : Nat
  trace : List Event
  allocate_calls : Nat
  construct_calls : Nat
  this : ListObj

/-- Outcome of running a piece of code: normal completion, an exception in
flight, or undefined behaviour. -/
inductive Res (σ α : Type) where
  | ok (a : α) (s : σ)
  | threw (e : Exc) (s : σ)
  | ub

/-- Code that runs on the machine state. -/
def M (T α : Type) : Type := State T → Res (State T) α

namespace M

variable {T α β : Type}

/-- Normal completion with a value. -/
def ret (a : α) : M T α := fun s => Res.ok a s

/-- Sequencing: an exception or undefined behaviour in the first part skips the second. -/
def andThen (x : M T α) (f : α → M T β) : M T β := fun s =>
  match x s with
  | Res.ok a s1 => f a s1
  | Res.threw e s1 => Res.threw e s1
  | Res.ub => Res.ub

/-- The statement `throw`. -/
def raise (e : Exc) : M T α := fun s => Res.threw e s

/-- The block `try { body } catch (...) { handler }`. -/
def catching (body : M T α) (handler : Exc → M T α) : M T α := fun s =>
  match body s with
  | Res.threw e s1 => handler e s1
  | r => r

end M

instance {T : Type} : Monad (M T) where
  pure := M.ret
  bind := M.andThen

instance {T : Type} : MonadExcept Exc (M T) where
  throw := M.raise
  tryCatch := M.catching

section Primitives

variable {T : Type}

/-- Read `p->prev`; `p` must point to a live `BaseNode`. -/
def get_prev (p : Nat) : M T Nat := fun s =>
  if (s.kind p).is_object = true then Res.ok (s.prev p) s else Res.ub

/-- Read `p->next`; `p` must point to a live `BaseNode`. -/
def get_next (p : Nat) : M T Nat := fun s =>
  if (s.kind p).is_object = true then Res.ok (s.next p) s else Res.ub

/-- Read `static_cast<Node*>(p)->value`; `p` must point to a live `Node`. -/
def get_value (p : Nat) : M T T := fun s =>
  match s.kind p with
  | Kind.node v => Res.ok v s
  | _ => Res.ub

/-- The assignment `p->prev = q`; `p` must point to a live `BaseNode`. -/
def set_prev (p q : Nat) : M T Unit := fun s =>
  if (s.kind p).is_object = true then
    Res.ok () { s with prev := Function.update s.prev p q }
  else Res.ub

/-- The assignment `p->next = q`; `p` must point to a live `BaseNode`. -/
def set_next (p q : Nat) : M T Unit := fun s =>
  if (s.kind p).is_object = true then
    Res.ok () { s with next := Function.update s.next p q }
  else Res.ub

/-- The address `&fake_node_` of the running object. -/
def fake_node_ : M T Nat := fun s => Res.ok s.this.fake_node_ s

/-- Read the member `size_`. -/
def size_ : M T Nat := fun s => Res.ok s.this.size_ s

/-- Read the member `alloc_`. -/
def alloc_ : M T AllocId := fun s => Res.ok s.this.alloc_ s

/-- Assign the member `size_`. -/
def set_size_ (n : Nat) : M T Unit := fun s =>
  Res.ok () { s with this := { s.this with size_ := n } }

/-- Assign the member `alloc_`. -/
def set_alloc_ (al : AllocId) : M T Unit := fun s =>
  Res.ok () { s with this := { s.this with alloc_ := al } }

/-- The call `node_allocator_traits::allocate(al, 1)`: throws when the plan
says so or when no address is left, otherwise returns storage at an address
never used before. -/
def allocate (env : Env) (al : AllocId) : M T Nat := fun s =>
  if env.allocate_fails s.allocate_calls = true ∨ SIZE_MOD ≤ s.brk then
    Res.threw Exc.bad_alloc { s with allocate_calls := s.allocate_calls + 1 }
  else
    Res.ok s.brk
      { s with kind := Function.update s.kind s.brk Kind.raw
               brk := s.brk + 1
               trace := Event.allocate al s.brk :: s.trace
               allocate_calls := s.allocate_calls + 1 }

/-- The call `node_allocator_traits::construct(al, p, value)`, which runs
`Node(value)` in the raw storage at `p`: both links of the new node point to
the node itself (the default member initialisers of `BaseNode`).  It throws
when the plan says so, leaving the storage unconstructed. -/
def construct (env : Env) (al : AllocId) (p : Nat) (value : T) : M T Unit := fun s =>
  match s.kind p with
  | Kind.raw =>
      if env.construct_fails s.construct_calls = true then
        Res.threw Exc.construct_failed { s with construct_calls := s.construct_calls + 1 }
      else
        Res.ok ()
          { s with kind := Function.update s.kind p (Kind.node value)
                   prev := Function.update s.prev p p
                   next := Function.update s.next p p
                   trace := Event.construct al p :: s.trace
                   construct_calls := s.construct_calls + 1 }
  | _ => Res.ub

/-- The call `node_allocator_traits::destroy(al, p)`; `p` must point to a live `Node`. -/
def destroy (al : AllocId) (p : Nat) : M T Unit := fun s =>
  match s.kind p with
  | Kind.node _ =>
      Res.ok () { s with kind := Function.update s.kind p Kind.raw
                         trace := Event.destroy al p :: s.trace }
  | _ => Res.ub

/-- The call `node_allocator_traits::deallocate(al, p, 1)`; `p` must point to
storage obtained from `allocate` and not yet released. -/
def deallocate (al : AllocId) (p : Nat) : M T Unit := fun s =>
  match s.kind p with
  | Kind.raw =>
      Res.ok () { s with kind := Function.update s.kind p Kind.free
                         trace := Event.deallocate al p :: s.trace }
  | Kind.node _ =>
      Res.ok () { s with kind := Function.update s.kind p Kind.free
                         trace := Event.deallocate al p :: s.trace }
  | _ => Res.ub

/-- The loop `for (size_t i = 0; i < n; ++i) body`, for a bound `n` that the
body does not change. -/
def for_count (n : Nat) (body : M T Unit) : M T Unit :=
  match n with
  | 0 => pure ()
  | k + 1 => do body; for_count k body

/-- A `try` block whose handler reads a local counter that the block updates:
`body` gives, next to its outcome, the value the counter has when control
leaves the block. -/
def catching_with_index (body : State T → Nat × Res (State T) Unit)
    (handler : Nat → Exc → M T Unit) : M T Unit := fun s =>
  match body s with
  | (cur_index, Res.threw e s1) => handler cur_index e s1
  | (_, r) => r

/-- Storage for a new container object with the given initial `size_` and
`alloc_`: the default member initialisers of `fake_node_` make both links
point to the sentinel itself.  The object is placed at an address never used
before. -/
def new_object (size_ : Nat) (alloc_ : AllocId) : M T Unit := fun s =>
  if SIZE_MOD ≤ s.brk then Res.ub
  else
    Res.ok ()
      { s with kind := Function.update s.kind s.brk Kind.base
               prev := Function.update s.prev s.brk s.brk
               next := Function.update s.next s.brk s.brk
               brk := s.brk + 1
               this := { fake_node_ := s.brk, size_ := size_, alloc_ := alloc_ } }

end Primitives

section Members

variable {T : Type}

/-- The increment `++n` of a `size_t`: arithmetic modulo `SIZE_MOD`. -/
def size_t_inc (n : Nat) : Nat := (n + 1) % SIZE_MOD

/-- The decrement `--n` of a `size_t`: arithmetic modulo `SIZE_MOD`, so 0 wraps
around to the largest value (see `size_t_dec_mod`). -/
def size_t_dec (n : Nat) : Nat := if n = 0 then SIZE_MOD - 1 else n - 1

/-- `List::push_back` (lines 252-268). -/
def push_back (env : Env) (element : T) : M T Unit := do
  let last_node ← allocate env (← alloc_)
  try
    construct env (← alloc_) last_node element
  catch e => do
    deallocate (← alloc_) last_node
    throw e
  set_next (← get_prev (← fake_node_)) last_node
  set_prev last_node (← get_prev (← fake_node_))
  set_next last_node (← fake_node_)
  set_prev (← fake_node_) last_node
  set_size_ (size_t_inc (← size_))

/-- `List::push_front` (lines 270-287). -/
def push_front (env : Env) (element : T) : M T Unit := do
  let first_node ← allocate env (← alloc_)
  try
    construct env (← alloc_) first_node element
  catch e => do
    deallocate (← alloc_) first_node
    throw e
  set_prev (← get_next (← fake_node_)) first_node
  set_next first_node (← get_next (← fake_node_))
  set_prev first_node (← fake_node_)
  set_next (← fake_node_) first_node
  set_size_ (size_t_inc (← size_))

/-- `List::pop_back` (lines 289-299). -/
def pop_back : M T Unit := do
  let node_before_last ← get_prev (← get_prev (← fake_node_))
  destroy (← alloc_) (← get_next node_before_last)
  deallocate (← alloc_) (← get_next node_before_last)
  set_next node_before_last (← fake_node_)
  set_prev (← fake_node_) node_before_last
  set_size_ (size_t_dec (← size_))

/-- `List::pop_front` (lines 301-311). -/
def pop_front : M T Unit := do
  let node_after_first ← get_next (← get_next (← fake_node_))
  destroy (← alloc_) (← get_prev node_after_first)
  deallocate (← alloc_) (← get_prev node_after_first)
  set_prev node_after_first (← fake_node_)
  set_next (← fake_node_) node_after_first
  set_size_ (size_t_dec (← size_))

/-- `List::empty` (lines 242-245). -/
def empty (l : ListObj) : Bool := l.size_ == 0

/-- `List::size` (lines 247-250). -/
def size (l : ListObj) : Nat := l.size_

/-- The constructor `List() = default`: the default member initialisers. -/
def List_default (env : Env) : M T Unit :=
  new_object 0 env.default_allocator

/-- The loop of lines 98-105 inside the handler of the fixed-size
constructors; the first argument counts the iterations still to run. -/
def unwind_loop : Nat → Nat → M T Unit
  | 0, _ => pure ()
  | k + 1, cur_node => do
      let prev_node ← get_prev cur_node
      destroy (← alloc_) (← get_next prev_node)
      deallocate (← alloc_) (← get_next prev_node)
      unwind_loop k prev_node

/-- The loop of lines 90-111, `for (cur_index = 0; cur_index < count; ++cur_index)`;
the first argument is `count - cur_index`.  It returns the final `cur_node`. -/
def fill_loop (env : Env) (value : T) : Nat → Nat → Nat → M T Nat
  | 0, _, cur_node => pure cur_node
  | k + 1, cur_index, cur_node => do
      set_next cur_node (← allocate env (← alloc_))
      try
        construct env (← alloc_) (← get_next cur_node) value
      catch e => do
        deallocate (← alloc_) (← get_next cur_node)
        unwind_loop cur_index cur_node
        set_size_ 0
        throw e
      set_prev (← get_next cur_node) cur_node
      fill_loop env value k (cur_index + 1) (← get_next cur_node)

/-- The constructor `List(size_t count, const T& value, const Alloc& alloc)`
(lines 86-114). -/
def List_count_value (env : Env) (count : Nat) (value : T) (alloc : AllocId) : M T Unit := do
  new_object count alloc
  let cur_node ← fill_loop env value count 0 (← fake_node_)
  set_next cur_node (← fake_node_)
  set_prev (← fake_node_) cur_node

/-- The constructor `List(size_t count, const Allocator& alloc)` (lines 116-144):
the same statements, each node being built by `Node()`. -/
def List_count [Inhabited T] (env : Env) (count : Nat) (alloc : AllocId) : M T Unit := do
  new_object count alloc
  let cur_node ← fill_loop env (default : T) count 0 (← fake_node_)
  set_next cur_node (← fake_node_)
  set_prev (← fake_node_) cur_node

/-- The loop `for (; cur_index < other.size_; ++cur_index)` of lines 153-156 and
197-200; the first argument is `other.size_ - cur_index`.  Next to the outcome
it gives the value of `cur_index` when control leaves the loop. -/
def copy_loop (env : Env) : Nat → Nat → Nat → State T → Nat × Res (State T) Unit
  | 0, cur_index, _, s => (cur_index, Res.ok () s)
  | k + 1, cur_index, other_cur_node, s =>
      match (do push_back env (← get_value other_cur_node)
                get_next other_cur_node : M T Nat) s with
      | Res.ok next_node s1 => copy_loop env k (cur_index + 1) next_node s1
      | Res.threw e s1 => (cur_index, Res.threw e s1)
      | Res.ub => (cur_index, Res.ub)

/-- The copy constructor `List(const List& other)` (lines 146-163). -/
def List_copy (env : Env) (other : ListObj) : M T Unit := do
  new_object 0 env.default_allocator
  set_alloc_ (env.select_on_container_copy_construction other.alloc_)
  catching_with_index
    (fun s =>
      match get_next other.fake_node_ s with
      | Res.ok other_cur_node s1 => copy_loop env other.size_ 0 other_cur_node s1
      | Res.threw e s1 => (0, Res.threw e s1)
      | Res.ub => (0, Res.ub))
    (fun cur_index e => do
      for_count cur_index pop_back
      throw e)

/-- The loop `for (const T& elem : init) push_back(elem)` of lines 172-174. -/
def init_loop (env : Env) : List T → M T Unit
  | [] => pure ()
  | elem :: rest => do
      push_back env elem
      init_loop env rest

/-- The constructor `List(std::initializer_list<T> init, const Allocator& alloc)`
(lines 165-181).  The local `cur_index` is set to 0 at line 170 and the loop
of lines 172-174 does not touch it. -/
def List_init (env : Env) (init : List T) (alloc : AllocId) : M T Unit := do
  new_object 0 env.default_allocator
  set_alloc_ (env.select_on_container_copy_construction alloc)
  let cur_index := 0
  catching_with_index
    (fun s => (cur_index, init_loop env init s))
    (fun cur_index e => do
      for_count cur_index pop_back
      throw e)

/-- The copy assignment `List::operator=(const List& other)` (lines 183-215);
`this != &other` compares the addresses of the two objects. -/
def assign (env : Env) (other : ListObj) : M T Unit := do
  if (← fake_node_) ≠ other.fake_node_ then
    let old_allocator ← alloc_
    let old_size ← size_
    let next_allocator :=
      if env.propagate_on_container_copy_assignment = true then other.alloc_ else old_allocator
    catching_with_index
      (fun s =>
        match (do set_alloc_ next_allocator
                  get_next other.fake_node_ : M T Nat) s with
        | Res.ok other_cur_node s1 => copy_loop env other.size_ 0 other_cur_node s1
        | Res.threw e s1 => (0, Res.threw e s1)
        | Res.ub => (0, Res.ub))
      (fun cur_index e => do
        for_count cur_index pop_back
        set_alloc_ old_allocator
        throw e)
    set_alloc_ old_allocator
    for_count old_size pop_front
    set_alloc_ next_allocator

/-- The loop of lines 78-83 in `clear`; the first argument is `size_ - i`. -/
def clear_loop : Nat → Nat → M T Unit
  | 0, _ => pure ()
  | k + 1, cur_node => do
      let next_node ← get_next cur_node
      destroy (← alloc_) cur_node
      deallocate (← alloc_) cur_node
      clear_loop k next_node

/-- `List::clear` (lines 75-84). -/
def clear : M T Unit := do
  let cur_node ← get_next (← fake_node_)
  clear_loop (← size_) cur_node

/-- `List::front` (lines 222-230). -/
def front : M T T := do
  get_value (← get_next (← fake_node_))

/-- `List::back` (lines 232-240). -/
def back : M T T := do
  get_value (← get_prev (← fake_node_))

/-- `List::Iterator`: the one data member `cur_node_`. -/
structure Iterator where
  cur_node_ : Nat
  deriving DecidableEq, Repr

/-- `Iterator::operator++` (lines 328-331), giving the advanced cursor. -/
def Iterator.inc (it : Iterator) : M T Iterator := do
  pure { cur_node_ := ← get_next it.cur_node_ }

/-- `Iterator::operator--` (lines 332-335), giving the retreated cursor. -/
def Iterator.dec (it : Iterator) : M T Iterator := do
  pure { cur_node_ := ← get_prev it.cur_node_ }

/-- `Iterator::operator*` (line 347). -/
def Iterator.deref (it : Iterator) : M T T :=
  get_value it.cur_node_

/-- `Iterator::operator==` (lines 351-353). -/
def Iterator.eq (a b : Iterator) : Bool := a.cur_node_ == b.cur_node_

/-- `Iterator::operator!=` (line 355). -/
def Iterator.ne (a b : Iterator) : Bool := !(Iterator.eq a b)

/-- `List::begin` (lines 361-364). -/
def begin_ : M T Iterator := do
  pure { cur_node_ := ← get_next (← fake_node_) }

/-- `List::end` (lines 366-369). -/
def end_ : M T Iterator := do
  pure { cur_node_ := ← fake_node_ }

end Members

section Clients

variable {T : Type}

/-- The state in which member functions run on the container `c`. -/
def State.on (s : State T) (c : ListObj) : State T := { s with this := c }

/-- The client loop `for (; it != end(); ++it) visit(*it)`, with a bound on
the number of iterations; `none` when the bound is hit or the walk is undefined. -/
def forward_from (s : State T) : Nat → Iterator → Option (List T)
  | 0, it =>
      match end_ s with
      | Res.ok e _ => if Iterator.ne it e = true then none else some []
      | _ => none
  | fuel + 1, it =>
      match end_ s with
      | Res.ok e _ =>
          if Iterator.ne it e = true then
            match Iterator.deref it s, Iterator.inc it s with
            | Res.ok v _, Res.ok it1 _ => (forward_from s fuel it1).map (fun vs => v :: vs)
            | _, _ => none
          else some []
      | _ => none

/-- The values visited by `for (auto it = begin(); it != end(); ++it)`. -/
def forward (fuel : Nat) (s : State T) : Option (List T) :=
  match begin_ s with
  | Res.ok it _ => forward_from s fuel it
  | _ => none

/-- The client loop `while (it != begin()) { --it; visit(*it); }`, with a bound
on the number of iterations. -/
def backward_from (s : State T) : Nat → Iterator → Option (List T)
  | 0, it =>
      match begin_ s with
      | Res.ok b _ => if Iterator.ne it b = true then none else some []
      | _ => none
  | fuel + 1, it =>
      match begin_ s with
      | Res.ok b _ =>
          if Iterator.ne it b = true then
            match Iterator.dec it s with
            | Res.ok it1 _ =>
                match Iterator.deref it1 s with
                | Res.ok v _ => (backward_from s fuel it1).map (fun vs => v :: vs)
                | _ => none
            | _ => none
          else some []
      | _ => none

/-- The values visited by walking from `end()` with `--` until `begin()`. -/
def backward (fuel : Nat) (s : State T) : Option (List T) :=
  match end_ s with
  | Res.ok it _ => backward_from s fuel it
  | _ => none

/-- The state before anything exists. -/
def State.initial : State T :=
  { kind := fun _ => Kind.free, prev := fun _ => 0, next := fun _ => 0, brk := 0, trace := [], allocate_calls := 0, construct_calls := 0,
    this := { fake_node_ := 0, size_ := 0, alloc_ := 0 } }

end Clients

section Invariants

variable {T : Type}

/-- `Linked prev next a xs b`: following `next` from `a` leads through the
addresses `xs`, in order, to `b`, and `prev` leads back along the same path. -/
def Linked (prev next : Nat → Nat) : Nat → List Nat → Nat → Prop
  | a, [], b => next a = b ∧ prev b = a
  | a, x :: xs, b => (next a = x ∧ prev x = a) ∧ Linked prev next x xs b

/-- `Ring s c ns`: in state `s` the container `c` is a closed ring made of its
sentinel and the data nodes `ns` (address and value, in forward order), and
`size_` counts them. -/
structure Ring (s : State T) (c : ListObj) (ns : List (Nat × T)) : Prop where
  sentinel : s.kind c.fake_node_ = Kind.base
  nodes : ∀ n ∈ ns, s.kind n.1 = Kind.node n.2
  linked : Linked s.prev s.next c.fake_node_ (ns.map Prod.fst) c.fake_node_
  nodup : (ns.map Prod.fst).Nodup
  size : c.size_ = ns.length

/-- The allocator's bookkeeping is consistent: nothing lives at or above `brk`,
and `brk` has not left the address space. -/
structure Sound (s : State T) : Prop where
  fresh : ∀ a, s.brk ≤ a → s.kind a = Kind.free
  bound : s.brk ≤ SIZE_MOD

/-- Number of `allocate` events minus number of `deallocate` events in a trace. -/
def outstanding : List Event → Int
  | [] => 0
  | Event.allocate _ _ :: evs => outstanding evs + 1
  | Event.deallocate _ _ :: evs => outstanding evs - 1
  | _ :: evs => outstanding evs

/-- `Grows s t ns ms`: code running on the container `s.this`, whose nodes were
`ns`, has led to state `t` in which its nodes are `ms`; everything else that
existed in `s` is untouched, nodes that left the ring are released, and every
address handed out meanwhile is either in the ring or released again. -/
structure Grows (s t : State T) (ns ms : List (Nat × T)) : Prop where
  ring : Ring t t.this ms
  sound : Sound t
  fake : t.this.fake_node_ = s.this.fake_node_
  alloc : t.this.alloc_ = s.this.alloc_
  brk_le : s.brk ≤ t.brk
  kind_eq : ∀ a, a ∉ s.this.fake_node_ :: ns.map Prod.fst → a < s.brk → t.kind a = s.kind a
  prev_eq : ∀ a, a ∉ s.this.fake_node_ :: ns.map Prod.fst → a < s.brk → t.prev a = s.prev a
  next_eq : ∀ a, a ∉ s.this.fake_node_ :: ns.map Prod.fst → a < s.brk → t.next a = s.next a
  origin : ∀ a ∈ ms.map Prod.fst, a ∈ ns.map Prod.fst ∨ s.brk ≤ a
  freed : ∀ a ∈ ns.map Prod.fst, a ∉ ms.map Prod.fst → t.kind a = Kind.free
  fresh : ∀ a, s.brk ≤ a → a ∉ ms.map Prod.fst → t.kind a = Kind.free

end Invariants

section Programs

variable {T : Type}

/-- A call of one of the four operations at the ends of the container. -/
inductive Op (T : Type) where
  | push_back (v : T)
  | push_front (v : T)
  | pop_back
  | pop_front
  deriving DecidableEq, Repr

/-- The member function a call stands for. -/
def Op.run (env : Env) : Op T → M T Unit
  | Op.push_back v => ListHpp.push_back env v
  | Op.push_front v => ListHpp.push_front env v
  | Op.pop_back => ListHpp.pop_back
  | Op.pop_front => ListHpp.pop_front

/-- A sequence of calls on one container, made one after the other. -/
def run_ops (env : Env) : List (Op T) → M T Unit
  | [] => pure ()
  | op :: ops => do
      op.run env
      run_ops env ops

/-- The abstract list after a call: `push_back` appends, `push_front` prepends,
`pop_back` drops the last element and `pop_front` drops the first. -/
def Op.model : Op T → List T → List T
  | Op.push_back v, xs => xs ++ [v]
  | Op.push_front v, xs => v :: xs
  | Op.pop_back, xs => xs.dropLast
  | Op.pop_front, xs => xs.tail

/-- The abstract list after a sequence of calls. -/
def model_ops : List (Op T) → List T → List T
  | [], xs => xs
  | op :: ops, xs => model_ops ops (op.model xs)

/-- Number of pushes in a sequence of calls. -/
def pushes : List (Op T) → Nat
  | [] => 0
  | Op.push_back _ :: ops => pushes ops + 1
  | Op.push_front _ :: ops => pushes ops + 1
  | _ :: ops => pushes ops

/-- Number of pops in a sequence of calls. -/
def pops : List (Op T) → Nat
  | [] => 0
  | Op.pop_back :: ops => pops ops + 1
  | Op.pop_front :: ops => pops ops + 1
  | _ :: ops => pops ops

/-- Whether every pop of the sequence is applied to a non-empty container,
when the container holds `n` elements at the start. -/
def guarded : List (Op T) → Nat → Bool
  | [], _ => true
  | Op.push_back _ :: ops, n => guarded ops (n + 1)
  | Op.push_front _ :: ops, n => guarded ops (n + 1)
  | Op.pop_back :: ops, n => n != 0 && guarded ops (n - 1)
  | Op.pop_front :: ops, n => n != 0 && guarded ops (n - 1)

/-- No call of `allocate` or `construct` is planned to throw. -/
def NoFailure (env : Env) : Prop :=
  ∀ i, env.allocate_fails i = false ∧ env.construct_fails i = false

end Programs

section Scenarios

variable {T : Type}

/-- The empty container made by `List()`, then a sequence of calls on it. -/
def build (env : Env) (ops : List (Op T)) : M T Unit := do
  List_default env
  run_ops env ops

/-- Surroundings in which no `allocate` and no `construct` throws, copies keep
the allocator of their source, and copy assignment does not propagate it. -/
def Env.reliable : Env :=
  { allocate_fails := fun _ => false
    construct_fails := fun _ => false
    select_on_container_copy_construction := fun al => al
    propagate_on_container_copy_assignment := false
    default_allocator := 0 }

/-- Surroundings like `Env.reliable` except that the call of `construct`
numbered `k` throws. -/
def Env.construct_fails_at (k : Nat) : Env :=
  { Env.reliable with construct_fails := fun i => i == k }

/-- Surroundings like `Env.reliable` except that the call of `allocate`
numbered `k` throws. -/
def Env.allocate_fails_at (k : Nat) : Env :=
  { Env.reliable with allocate_fails := fun i => i == k }

end Scenarios

section Traces

/-- The address an allocator call is about. -/
def Event.addr : Event → Nat
  | Event.allocate _ p => p
  | Event.construct _ p => p
  | Event.destroy _ p => p
  | Event.deallocate _ p => p

/-- The allocator instance a call went through. -/
def Event.al : Event → AllocId
  | Event.allocate al _ => al
  | Event.construct al _ => al
  | Event.destroy al _ => al
  | Event.deallocate al _ => al

/-- The piece of trace (newest first) left by building nodes at the addresses
`ps`, in this order, through the allocator `al`: each is allocated and then
constructed. -/
def built (al : AllocId) : List Nat → List Event
  | [] => []
  | p :: ps => built al ps ++ [Event.construct al p, Event.allocate al p]

/-- The piece of trace (newest first) left by releasing the nodes at the
addresses `ps`, in this order, through the allocator `al`: each is destroyed
and then deallocated. -/
def released (al : AllocId) : List Nat → List Event
  | [] => []
  | p :: ps => released al ps ++ [Event.deallocate al p, Event.destroy al p]

/-- A state with one container, at address 0, that holds the single element 5
in a node at address 1: what `List()` followed by `push_back(5)` makes of the
initial state. -/
def State.singleton : State Nat :=
  { kind := fun a => if a = 0 then Kind.base else if a = 1 then Kind.node 5 else Kind.free
    prev := fun a => if a = 0 then 1 else 0
    next := fun a => if a = 0 then 1 else 0
    brk := 2
    trace := [Event.construct 0 1, Event.allocate 0 1]
    allocate_calls := 1
    construct_calls := 1
    this := { fake_node_ := 0, size_ := 1, alloc_ := 0 } }

end Traces

section PushRuns

variable {T : Type}

/-- `Pushed env s t ns new fail`: starting in state `s`, where the container
`s.this` has the nodes `ns`, a run of `push_back` calls has appended the nodes
`new`, at the addresses `s.brk`, `s.brk + 1`, ..., and reached state `t`; `fail`
is the piece of trace left by the call that threw, if one did. -/
structure Pushed (env : Env) (s t : State T) (ns new : List (Nat × T)) (fail : List Event) :
    Prop where
  grows : Grows s t ns (ns ++ new)
  addrs : new.map Prod.fst = List.range' s.brk new.length
  trace : t.trace = fail ++ built s.this.alloc_ (new.map Prod.fst) ++ s.trace
  plan : ∀ i, i < new.length →
    env.allocate_fails (s.allocate_calls + i) = false ∧
      env.construct_fails (s.construct_calls + i) = false
  room : s.brk + new.length ≤ SIZE_MOD

/-- The call of `push_back` made after `j` successful ones from state `s` is
bound to throw: its `allocate` or its `construct` is planned to, or no address
is left. -/
def Blocked (env : Env) (s : State T) (j : Nat) : Prop :=
  env.allocate_fails (s.allocate_calls + j) = true ∨ SIZE_MOD ≤ s.brk + j ∨
    env.construct_fails (s.construct_calls + j) = true

end PushRuns

section Objects

variable {T : Type}

/-- The state in which a new, empty container object with allocator `al` has
been placed at the first unused address of `s`. -/
def State.with_object (s : State T) (al : AllocId) : State T :=
  { s with kind := Function.update s.kind s.brk Kind.base
           prev := Function.update s.prev s.brk s.brk
           next := Function.update s.next s.brk s.brk
           brk := s.brk + 1
           this := { fake_node_ := s.brk, size_ := 0, alloc_ := al } }

end Objects

section Examples

/-- A state with one container, at address 0, that holds 5 and 6 in nodes at
the addresses 1 and 2: what `List()` followed by `push_back(5)` and
`push_back(6)` makes of the initial state. -/
def State.pair : State Nat :=
  { kind := fun a =>
      if a = 0 then Kind.base else if a = 1 then Kind.node 5
      else if a = 2 then Kind.node 6 else Kind.free
    prev := fun a => if a = 0 then 2 else if a = 1 then 0 else if a = 2 then 1 else 0
    next := fun a => if a = 0 then 1 else if a = 1 then 2 else 0
    brk := 3
    trace := [Event.construct 0 2, Event.allocate 0 2, Event.construct 0 1, Event.allocate 0 1]
    allocate_calls := 2
    construct_calls := 2
    this := { fake_node_ := 0, size_ := 2, alloc_ := 0 } }

end Examples

section Assignment

variable {T : Type}

/-- The state in which the member `alloc_` of the running object is `al`. -/
def State.with_alloc (s : State T) (al : AllocId) : State T :=
  { s with this := { s.this with alloc_ := al } }

/-- The value of the local `next_allocator` of `operator=` after lines 186-192:
the allocator of `other` when the allocator propagates on copy assignment, the
allocator of the container otherwise. -/
def next_allocator (env : Env) (this other : ListObj) : AllocId :=
  if env.propagate_on_container_copy_assignment = true then other.alloc_ else this.alloc_

/-- A state with two containers: the running object, at address 0, holds 5 and
6 in nodes at the addresses 1 and 2; the container `State.second_list`, at
address 3, holds 7 and 8 in nodes at the addresses 4 and 5. It is what a second
`List()` followed by `push_back(7)` and `push_back(8)` makes of `State.pair`,
with the first container running again. -/
def State.two_lists : State Nat :=
  { kind := fun a =>
      if a = 0 then Kind.base else if a = 1 then Kind.node 5
      else if a = 2 then Kind.node 6 else if a = 3 then Kind.base
      else if a = 4 then Kind.node 7 else if a = 5 then Kind.node 8 else Kind.free
    prev := fun a =>
      if a = 0 then 2 else if a = 1 then 0 else if a = 2 then 1
      else if a = 3 then 5 else if a = 4 then 3 else if a = 5 then 4 else 0
    next := fun a =>
      if a = 0 then 1 else if a = 1 then 2 else if a = 2 then 0
      else if a = 3 then 4 else if a = 4 then 5 else if a = 5 then 3 else 0
    brk := 6
    trace := [Event.construct 0 5, Event.allocate 0 5, Event.construct 0 4, Event.allocate 0 4,
      Event.construct 0 2, Event.allocate 0 2, Event.construct 0 1, Event.allocate 0 1]
    allocate_calls := 4
    construct_calls := 4
    this := { fake_node_ := 0, size_ := 2, alloc_ := 0 } }

/-- The second container of `State.two_lists`. -/
def State.second_list : ListObj := { fake_node_ := 3, size_ := 2, alloc_ := 0 }

end Assignment

section FixedSize

variable {T : Type}

/-- `Filling s xs v`: the loop of a fixed-size constructor has built the nodes
at the addresses `xs` so far, each holding `v`: they are chained from the
sentinel up to the last one (which is `cur_node`), while the ring is not closed
yet. -/
structure Filling (s : State T) (xs : List Nat) (v : T) : Prop where
  sentinel : s.kind s.this.fake_node_ = Kind.base
  nodes : ∀ x ∈ xs, s.kind x = Kind.node v
  nodup : xs.Nodup
  linked : ∀ pre c, xs = pre ++ [c] → Linked s.prev s.next s.this.fake_node_ pre c
  sound : Sound s

/-- The state after one successful iteration of the loop of a fixed-size
constructor that started in `s` with `cur_node = cur`. -/
def State.filled (s : State T) (cur : Nat) (v : T) : State T :=
  { s with
    kind := Function.update s.kind s.brk (Kind.node v)
    prev := Function.update s.prev s.brk cur
    next := Function.update (Function.update s.next cur s.brk) s.brk s.brk
    brk := s.brk + 1
    trace := Event.construct s.this.alloc_ s.brk :: Event.allocate s.this.alloc_ s.brk :: s.trace
    allocate_calls := s.allocate_calls + 1
    construct_calls := s.construct_calls + 1 }

end FixedSize

section SizedObjects

variable {T : Type}

/-- The state in which a new container object whose members are initialised to
`size_ = sz` and `alloc_ = al`, with a self-linked sentinel, has been placed at
the first unused address of `s`. -/
def State.with_sized_object (s : State T) (sz : Nat) (al : AllocId) : State T :=
  { s with kind := Function.update s.kind s.brk Kind.base
           prev := Function.update s.prev s.brk s.brk
           next := Function.update s.next s.brk s.brk
           brk := s.brk + 1
           this := { fake_node_ := s.brk, size_ := sz, alloc_ := al } }

end SizedObjects

section Unwinding

variable {T : Type}

/-- The state after the node at `c` has been destroyed and deallocated through
the allocator of the running object. -/
def State.released_one (s : State T) (c : Nat) : State T :=
  { s with
    kind := Function.update s.kind c Kind.free
    trace := Event.deallocate s.this.alloc_ c :: Event.destroy s.this.alloc_ c :: s.trace }

/-- The state in which the handler of a fixed-size constructor starts its loop,
when the iteration that began in `s` with `cur_node = cur` has obtained storage
at `s.brk`, stored its address in `cur->next`, failed to construct the node and
given the storage back. -/
def State.failed (s : State T) (cur : Nat) : State T :=
  { s with
    next := Function.update s.next cur s.brk
    brk := s.brk + 1
    trace := Event.deallocate s.this.alloc_ s.brk :: Event.allocate s.this.alloc_ s.brk :: s.trace
    allocate_calls := s.allocate_calls + 1
    construct_calls := s.construct_calls + 1 }

end Unwinding

section Construction

variable {T : Type}

/-- `List::~List` (lines 217-220). -/
def List_destroy : M T Unit :=
  clear

/-- A call of one of the public constructors: `List()`, `List(count, value, alloc)`,
`List(count, alloc)` (which needs a default value of `T`), `List(other)` and
`List(init, alloc)`. -/
inductive Ctor (T : Type) where
  | default
  | count_value (count : Nat) (value : T) (alloc : AllocId)
  | count (inst : Inhabited T) (count : Nat) (alloc : AllocId)
  | copy (other : ListObj)
  | init (init : List T) (alloc : AllocId)

/-- The constructor a call stands for. -/
def Ctor.run (env : Env) : Ctor T → M T Unit
  | Ctor.default => List_default env
  | Ctor.count_value n v al => List_count_value env n v al
  | Ctor.count inst n al => @List_count T inst env n al
  | Ctor.copy other => List_copy env other
  | Ctor.init xs al => List_init env xs al

/-- What a constructor call needs of the state it is made in: the source of a
copy is a container. -/
def Ctor.ready (s : State T) : Ctor T → Prop
  | Ctor.copy other => ∃ os, Ring s other os
  | _ => True

/-- A container made by a public constructor, then a sequence of `push_back`,
`push_front`, `pop_back` and `pop_front` calls on it. -/
def make (env : Env) (c : Ctor T) (ops : List (Op T)) : M T Unit := do
  c.run env
  run_ops env ops

end Construction

section Cursors

variable {T : Type}

/-- The cursor reached from `it` by `n` applications of `++`. -/
def advance : Nat → Iterator → M T Iterator
  | 0, it => pure it
  | n + 1, it => do advance n (← it.inc)

end Cursors

section Closure

variable {T : Type}

/-- The ring of the running container is closed: from the sentinel, `size() + 1`
steps along `next` lead back to the sentinel, and so do `size() + 1` steps
along `prev`; and every node `n` met on the way along `next` is a live node
with `n.next.prev == n` and `n.prev.next == n`. -/
def Closed (s : State T) : Prop :=
  s.next^[size s.this + 1] s.this.fake_node_ = s.this.fake_node_ ∧
  s.prev^[size s.this + 1] s.this.fake_node_ = s.this.fake_node_ ∧
  ∀ i, i ≤ size s.this →
    (s.kind (s.next^[i] s.this.fake_node_)).is_object = true ∧
    s.prev (s.next (s.next^[i] s.this.fake_node_)) = s.next^[i] s.this.fake_node_ ∧
    s.next (s.prev (s.next^[i] s.this.fake_node_)) = s.next^[i] s.this.fake_node_

/-- Both links of the sentinel of the running container reference the sentinel
itself. -/
def SelfLinked (s : State T) : Prop :=
  s.next s.this.fake_node_ = s.this.fake_node_ ∧ s.prev s.this.fake_node_ = s.this.fake_node_

/-- `Produced env t`: the state `t` is produced by public operations that
completed successfully: a constructor run in a state whose bookkeeping is
consistent, then any number of `push_back`, `push_front`, `pop_back`,
`pop_front` calls and copy assignments from a container `other` of the same
state.  (A pop on an empty container is undefined and does not complete.) -/
inductive Produced (env : Env) : State T → Prop
  | ctor (c : Ctor T) (s t : State T) :
      Sound s → c.ready s → c.run env s = Res.ok () t → Produced env t
  | op (o : Op T) (s t : State T) :
      Produced env s → o.run env s = Res.ok () t → Produced env t
  | assign (other : ListObj) (os : List (Nat × T)) (s t : State T) :
      Produced env s → Ring s other os → assign env other s = Res.ok () t → Produced env t

end Closure

section AssignmentPhases

variable {T : Type}

/-- The body of the `try` block of `operator=` (lines 195-200), for the value
`next_allocator` of that local: `alloc_` is assigned first, then the elements
of `other` are copied.  Next to the outcome it gives the value of `cur_index`
when control leaves the block. -/
def assign_try (env : Env) (other : ListObj) (next_allocator : AllocId) :
    State T → Nat × Res (State T) Unit := fun s =>
  match (do set_alloc_ next_allocator
            get_next other.fake_node_ : M T Nat) s with
  | Res.ok other_cur_node s1 => copy_loop env other.size_ 0 other_cur_node s1
  | Res.threw e s1 => (0, Res.threw e s1)
  | Res.ub => (0, Res.ub)

/-- The handler of `operator=` (lines 201-207). -/
def assign_handler (old_allocator : AllocId) (cur_index : Nat) (e : Exc) : M T Unit := do
  for_count cur_index pop_back
  set_alloc_ old_allocator
  throw e

/-- The statements of `operator=` that follow the `try` block (lines 208-212). -/
def assign_release (old_allocator : AllocId) (old_size : Nat) (next_allocator : AllocId) :
    M T Unit := do
  set_alloc_ old_allocator
  for_count old_size pop_front
  set_alloc_ next_allocator

/-- Surroundings like `Env.reliable` except that the allocator propagates on
copy assignment. -/
def Env.propagating : Env :=
  { Env.reliable with propagate_on_container_copy_assignment := true }

/-- The state `State.two_lists` when the second container was built through
the allocator instance 1: its `alloc_` is 1 and so are the allocator of the
events of its two nodes. -/
def State.two_allocs : State Nat :=
  { State.two_lists with
    trace := [Event.construct 1 5, Event.allocate 1 5, Event.construct 1 4, Event.allocate 1 4,
      Event.construct 0 2, Event.allocate 0 2, Event.construct 0 1, Event.allocate 0 1] }

/-- The second container of `State.two_allocs`. -/
def State.other_list : ListObj := { fake_node_ := 3, size_ := 2, alloc_ := 1 }

end AssignmentPhases

/-! ## Symbolic execution of the member functions -/

section Execution
variable {T α β : Type}

@[simp] theorem M.bind_run (x : M T α) (f : α → M T β) (s : State T) :
    (x >>= f) s = match x s with
      | Res.ok a s1 => f a s1
      | Res.threw e s1 => Res.threw e s1
      | Res.ub => Res.ub := rfl

@[simp] theorem M.pure_run (a : α) (s : State T) : (pure a : M T α) s = Res.ok a s := rfl

@[simp] theorem M.throw_run (e : Exc) (s : State T) : (throw e : M T α) s = Res.threw e s := rfl

@[simp] theorem M.tryCatch_run (x : M T α) (h : Exc → M T α) (s : State T) :
    (tryCatch x h) s = match x s with
      | Res.threw e s1 => h e s1
      | r => r := rfl

@[simp] theorem Kind.is_object_node (v : T) : (Kind.node v).is_object = true := rfl
@[simp] theorem Kind.is_object_base : (Kind.base : Kind T).is_object = true := rfl
@[simp] theorem Kind.is_object_raw : (Kind.raw : Kind T).is_object = false := rfl
@[simp] theorem Kind.is_object_free : (Kind.free : Kind T).is_object = false := rfl

theorem push_back_ok (env : Env) (v : T) (s : State T)
    (ha : env.allocate_fails s.allocate_calls = false) (hb : s.brk < SIZE_MOD)
    (hc : env.construct_fails s.construct_calls = false)
    (hf : s.kind s.this.fake_node_ = Kind.base)
    (hl : (s.kind (s.prev s.this.fake_node_)).is_object = true)
    (hp : s.kind s.brk = Kind.free) :
    push_back env v s = Res.ok ()
      { s with
        kind := Function.update s.kind s.brk (Kind.node v)
        prev := Function.update (Function.update s.prev s.brk (s.prev s.this.fake_node_))
                  s.this.fake_node_ s.brk
        next := Function.update (Function.update s.next (s.prev s.this.fake_node_) s.brk)
                  s.brk s.this.fake_node_
        brk := s.brk + 1
        trace := Event.construct s.this.alloc_ s.brk :: Event.allocate s.this.alloc_ s.brk :: s.trace
        allocate_calls := s.allocate_calls + 1
        construct_calls := s.construct_calls + 1
        this := { s.this with size_ := size_t_inc s.this.size_ } } := by
  have hne : s.this.fake_node_ ≠ s.brk := by
    intro h; rw [h, hp] at hf; cases hf
  have hne2 : s.prev s.this.fake_node_ ≠ s.brk := by
    intro h; rw [h, hp] at hl; cases hl
  simp [push_back, allocate, construct, get_prev, set_next, set_prev, fake_node_, alloc_, size_, set_size_, ha, hb, hc, hf, hl, hp, hne, hne2, not_le.mpr hb]
  funext x
  simp only [Function.update_apply]
  split_ifs <;> simp_all

theorem push_back_alloc_fail (env : Env) (v : T) (s : State T)
    (ha : env.allocate_fails s.allocate_calls = true ∨ SIZE_MOD ≤ s.brk) :
    push_back env v s = Res.threw Exc.bad_alloc
      { s with allocate_calls := s.allocate_calls + 1 } := by
  simp [push_back, allocate, alloc_, ha]

theorem push_back_construct_fail (env : Env) (v : T) (s : State T)
    (ha : env.allocate_fails s.allocate_calls = false) (hb : s.brk < SIZE_MOD)
    (hc : env.construct_fails s.construct_calls = true)
    (hp : s.kind s.brk = Kind.free) :
    push_back env v s = Res.threw Exc.construct_failed
      { s with
        brk := s.brk + 1
        trace := Event.deallocate s.this.alloc_ s.brk :: Event.allocate s.this.alloc_ s.brk :: s.trace
        allocate_calls := s.allocate_calls + 1
        construct_calls := s.construct_calls + 1 } := by
  simp [push_back, allocate, construct, deallocate, alloc_, ha, hb, hc, not_le.mpr hb]
  exact hp.symm


theorem push_front_ok (env : Env) (v : T) (s : State T)
    (ha : env.allocate_fails s.allocate_calls = false) (hb : s.brk < SIZE_MOD)
    (hc : env.construct_fails s.construct_calls = false)
    (hf : s.kind s.this.fake_node_ = Kind.base)
    (hl : (s.kind (s.next s.this.fake_node_)).is_object = true)
    (hp : s.kind s.brk = Kind.free) :
    push_front env v s = Res.ok ()
      { s with
        kind := Function.update s.kind s.brk (Kind.node v)
        prev := Function.update (Function.update s.prev (s.next s.this.fake_node_) s.brk)
                  s.brk s.this.fake_node_
        next := Function.update (Function.update s.next s.brk (s.next s.this.fake_node_))
                  s.this.fake_node_ s.brk
        brk := s.brk + 1
        trace := Event.construct s.this.alloc_ s.brk :: Event.allocate s.this.alloc_ s.brk :: s.trace
        allocate_calls := s.allocate_calls + 1
        construct_calls := s.construct_calls + 1
        this := { s.this with size_ := size_t_inc s.this.size_ } } := by
  have hne : s.this.fake_node_ ≠ s.brk := by
    intro h; rw [h, hp] at hf; cases hf
  have hne2 : s.next s.this.fake_node_ ≠ s.brk := by
    intro h; rw [h, hp] at hl; cases hl
  simp [push_front, allocate, construct, get_next, set_next, set_prev, fake_node_, alloc_, size_, set_size_, ha, hb, hc, hf, hl, hp, hne, hne2, not_le.mpr hb]
  funext x
  simp only [Function.update_apply]
  split_ifs <;> simp_all

theorem push_front_alloc_fail (env : Env) (v : T) (s : State T)
    (ha : env.allocate_fails s.allocate_calls = true ∨ SIZE_MOD ≤ s.brk) :
    push_front env v s = Res.threw Exc.bad_alloc
      { s with allocate_calls := s.allocate_calls + 1 } := by
  simp [push_front, allocate, alloc_, ha]

theorem push_front_construct_fail (env : Env) (v : T) (s : State T)
    (ha : env.allocate_fails s.allocate_calls = false) (hb : s.brk < SIZE_MOD)
    (hc : env.construct_fails s.construct_calls = true)
    (hp : s.kind s.brk = Kind.free) :
    push_front env v s = Res.threw Exc.construct_failed
      { s with
        brk := s.brk + 1
        trace := Event.deallocate s.this.alloc_ s.brk :: Event.allocate s.this.alloc_ s.brk :: s.trace
        allocate_calls := s.allocate_calls + 1
        construct_calls := s.construct_calls + 1 } := by
  simp [push_front, allocate, construct, deallocate, alloc_, ha, hb, hc, not_le.mpr hb]
  exact hp.symm

theorem pop_back_ok (s : State T) (v : T)
    (hf : s.kind s.this.fake_node_ = Kind.base)
    (hl : s.kind (s.prev s.this.fake_node_) = Kind.node v)
    (hn : (s.kind (s.prev (s.prev s.this.fake_node_))).is_object = true)
    (hx : s.next (s.prev (s.prev s.this.fake_node_)) = s.prev s.this.fake_node_)
    (hne : s.prev (s.prev s.this.fake_node_) ≠ s.prev s.this.fake_node_) :
    pop_back s = Res.ok ()
      { s with
        kind := Function.update s.kind (s.prev s.this.fake_node_) Kind.free
        prev := Function.update s.prev s.this.fake_node_ (s.prev (s.prev s.this.fake_node_))
        next := Function.update s.next (s.prev (s.prev s.this.fake_node_)) s.this.fake_node_
        trace := Event.deallocate s.this.alloc_ (s.prev s.this.fake_node_) ::
                   Event.destroy s.this.alloc_ (s.prev s.this.fake_node_) :: s.trace
        this := { s.this with size_ := size_t_dec s.this.size_ } } := by
  have hne2 : s.this.fake_node_ ≠ s.prev s.this.fake_node_ := by
    intro h; rw [← h, hf] at hl; cases hl
  simp [pop_back, destroy, deallocate, get_prev, get_next, set_next, set_prev, fake_node_, alloc_, size_, set_size_, hf, hl, hn, hx, hne, hne2]

theorem pop_back_empty (s : State T)
    (hf : s.kind s.this.fake_node_ = Kind.base)
    (hl : s.prev s.this.fake_node_ = s.this.fake_node_)
    (hx : s.next s.this.fake_node_ = s.this.fake_node_) :
    pop_back s = Res.ub := by
  simp [pop_back, destroy, deallocate, get_prev, get_next, set_next, set_prev, fake_node_, alloc_, size_, set_size_, hf, hl, hx]

theorem pop_front_ok (s : State T) (v : T)
    (hf : s.kind s.this.fake_node_ = Kind.base)
    (hl : s.kind (s.next s.this.fake_node_) = Kind.node v)
    (hn : (s.kind (s.next (s.next s.this.fake_node_))).is_object = true)
    (hx : s.prev (s.next (s.next s.this.fake_node_)) = s.next s.this.fake_node_)
    (hne : s.next (s.next s.this.fake_node_) ≠ s.next s.this.fake_node_) :
    pop_front s = Res.ok ()
      { s with
        kind := Function.update s.kind (s.next s.this.fake_node_) Kind.free
        prev := Function.update s.prev (s.next (s.next s.this.fake_node_)) s.this.fake_node_
        next := Function.update s.next s.this.fake_node_ (s.next (s.next s.this.fake_node_))
        trace := Event.deallocate s.this.alloc_ (s.next s.this.fake_node_) ::
                   Event.destroy s.this.alloc_ (s.next s.this.fake_node_) :: s.trace
        this := { s.this with size_ := size_t_dec s.this.size_ } } := by
  have hne2 : s.this.fake_node_ ≠ s.next s.this.fake_node_ := by
    intro h; rw [← h, hf] at hl; cases hl
  simp [pop_front, destroy, deallocate, get_prev, get_next, set_next, set_prev, fake_node_, alloc_, size_, set_size_, hf, hl, hn, hx, hne, hne2]

theorem pop_front_empty (s : State T)
    (hf : s.kind s.this.fake_node_ = Kind.base)
    (hl : s.prev s.this.fake_node_ = s.this.fake_node_)
    (hx : s.next s.this.fake_node_ = s.this.fake_node_) :
    pop_front s = Res.ub := by
  simp [pop_front, destroy, deallocate, get_prev, get_next, set_next, set_prev, fake_node_, alloc_, size_, set_size_, hf, hl, hx]

end Execution
/-! ## The ring invariant -/

section RingLemmas
variable {T : Type}

theorem Linked.frame {prev next prev1 next1 : Nat → Nat} :
    ∀ (xs : List Nat) (a b : Nat), Linked prev next a xs b →
      (∀ x ∈ a :: xs, next1 x = next x) → (∀ x ∈ xs ++ [b], prev1 x = prev x) →
      Linked prev1 next1 a xs b
  | [], a, b, h, hn, hp => by
      simp only [Linked] at h ⊢
      rw [hn a (by simp), hp b (by simp)]
      exact h
  | x :: xs, a, b, h, hn, hp => by
      simp only [Linked] at h ⊢
      refine ⟨?_, Linked.frame xs x b h.2 ?_ ?_⟩
      · rw [hn a (by simp), hp x (by simp)]
        exact h.1
      · intro y hy
        exact hn y (List.mem_cons_of_mem _ hy)
      · intro y hy
        exact hp y (by simpa using Or.inr (by simpa using hy))

theorem Linked.append_iff {prev next : Nat → Nat} :
    ∀ (xs : List Nat) (a y b : Nat),
      Linked prev next a (xs ++ [y]) b ↔
        Linked prev next a xs y ∧ (next y = b ∧ prev b = y)
  | [], a, y, b => by simp [Linked]
  | x :: xs, a, y, b => by
      have ih := @Linked.append_iff prev next xs x y b
      show (next a = x ∧ prev x = a) ∧ Linked prev next x (xs ++ [y]) b ↔
        ((next a = x ∧ prev x = a) ∧ Linked prev next x xs y) ∧ (next y = b ∧ prev b = y)
      rw [ih]
      tauto

theorem Linked.next_head {prev next : Nat → Nat} :
    ∀ (xs : List Nat) (a b : Nat), Linked prev next a xs b → next a = xs.headD b
  | [], _, _, h => h.1
  | _ :: _, _, _, h => h.1.1

theorem Linked.prev_last {prev next : Nat → Nat} (xs : List Nat) (a b : Nat)
    (h : Linked prev next a xs b) : prev b = xs.getLastD a := by
  rcases List.eq_nil_or_concat xs with rfl | ⟨ys, y, rfl⟩
  · exact h.2
  · rw [List.concat_eq_append] at h ⊢
    rw [Linked.append_iff] at h
    simp [h.2.2]


theorem getLastD_mem_cons (xs : List Nat) (a : Nat) : xs.getLastD a ∈ a :: xs := by
  rcases List.eq_nil_or_concat xs with rfl | ⟨ys, y, rfl⟩
  · simp
  · simp

theorem headD_mem_cons (xs : List Nat) (a : Nat) : xs.headD a ∈ a :: xs := by
  cases xs <;> simp

theorem Ring.fake_not_mem {s : State T} {c : ListObj} {ns : List (Nat × T)}
    (h : Ring s c ns) : c.fake_node_ ∉ ns.map Prod.fst := by
  intro hm
  obtain ⟨n, hn, hn1⟩ := List.mem_map.mp hm
  have := h.nodes n hn
  rw [hn1, h.sentinel] at this
  cases this

theorem Ring.lt_brk {s : State T} {c : ListObj} {ns : List (Nat × T)}
    (h : Ring s c ns) (hs : Sound s) : ∀ a ∈ c.fake_node_ :: ns.map Prod.fst, a < s.brk := by
  intro a ha
  by_contra hlt
  have hfree := hs.fresh a (not_lt.mp hlt)
  rcases List.mem_cons.mp ha with rfl | hm
  · rw [h.sentinel] at hfree; cases hfree
  · obtain ⟨n, hn, rfl⟩ := List.mem_map.mp hm
    rw [h.nodes n hn] at hfree; cases hfree

theorem Ring.nodup_cons {s : State T} {c : ListObj} {ns : List (Nat × T)}
    (h : Ring s c ns) : (c.fake_node_ :: ns.map Prod.fst).Nodup :=
  List.nodup_cons.mpr ⟨h.fake_not_mem, h.nodup⟩

theorem Ring.length_lt {s : State T} {c : ListObj} {ns : List (Nat × T)}
    (h : Ring s c ns) (hs : Sound s) : ns.length < s.brk := by
  have hsub : c.fake_node_ :: ns.map Prod.fst ⊆ List.range s.brk := by
    intro a ha
    exact List.mem_range.mpr (h.lt_brk hs a ha)
  have := (List.subperm_of_subset h.nodup_cons hsub).length_le
  simp at this
  omega

theorem Ring.prev_fake {s : State T} {c : ListObj} {ns : List (Nat × T)}
    (h : Ring s c ns) : s.prev c.fake_node_ = (ns.map Prod.fst).getLastD c.fake_node_ :=
  Linked.prev_last _ _ _ h.linked

theorem Ring.next_fake {s : State T} {c : ListObj} {ns : List (Nat × T)}
    (h : Ring s c ns) : s.next c.fake_node_ = (ns.map Prod.fst).headD c.fake_node_ :=
  Linked.next_head _ _ _ h.linked

theorem Ring.is_object {s : State T} {c : ListObj} {ns : List (Nat × T)}
    (h : Ring s c ns) : ∀ a ∈ c.fake_node_ :: ns.map Prod.fst, (s.kind a).is_object = true := by
  intro a ha
  rcases List.mem_cons.mp ha with rfl | hm
  · rw [h.sentinel]; rfl
  · obtain ⟨n, hn, rfl⟩ := List.mem_map.mp hm
    rw [h.nodes n hn]; rfl

theorem Ring.transfer {s t : State T} {c d : ListObj} {ns : List (Nat × T)}
    (h : Ring s c ns) (hf : d.fake_node_ = c.fake_node_) (hsz : d.size_ = c.size_)
    (hk : ∀ a ∈ c.fake_node_ :: ns.map Prod.fst, t.kind a = s.kind a)
    (hp : ∀ a ∈ c.fake_node_ :: ns.map Prod.fst, t.prev a = s.prev a)
    (hn : ∀ a ∈ c.fake_node_ :: ns.map Prod.fst, t.next a = s.next a) : Ring t d ns where
  sentinel := by rw [hf, hk _ (by simp)]; exact h.sentinel
  nodes := by
    intro n hn1
    rw [hk _ (List.mem_cons_of_mem _ (List.mem_map_of_mem _ hn1))]
    exact h.nodes n hn1
  linked := by
    rw [hf]
    refine Linked.frame _ _ _ h.linked hn ?_
    intro x hx
    refine hp x ?_
    rcases List.mem_append.mp hx with hx | hx
    · exact List.mem_cons_of_mem _ hx
    · simp at hx; simp [hx]
  nodup := h.nodup
  size := by rw [hsz]; exact h.size

theorem size_t_inc_eq (n : Nat) (h : n + 1 < SIZE_MOD) : size_t_inc n = n + 1 := by
  unfold size_t_inc
  exact Nat.mod_eq_of_lt h

theorem size_t_dec_eq (n : Nat) : size_t_dec (n + 1) = n := by
  simp [size_t_dec]

theorem size_t_dec_mod (n : Nat) (h : n < SIZE_MOD) :
    size_t_dec n = (n + SIZE_MOD - 1) % SIZE_MOD := by
  unfold size_t_dec SIZE_MOD at *
  split <;> omega

theorem size_t_dec_of_eq (n m : Nat) (h : n = m + 1) : size_t_dec n = m := by
  rw [h]
  exact size_t_dec_eq m

theorem push_back_grows (env : Env) (v : T) (s : State T) (ns : List (Nat × T))
    (hr : Ring s s.this ns) (hs : Sound s)
    (ha : env.allocate_fails s.allocate_calls = false) (hb : s.brk < SIZE_MOD)
    (hc : env.construct_fails s.construct_calls = false) :
    ∃ t, push_back env v s = Res.ok () t ∧ Grows s t ns (ns ++ [(s.brk, v)]) ∧
      t.trace = Event.construct s.this.alloc_ s.brk :: Event.allocate s.this.alloc_ s.brk :: s.trace ∧
      t.brk = s.brk + 1 := by
  have hp : s.kind s.brk = Kind.free := hs.fresh _ (le_refl _)
  have hlt := hr.lt_brk hs
  have hlast := getLastD_mem_cons (ns.map Prod.fst) s.this.fake_node_
  rw [← hr.prev_fake] at hlast
  have hfne : s.this.fake_node_ ≠ s.brk := (hlt _ (by simp)).ne
  have hlne : s.prev s.this.fake_node_ ≠ s.brk := (hlt _ hlast).ne
  have hmem : ∀ a ∈ ns.map Prod.fst, a ≠ s.brk := fun a ha => (hlt a (List.mem_cons_of_mem _ ha)).ne
  refine ⟨_, push_back_ok env v s ha hb hc hr.sentinel (hr.is_object _ hlast) hp, ?_, rfl, rfl⟩
  constructor
  · constructor
    · simp [hfne, hr.sentinel]
    · intro n hn
      rcases List.mem_append.mp hn with hn | hn
      · have := hmem _ (List.mem_map_of_mem Prod.fst hn)
        simp [this, hr.nodes n hn]
      · simp at hn; subst hn; simp
    · simp only [List.map_append, List.map_cons, List.map_nil]
      rw [Linked.append_iff]
      refine ⟨?_, by simp, by simp⟩
      have hlk := hr.linked
      rcases List.eq_nil_or_concat (ns.map Prod.fst) with hnil | ⟨as, m, hcat⟩
      · have hl : s.prev s.this.fake_node_ = s.this.fake_node_ := by
          rw [hr.prev_fake, hnil]; rfl
        rw [hnil]
        simp [Linked, hl, hfne, hfne.symm]
      · rw [List.concat_eq_append] at hcat
        have hl : s.prev s.this.fake_node_ = m := by
          rw [hr.prev_fake, hcat]; simp
        have hnd := hr.nodup_cons
        rw [hcat] at hlk hnd hmem
        rw [hcat, Linked.append_iff] at *
        have hmf : m ≠ s.this.fake_node_ := by
          intro h; simp [h] at hnd
        have hmp : m ≠ s.brk := hl ▸ hlne
        refine ⟨Linked.frame _ _ _ hlk.1 ?_ ?_, by simp [hl, hmp], by simp [hl, hfne.symm]⟩
        · intro x hx
          have hxm : x ≠ m := by
            rintro rfl
            rcases List.mem_cons.mp hx with h | h
            · exact hmf h
            · have := (List.nodup_cons.mp hnd).2
              rw [List.nodup_append] at this
              exact this.2.2 h (by simp)
          have hxp : x ≠ s.brk := by
            rcases List.mem_cons.mp hx with h | h
            · rw [h]; exact hfne
            · exact hmem x (by simp [h])
          simp [hl, hxm, hxp]
        · intro x hx
          have hx' : x ∈ as ++ [m] := hx
          have hxp : x ≠ s.brk := hmem x hx'
          have hxf : x ≠ s.this.fake_node_ := by
            rintro rfl
            exact (List.nodup_cons.mp hnd).1 hx'
          simp [hxp, hxf]
    · simp only [List.map_append, List.map_cons, List.map_nil]
      rw [List.nodup_append]
      refine ⟨hr.nodup, by simp, ?_⟩
      intro a ha hb'
      simp at hb'
      exact hmem a ha hb'
    · have := hr.length_lt hs
      simp only [List.length_append, List.length_cons, List.length_nil]
      rw [hr.size, size_t_inc_eq _ (by omega)]
  · constructor
    · intro a ha
      have : a ≠ s.brk := by simp at ha; omega
      simp [this]
      exact hs.fresh a (by simp at ha; omega)
    · simp; omega
  · rfl
  · rfl
  · simp
  · intro a ha hlt'
    simp [hlt'.ne]
  · intro a ha hlt'
    have hf : a ≠ s.this.fake_node_ := fun h => ha (by simp [h])
    simp [hlt'.ne, hf]
  · intro a ha hlt'
    have hl : a ≠ s.prev s.this.fake_node_ := fun h => ha (h ▸ hlast)
    simp [hlt'.ne, hl]
  · intro a ha
    simp at ha ⊢
    rcases ha with ⟨b, hb'⟩ | rfl
    · exact Or.inl ⟨b, hb'⟩
    · exact Or.inr (le_refl _)
  · intro a ha hna
    simp at ha hna
    obtain ⟨b, hb'⟩ := ha
    exact absurd hb' (hna.1 b)
  · intro a ha hna
    have : a ≠ s.brk := by
      intro h; apply hna; simp [h]
    simp [this]
    exact hs.fresh a ha

theorem Linked.next_last {prev next : Nat → Nat} (xs : List Nat) (a b : Nat)
    (h : Linked prev next a xs b) : next (xs.getLastD a) = b := by
  rcases List.eq_nil_or_concat xs with rfl | ⟨ys, y, rfl⟩
  · exact h.1
  · rw [List.concat_eq_append] at h ⊢
    rw [Linked.append_iff] at h
    simp [h.2.1]

theorem Linked.prev_head {prev next : Nat → Nat} :
    ∀ (xs : List Nat) (a b : Nat), Linked prev next a xs b → prev (xs.headD b) = a
  | [], _, _, h => h.2
  | _ :: _, _, _, h => h.1.2

theorem push_front_grows (env : Env) (v : T) (s : State T) (ns : List (Nat × T))
    (hr : Ring s s.this ns) (hs : Sound s)
    (ha : env.allocate_fails s.allocate_calls = false) (hb : s.brk < SIZE_MOD)
    (hc : env.construct_fails s.construct_calls = false) :
    ∃ t, push_front env v s = Res.ok () t ∧ Grows s t ns ((s.brk, v) :: ns) ∧
      t.trace = Event.construct s.this.alloc_ s.brk :: Event.allocate s.this.alloc_ s.brk :: s.trace ∧
      t.brk = s.brk + 1 := by
  have hp : s.kind s.brk = Kind.free := hs.fresh _ (le_refl _)
  have hlt := hr.lt_brk hs
  have hfirst := headD_mem_cons (ns.map Prod.fst) s.this.fake_node_
  rw [← hr.next_fake] at hfirst
  have hfne : s.this.fake_node_ ≠ s.brk := (hlt _ (by simp)).ne
  have hlne : s.next s.this.fake_node_ ≠ s.brk := (hlt _ hfirst).ne
  have hmem : ∀ a ∈ ns.map Prod.fst, a ≠ s.brk := fun a ha => (hlt a (List.mem_cons_of_mem _ ha)).ne
  refine ⟨_, push_front_ok env v s ha hb hc hr.sentinel (hr.is_object _ hfirst) hp, ?_, rfl, rfl⟩
  constructor
  · constructor
    · simp [hfne, hr.sentinel]
    · intro n hn
      rcases List.mem_cons.mp hn with hn | hn
      · subst hn; simp
      · have := hmem _ (List.mem_map_of_mem Prod.fst hn)
        simp [this, hr.nodes n hn]
    · simp only [List.map_cons]
      have hlk := hr.linked
      refine ⟨⟨by simp, by simp [hfne.symm]⟩, ?_⟩
      cases hns : ns.map Prod.fst with
      | nil =>
        have hl : s.next s.this.fake_node_ = s.this.fake_node_ := by
          rw [hr.next_fake, hns]; rfl
        simp [Linked, hl, hfne, hfne.symm]
      | cons m as =>
        have hl : s.next s.this.fake_node_ = m := by
          rw [hr.next_fake, hns]; rfl
        have hnd := hr.nodup_cons
        rw [hns] at hlk hnd hmem
        have hmf : m ≠ s.this.fake_node_ := by
          intro h; simp [h] at hnd
        have hmp : m ≠ s.brk := hl ▸ hlne
        refine ⟨⟨by simp [hl, hmp.symm, hfne.symm], by simp [hl, hmp]⟩, Linked.frame _ _ _ hlk.2 ?_ ?_⟩
        · intro x hx
          have hxp : x ≠ s.brk := hmem x hx
          have hxf : x ≠ s.this.fake_node_ := by
            rintro rfl
            exact (List.nodup_cons.mp hnd).1 hx
          simp [hxp, hxf]
        · intro x hx
          have hxm : x ≠ m := by
            rintro rfl
            rcases List.mem_append.mp hx with h | h
            · exact (List.nodup_cons.mp (List.nodup_cons.mp hnd).2).1 h
            · simp at h; exact hmf h
          have hxp : x ≠ s.brk := by
            rcases List.mem_append.mp hx with h | h
            · exact hmem x (List.mem_cons_of_mem _ h)
            · simp at h; rw [h]; exact hfne
          simp [hl, hxm, hxp]
    · simp only [List.map_cons]
      rw [List.nodup_cons]
      exact ⟨fun h => hmem _ h rfl, hr.nodup⟩
    · have := hr.length_lt hs
      simp only [List.length_cons]
      rw [hr.size, size_t_inc_eq _ (by omega)]
  · constructor
    · intro a ha
      have : a ≠ s.brk := by simp at ha; omega
      simp [this]
      exact hs.fresh a (by simp at ha; omega)
    · simp; omega
  · rfl
  · rfl
  · simp
  · intro a ha hlt'
    simp [hlt'.ne]
  · intro a ha hlt'
    have hl : a ≠ s.next s.this.fake_node_ := fun h => ha (h ▸ hfirst)
    simp [hlt'.ne, hl]
  · intro a ha hlt'
    have hf : a ≠ s.this.fake_node_ := fun h => ha (by simp [h])
    simp [hlt'.ne, hf]
  · intro a ha
    simp at ha ⊢
    rcases ha with rfl | ⟨b, hb'⟩
    · exact Or.inr (le_refl _)
    · exact Or.inl ⟨b, hb'⟩
  · intro a ha hna
    simp at ha hna
    obtain ⟨b, hb'⟩ := ha
    exact absurd hb' (hna.2 b)
  · intro a ha hna
    have : a ≠ s.brk := by
      intro h; apply hna; simp [h]
    simp [this]
    exact hs.fresh a ha


end RingLemmas

section RingPop
variable {T : Type}

theorem pop_back_grows (s : State T) (ns : List (Nat × T)) (l : Nat) (v : T)
    (hr : Ring s s.this (ns ++ [(l, v)])) (hs : Sound s) :
    ∃ t, pop_back s = Res.ok () t ∧ Grows s t (ns ++ [(l, v)]) ns ∧
      t.trace = Event.deallocate s.this.alloc_ l :: Event.destroy s.this.alloc_ l :: s.trace ∧
      t.brk = s.brk := by
  have hlt := hr.lt_brk hs
  have hlk := hr.linked
  have hnd := hr.nodup_cons
  simp only [List.map_append, List.map_cons, List.map_nil] at hlk hnd hlt
  rw [Linked.append_iff] at hlk
  obtain ⟨hlk1, hnl, hpf⟩ := hlk
  have hnbl := getLastD_mem_cons (ns.map Prod.fst) s.this.fake_node_
  rw [← Linked.prev_last _ _ _ hlk1] at hnbl
  have hx := Linked.next_last _ _ _ hlk1
  rw [← Linked.prev_last _ _ _ hlk1] at hx
  have hlnot : l ∉ s.this.fake_node_ :: ns.map Prod.fst := by
    intro h
    rcases List.mem_cons.mp h with h | h
    · rw [h] at hnd; simp at hnd
    · have := (List.nodup_cons.mp hnd).2
      rw [List.nodup_append] at this
      exact this.2.2 h (by simp)
  have hne : s.prev l ≠ l := fun h => hlnot (h ▸ hnbl)
  have hkl : s.kind l = Kind.node v := hr.nodes (l, v) (by simp)
  have hfl : s.this.fake_node_ ≠ l := fun h => hlnot (by simp [h])
  have hobj : (s.kind (s.prev l)).is_object = true :=
    hr.is_object _ (by
      rcases List.mem_cons.mp hnbl with h | h
      · simp [h]
      · simp [h])
  have hrun := pop_back_ok s v hr.sentinel (by rw [hpf]; exact hkl) (by rw [hpf]; exact hobj)
    (by rw [hpf]; exact hx) (by rw [hpf]; exact hne)
  rw [hpf] at hrun
  refine ⟨_, hrun, ?_, rfl, rfl⟩
  clear hrun
  constructor
  · constructor
    · simp [hfl, hr.sentinel]
    · intro n hn
      have hnl' : n.1 ≠ l := fun h => hlnot (by
        rw [← h]; exact List.mem_cons_of_mem _ (List.mem_map_of_mem Prod.fst hn))
      simp [hnl', hr.nodes n (List.mem_append_left _ hn)]
    · rcases List.eq_nil_or_concat (ns.map Prod.fst) with hnil | ⟨as, m, hcat⟩
      · rw [hnil] at hlk1 ⊢
        simp only [Linked] at hlk1 ⊢
        rw [hlk1.2]
        simp
      · rw [List.concat_eq_append] at hcat
        rw [hcat] at hlk1 hlnot ⊢
        rw [Linked.append_iff] at hlk1 ⊢
        obtain ⟨h1, h2, h3⟩ := hlk1
        have hnd2 : (s.this.fake_node_ :: (as ++ [m])).Nodup := by
          have := hr.nodup_cons
          simp only [List.map_append, List.map_cons, List.map_nil, hcat] at this
          rw [← List.cons_append, ← List.cons_append, List.nodup_append] at this
          exact this.1
        have hmf : m ≠ s.this.fake_node_ := by
          intro h; simp [h] at hnd2
        rw [h3]
        refine ⟨Linked.frame _ _ _ h1 ?_ ?_, by simp, by simp⟩
        · intro x hx'
          have hxm : x ≠ m := by
            rintro rfl
            rcases List.mem_cons.mp hx' with h | h
            · exact hmf h
            · have := (List.nodup_cons.mp hnd2).2
              rw [List.nodup_append] at this
              exact this.2.2 h (by simp)
          simp [hxm]
        · intro x hx'
          have hxf : x ≠ s.this.fake_node_ := by
            rintro rfl
            exact (List.nodup_cons.mp hnd2).1 hx'
          simp [hxf]
    · have := hr.nodup
      simp only [List.map_append] at this
      exact (List.nodup_append.mp this).1
    · have h3 := hr.size
      simp only [List.length_append, List.length_cons, List.length_nil] at h3
      exact size_t_dec_of_eq _ _ h3
  · constructor
    · intro a ha
      have : a ≠ l := by
        have := hlt l (by simp)
        show a ≠ l
        intro h; rw [h] at ha; exact absurd ha (not_le.mpr this)
      simp [this]
      exact hs.fresh a ha
    · exact hs.bound
  · rfl
  · rfl
  · exact le_refl _
  · intro a ha _
    have : a ≠ l := fun h => ha (by simp [h])
    simp [this]
  · intro a ha _
    have hf : a ≠ s.this.fake_node_ := fun h => ha (by simp [h])
    simp [hf]
  · intro a ha _
    have hl : a ≠ s.prev l := by
      intro h
      apply ha
      rw [h]
      rcases List.mem_cons.mp hnbl with h' | h'
      · simp [h']
      · simp [h']
    simp [hl]
  · intro a ha
    left
    simp at ha ⊢
    obtain ⟨b, hb'⟩ := ha
    exact Or.inl ⟨b, hb'⟩
  · intro a ha hna
    simp only [List.map_append, List.map_cons, List.map_nil, List.mem_append,
      List.mem_singleton] at ha
    rcases ha with ha | rfl
    · exact absurd ha hna
    · simp
  · intro a ha _
    have : a ≠ l := by
      have := hlt l (by simp)
      intro h; rw [h] at ha; exact absurd ha (not_le.mpr this)
    simp [this]
    exact hs.fresh a ha

end RingPop

section RingPopFront
variable {T : Type}

theorem pop_front_grows (s : State T) (ns : List (Nat × T)) (l : Nat) (v : T)
    (hr : Ring s s.this ((l, v) :: ns)) (hs : Sound s) :
    ∃ t, pop_front s = Res.ok () t ∧ Grows s t ((l, v) :: ns) ns ∧
      t.trace = Event.deallocate s.this.alloc_ l :: Event.destroy s.this.alloc_ l :: s.trace ∧
      t.brk = s.brk := by
  have hlt := hr.lt_brk hs
  have hlk := hr.linked
  have hnd := hr.nodup_cons
  simp only [List.map_cons] at hlk hnd hlt
  obtain ⟨⟨hnf, hpl⟩, hlk1⟩ := hlk
  have hnal := headD_mem_cons (ns.map Prod.fst) s.this.fake_node_
  rw [← Linked.next_head _ _ _ hlk1] at hnal
  have hx := Linked.prev_head _ _ _ hlk1
  rw [← Linked.next_head _ _ _ hlk1] at hx
  have hlnot : l ∉ s.this.fake_node_ :: ns.map Prod.fst := by
    intro h
    rcases List.mem_cons.mp h with h | h
    · rw [h] at hnd; simp at hnd
    · exact (List.nodup_cons.mp (List.nodup_cons.mp hnd).2).1 h
  have hne : s.next l ≠ l := fun h => hlnot (h ▸ hnal)
  have hkl : s.kind l = Kind.node v := hr.nodes (l, v) (by simp)
  have hfl : s.this.fake_node_ ≠ l := fun h => hlnot (by simp [h])
  have hobj : (s.kind (s.next l)).is_object = true :=
    hr.is_object _ (by
      rcases List.mem_cons.mp hnal with h | h
      · simp [h]
      · simp [h])
  have hrun := pop_front_ok s v hr.sentinel (by rw [hnf]; exact hkl) (by rw [hnf]; exact hobj)
    (by rw [hnf]; exact hx) (by rw [hnf]; exact hne)
  rw [hnf] at hrun
  refine ⟨_, hrun, ?_, rfl, rfl⟩
  clear hrun
  constructor
  · constructor
    · simp [hfl, hr.sentinel]
    · intro n hn
      have hnl' : n.1 ≠ l := fun h => hlnot (by
        rw [← h]; exact List.mem_cons_of_mem _ (List.mem_map_of_mem Prod.fst hn))
      simp [hnl', hr.nodes n (List.mem_cons_of_mem _ hn)]
    · cases hns : ns.map Prod.fst with
      | nil =>
        rw [hns] at hlk1
        simp only [Linked] at hlk1 ⊢
        rw [hlk1.1]
        simp
      | cons m as =>
        rw [hns] at hlk1 hlnot
        obtain ⟨⟨h2, h3⟩, h1⟩ := hlk1
        have hnd2 : (s.this.fake_node_ :: m :: as).Nodup := by
          have := hr.nodup_cons
          simp only [List.map_cons, hns] at this
          exact List.nodup_cons.mpr ⟨fun h => (List.nodup_cons.mp this).1 (List.mem_cons_of_mem _ h),
            (List.nodup_cons.mp (List.nodup_cons.mp this).2).2⟩
        have hmf : m ≠ s.this.fake_node_ := by
          intro h; simp [h] at hnd2
        rw [h2]
        refine ⟨⟨by simp, by simp⟩, Linked.frame _ _ _ h1 ?_ ?_⟩
        · intro x hx'
          have hxf : x ≠ s.this.fake_node_ := by
            rintro rfl
            exact (List.nodup_cons.mp hnd2).1 hx'
          simp [hxf]
        · intro x hx'
          have hxm : x ≠ m := by
            rintro rfl
            rcases List.mem_append.mp hx' with h | h
            · exact (List.nodup_cons.mp (List.nodup_cons.mp hnd2).2).1 h
            · simp at h; exact hmf h
          simp [hxm]
    · have := hr.nodup
      simp only [List.map_cons] at this
      exact (List.nodup_cons.mp this).2
    · have h3 := hr.size
      simp only [List.length_cons] at h3
      exact size_t_dec_of_eq _ _ h3
  · constructor
    · intro a ha
      have : a ≠ l := by
        have := hlt l (by simp)
        intro h; rw [h] at ha; exact absurd ha (not_le.mpr this)
      simp [this]
      exact hs.fresh a ha
    · exact hs.bound
  · rfl
  · rfl
  · exact le_refl _
  · intro a ha _
    have : a ≠ l := fun h => ha (by simp [h])
    simp [this]
  · intro a ha _
    have hl : a ≠ s.next l := by
      intro h
      apply ha
      rw [h]
      rcases List.mem_cons.mp hnal with h' | h'
      · simp [h']
      · simp [h']
    simp [hl]
  · intro a ha _
    have hf : a ≠ s.this.fake_node_ := fun h => ha (by simp [h])
    simp [hf]
  · intro a ha
    left
    simp at ha ⊢
    obtain ⟨b, hb'⟩ := ha
    exact Or.inr ⟨b, hb'⟩
  · intro a ha hna
    simp only [List.map_cons, List.mem_cons] at ha
    rcases ha with rfl | ha
    · simp
    · exact absurd ha hna
  · intro a ha _
    have : a ≠ l := by
      have := hlt l (by simp)
      intro h; rw [h] at ha; exact absurd ha (not_le.mpr this)
    simp [this]
    exact hs.fresh a ha

end RingPopFront

section GrowsLemmas
variable {T : Type}

theorem Grows.same {s t : State T} {ns : List (Nat × T)} (hr : Ring s s.this ns)
    (hs : Sound s) (hk : t.kind = s.kind) (hp : t.prev = s.prev) (hn : t.next = s.next)
    (hthis : t.this = s.this) (hb : s.brk ≤ t.brk) (hb2 : t.brk ≤ SIZE_MOD) :
    Grows s t ns ns where
  ring := by
    rw [hthis]
    exact hr.transfer rfl rfl (fun a _ => by rw [hk]) (fun a _ => by rw [hp]) (fun a _ => by rw [hn])
  sound := ⟨fun a ha => by rw [hk]; exact hs.fresh a (le_trans hb ha), hb2⟩
  fake := by rw [hthis]
  alloc := by rw [hthis]
  brk_le := hb
  kind_eq := fun a _ _ => by rw [hk]
  prev_eq := fun a _ _ => by rw [hp]
  next_eq := fun a _ _ => by rw [hn]
  origin := fun a ha => Or.inl ha
  freed := fun a ha hna => absurd ha hna
  fresh := fun a ha _ => by rw [hk]; exact hs.fresh a ha

theorem Grows.refl {s : State T} {ns : List (Nat × T)} (hr : Ring s s.this ns)
    (hs : Sound s) : Grows s s ns ns :=
  Grows.same hr hs rfl rfl rfl rfl (le_refl _) hs.bound

theorem Grows.trans {s t u : State T} {ns ms ks : List (Nat × T)}
    (hr : Ring s s.this ns) (hs : Sound s)
    (h1 : Grows s t ns ms) (h2 : Grows t u ms ks) : Grows s u ns ks := by
  have hout : ∀ a, a ∉ s.this.fake_node_ :: ns.map Prod.fst → a < s.brk →
      a ∉ t.this.fake_node_ :: ms.map Prod.fst ∧ a < t.brk := by
    intro a ha hlt
    refine ⟨?_, lt_of_lt_of_le hlt h1.brk_le⟩
    intro hm
    rw [h1.fake] at hm
    rcases List.mem_cons.mp hm with h | h
    · exact ha (by simp [h])
    · rcases h1.origin a h with h' | h'
      · exact ha (List.mem_cons_of_mem _ h')
      · exact absurd hlt (not_lt.mpr h')
  have hfree : ∀ a, t.kind a = Kind.free → a < t.brk → a ∉ ms.map Prod.fst →
      u.kind a = Kind.free := by
    intro a hfr hlt hm
    rw [h2.kind_eq a ?_ hlt]
    · exact hfr
    · intro h
      rcases List.mem_cons.mp h with h | h
      · rw [h, h1.ring.sentinel] at hfr; cases hfr
      · exact hm h
  constructor
  · exact h2.ring
  · exact h2.sound
  · exact h2.fake.trans h1.fake
  · exact h2.alloc.trans h1.alloc
  · exact le_trans h1.brk_le h2.brk_le
  · intro a ha hlt
    obtain ⟨h, h'⟩ := hout a ha hlt
    rw [h2.kind_eq a h h', h1.kind_eq a ha hlt]
  · intro a ha hlt
    obtain ⟨h, h'⟩ := hout a ha hlt
    rw [h2.prev_eq a h h', h1.prev_eq a ha hlt]
  · intro a ha hlt
    obtain ⟨h, h'⟩ := hout a ha hlt
    rw [h2.next_eq a h h', h1.next_eq a ha hlt]
  · intro a ha
    rcases h2.origin a ha with h | h
    · exact h1.origin a h
    · exact Or.inr (le_trans h1.brk_le h)
  · intro a ha hna
    by_cases hm : a ∈ ms.map Prod.fst
    · exact h2.freed a hm hna
    · exact hfree a (h1.freed a ha hm)
        (lt_of_lt_of_le (hr.lt_brk hs a (List.mem_cons_of_mem _ ha)) h1.brk_le) hm
  · intro a ha hna
    by_cases hlt : t.brk ≤ a
    · exact h2.fresh a hlt hna
    · by_cases hm : a ∈ ms.map Prod.fst
      · exact h2.freed a hm hna
      · exact hfree a (h1.fresh a ha hm) (not_le.mp hlt) hm

/-- What a failed `push_back` or `push_front` leaves behind: the same heap and
the same object, and either no allocator call or an `allocate` undone by a
`deallocate`. -/
theorem push_back_fails (env : Env) (v : T) (s : State T) (ns : List (Nat × T))
    (hr : Ring s s.this ns) (hs : Sound s)
    (h : ¬(env.allocate_fails s.allocate_calls = false ∧ s.brk < SIZE_MOD ∧
          env.construct_fails s.construct_calls = false)) :
    ∃ e t, push_back env v s = Res.threw e t ∧ Grows s t ns ns ∧
      t.kind = s.kind ∧ t.prev = s.prev ∧ t.next = s.next ∧ t.this = s.this ∧
      (t.trace = s.trace ∨
        t.trace = Event.deallocate s.this.alloc_ s.brk ::
          Event.allocate s.this.alloc_ s.brk :: s.trace) := by
  by_cases ha : env.allocate_fails s.allocate_calls = true ∨ SIZE_MOD ≤ s.brk
  · refine ⟨_, _, push_back_alloc_fail env v s ha, ?_, rfl, rfl, rfl, rfl, Or.inl rfl⟩
    exact Grows.same hr hs rfl rfl rfl rfl (le_refl _) hs.bound
  · have ha1 : env.allocate_fails s.allocate_calls = false := by
      cases h' : env.allocate_fails s.allocate_calls
      · rfl
      · exact absurd (Or.inl h') ha
    have hb : s.brk < SIZE_MOD := by
      by_contra h'
      exact ha (Or.inr (not_lt.mp h'))
    have hc : env.construct_fails s.construct_calls = true := by
      cases h' : env.construct_fails s.construct_calls
      · exact absurd ⟨ha1, hb, h'⟩ h
      · rfl
    refine ⟨_, _, push_back_construct_fail env v s ha1 hb hc (hs.fresh _ (le_refl _)), ?_,
      rfl, rfl, rfl, rfl, Or.inr rfl⟩
    exact Grows.same hr hs rfl rfl rfl rfl (Nat.le_succ _) hb

theorem push_front_fails (env : Env) (v : T) (s : State T) (ns : List (Nat × T))
    (hr : Ring s s.this ns) (hs : Sound s)
    (h : ¬(env.allocate_fails s.allocate_calls = false ∧ s.brk < SIZE_MOD ∧
          env.construct_fails s.construct_calls = false)) :
    ∃ e t, push_front env v s = Res.threw e t ∧ Grows s t ns ns ∧
      t.kind = s.kind ∧ t.prev = s.prev ∧ t.next = s.next ∧ t.this = s.this ∧
      (t.trace = s.trace ∨
        t.trace = Event.deallocate s.this.alloc_ s.brk ::
          Event.allocate s.this.alloc_ s.brk :: s.trace) := by
  by_cases ha : env.allocate_fails s.allocate_calls = true ∨ SIZE_MOD ≤ s.brk
  · refine ⟨_, _, push_front_alloc_fail env v s ha, ?_, rfl, rfl, rfl, rfl, Or.inl rfl⟩
    exact Grows.same hr hs rfl rfl rfl rfl (le_refl _) hs.bound
  · have ha1 : env.allocate_fails s.allocate_calls = false := by
      cases h' : env.allocate_fails s.allocate_calls
      · rfl
      · exact absurd (Or.inl h') ha
    have hb : s.brk < SIZE_MOD := by
      by_contra h'
      exact ha (Or.inr (not_lt.mp h'))
    have hc : env.construct_fails s.construct_calls = true := by
      cases h' : env.construct_fails s.construct_calls
      · exact absurd ⟨ha1, hb, h'⟩ h
      · rfl
    refine ⟨_, _, push_front_construct_fail env v s ha1 hb hc (hs.fresh _ (le_refl _)), ?_,
      rfl, rfl, rfl, rfl, Or.inr rfl⟩
    exact Grows.same hr hs rfl rfl rfl rfl (Nat.le_succ _) hb

theorem pop_back_ub (s : State T) (hr : Ring s s.this []) : pop_back s = Res.ub :=
  pop_back_empty s hr.sentinel hr.linked.2 hr.linked.1

theorem pop_front_ub (s : State T) (hr : Ring s s.this []) : pop_front s = Res.ub :=
  pop_front_empty s hr.sentinel hr.linked.2 hr.linked.1

end GrowsLemmas

section Traversal
variable {T : Type}

theorem forward_from_linked (s : State T) (hf : s.kind s.this.fake_node_ = Kind.base) :
    ∀ (ns : List (Nat × T)) (a : Nat),
      (∀ n ∈ ns, s.kind n.1 = Kind.node n.2) →
      Linked s.prev s.next a (ns.map Prod.fst) s.this.fake_node_ →
      ∀ fuel, ns.length ≤ fuel →
        forward_from s fuel { cur_node_ := (ns.map Prod.fst).headD s.this.fake_node_ } =
          some (ns.map Prod.snd)
  | [], a, _, _, fuel, _ => by
      cases fuel <;> simp [forward_from, end_, fake_node_, Iterator.ne, Iterator.eq]
  | (x, v) :: rest, a, hn, hl, fuel, hfuel => by
      obtain ⟨k, rfl⟩ : ∃ k, fuel = k + 1 := ⟨fuel - 1, by simp at hfuel; omega⟩
      have hx : s.kind x = Kind.node v := hn (x, v) (by simp)
      have hxf : x ≠ s.this.fake_node_ := by
        intro h; rw [h, hf] at hx; cases hx
      have hnext : s.next x = (rest.map Prod.fst).headD s.this.fake_node_ :=
        Linked.next_head _ _ _ hl.2
      have ih := forward_from_linked s hf rest x
        (fun n hn' => hn n (List.mem_cons_of_mem _ hn')) hl.2 k
        (by simp at hfuel; omega)
      simp [forward_from, end_, fake_node_, Iterator.ne, Iterator.eq, Iterator.deref,
        Iterator.inc, get_value, get_next, hx, hxf, hnext]
      simpa using ih

theorem forward_ring (s : State T) (ns : List (Nat × T)) (hr : Ring s s.this ns)
    (fuel : Nat) (hfuel : ns.length ≤ fuel) : forward fuel s = some (ns.map Prod.snd) := by
  have h := forward_from_linked s hr.sentinel ns s.this.fake_node_ hr.nodes hr.linked fuel hfuel
  rw [← hr.next_fake] at h
  simp [forward, begin_, fake_node_, get_next, hr.sentinel, h]

theorem backward_from_linked (s : State T) (hf : s.kind s.this.fake_node_ = Kind.base) :
    ∀ (ns : List (Nat × T)) (b : Nat),
      (∀ n ∈ ns, s.kind n.1 = Kind.node n.2) →
      Linked s.prev s.next s.this.fake_node_ (ns.map Prod.fst) b →
      (ns.map Prod.fst).Nodup → b ∉ ns.map Prod.fst → (s.kind b).is_object = true →
      ∀ fuel, ns.length ≤ fuel →
        backward_from s fuel { cur_node_ := b } = some ((ns.map Prod.snd).reverse) := by
  intro ns
  induction ns using List.reverseRecOn with
  | nil =>
    intro b _ hl _ _ _ fuel _
    have hb : s.next s.this.fake_node_ = b := hl.1
    cases fuel <;>
      simp [backward_from, begin_, fake_node_, get_next, hf, Iterator.ne, Iterator.eq, hb]
  | append_singleton ms n ih =>
    intro b hn hl hnd hb hobj fuel hfuel
    obtain ⟨y, w⟩ := n
    simp only [List.map_append, List.map_cons, List.map_nil] at hl hnd hb
    rw [Linked.append_iff] at hl
    obtain ⟨hl1, hyb, hby⟩ := hl
    obtain ⟨k, rfl⟩ : ∃ k, fuel = k + 1 := ⟨fuel - 1, by simp at hfuel; omega⟩
    have hy : s.kind y = Kind.node w := hn (y, w) (by simp)
    have hbegin : s.next s.this.fake_node_ ∈ ms.map Prod.fst ++ [y] := by
      have := Linked.next_head _ _ _ hl1
      rw [this]
      cases hms : ms.map Prod.fst with
      | nil => simp
      | cons z zs => simp
    have hbne : b ≠ s.next s.this.fake_node_ := fun h => hb (h ▸ hbegin)
    have hnd' := List.nodup_append.mp hnd
    have ih' := ih y (fun n hn' => hn n (List.mem_append_left _ hn')) hl1 hnd'.1
      (fun h => hnd'.2.2 h (by simp)) (by rw [hy]; rfl) k (by simp at hfuel; omega)
    simp [backward_from, begin_, fake_node_, get_next, get_prev, get_value, hf, Iterator.ne,
      Iterator.eq, Iterator.dec, Iterator.deref, hbne, hobj, hby, hy, ih']

theorem backward_ring (s : State T) (ns : List (Nat × T)) (hr : Ring s s.this ns)
    (fuel : Nat) (hfuel : ns.length ≤ fuel) :
    backward fuel s = some ((ns.map Prod.snd).reverse) := by
  have h := backward_from_linked s hr.sentinel ns s.this.fake_node_ hr.nodes hr.linked
    hr.nodup hr.fake_not_mem (by rw [hr.sentinel]; rfl) fuel hfuel
  simp [backward, end_, fake_node_, h]

end Traversal

section Runs
variable {T : Type}

theorem new_object_run (sz : Nat) (al : AllocId) (s : State T) (hb : s.brk < SIZE_MOD) :
    new_object sz al s = Res.ok ()
      { s with kind := Function.update s.kind s.brk Kind.base
               prev := Function.update s.prev s.brk s.brk
               next := Function.update s.next s.brk s.brk
               brk := s.brk + 1
               this := { fake_node_ := s.brk, size_ := sz, alloc_ := al } } := by
  simp [new_object, not_le.mpr hb]

theorem new_object_ub (sz : Nat) (al : AllocId) (s : State T) (hb : ¬ s.brk < SIZE_MOD) :
    new_object sz al s = (Res.ub : Res (State T) Unit) := by
  simp [new_object, not_lt.mp hb]

theorem new_object_ring (al : AllocId) (s : State T) (hs : Sound s) (hb : s.brk < SIZE_MOD) :
    ∃ t, new_object 0 al s = Res.ok () t ∧ Ring t t.this [] ∧ Sound t ∧
      t.this = { fake_node_ := s.brk, size_ := 0, alloc_ := al } ∧ t.brk = s.brk + 1 ∧
      t.trace = s.trace ∧
      (∀ a, a ≠ s.brk → t.kind a = s.kind a ∧ t.prev a = s.prev a ∧ t.next a = s.next a) := by
  refine ⟨_, new_object_run 0 al s hb, ?_, ?_, rfl, rfl, rfl, ?_⟩
  · constructor
    · simp
    · intro n hn; cases hn
    · simp [Linked]
    · simp
    · rfl
  · constructor
    · intro a ha
      have : a ≠ s.brk := by simp at ha; omega
      simp [this]
      exact hs.fresh a (by simp at ha; omega)
    · simp; omega
  · intro a ha
    simp [ha]

theorem run_ops_nil (env : Env) (s : State T) : run_ops env [] s = Res.ok () s := rfl

theorem run_ops_cons_ok (env : Env) (op : Op T) (ops : List (Op T)) (s s1 : State T)
    (h : op.run env s = Res.ok () s1) : run_ops env (op :: ops) s = run_ops env ops s1 := by
  rw [run_ops]
  simp [h]

theorem run_ops_cons_threw (env : Env) (op : Op T) (ops : List (Op T)) (s s1 : State T)
    (e : Exc) (h : op.run env s = Res.threw e s1) :
    run_ops env (op :: ops) s = Res.threw e s1 := by
  rw [run_ops]
  simp [h]

theorem run_ops_cons_ub (env : Env) (op : Op T) (ops : List (Op T)) (s : State T)
    (h : op.run env s = Res.ub) : run_ops env (op :: ops) s = Res.ub := by
  rw [run_ops]
  simp [h]

theorem run_ops_ring (env : Env) :
    ∀ (ops : List (Op T)) (s t : State T) (ns : List (Nat × T)),
      Ring s s.this ns → Sound s → run_ops env ops s = Res.ok () t →
      ∃ ms, Grows s t ns ms ∧ ms.map Prod.snd = model_ops ops (ns.map Prod.snd) ∧
        ms.length + pops ops = ns.length + pushes ops
  | [], s, t, ns, hr, hs, h => by
      rw [run_ops_nil] at h
      cases h
      exact ⟨ns, Grows.refl hr hs, rfl, rfl⟩
  | Op.push_back v :: ops, s, t, ns, hr, hs, h => by
      by_cases hflag : env.allocate_fails s.allocate_calls = false ∧ s.brk < SIZE_MOD ∧
          env.construct_fails s.construct_calls = false
      · obtain ⟨t1, h1, g1, -, -⟩ := push_back_grows env v s ns hr hs hflag.1 hflag.2.1 hflag.2.2
        rw [run_ops_cons_ok env (Op.push_back v) ops s t1 h1] at h
        obtain ⟨ms, g2, hm, hc⟩ := run_ops_ring env ops t1 t _ g1.ring g1.sound h
        refine ⟨ms, Grows.trans hr hs g1 g2, ?_, ?_⟩
        · simpa [model_ops, Op.model] using hm
        · simp [pops, pushes] at hc ⊢; omega
      · obtain ⟨e, t1, h1, -⟩ := push_back_fails env v s ns hr hs hflag
        rw [run_ops_cons_threw env (Op.push_back v) ops s t1 e h1] at h
        cases h
  | Op.push_front v :: ops, s, t, ns, hr, hs, h => by
      by_cases hflag : env.allocate_fails s.allocate_calls = false ∧ s.brk < SIZE_MOD ∧
          env.construct_fails s.construct_calls = false
      · obtain ⟨t1, h1, g1, -, -⟩ := push_front_grows env v s ns hr hs hflag.1 hflag.2.1 hflag.2.2
        rw [run_ops_cons_ok env (Op.push_front v) ops s t1 h1] at h
        obtain ⟨ms, g2, hm, hc⟩ := run_ops_ring env ops t1 t _ g1.ring g1.sound h
        refine ⟨ms, Grows.trans hr hs g1 g2, ?_, ?_⟩
        · simpa [model_ops, Op.model] using hm
        · simp [pops, pushes] at hc ⊢; omega
      · obtain ⟨e, t1, h1, -⟩ := push_front_fails env v s ns hr hs hflag
        rw [run_ops_cons_threw env (Op.push_front v) ops s t1 e h1] at h
        cases h
  | Op.pop_back :: ops, s, t, ns, hr, hs, h => by
      rcases List.eq_nil_or_concat ns with rfl | ⟨ns0, ⟨l, v⟩, rfl⟩
      · rw [run_ops_cons_ub env (Op.pop_back) ops s (pop_back_ub s hr)] at h
        cases h
      · simp only [List.concat_eq_append] at hr ⊢
        obtain ⟨t1, h1, g1, -, -⟩ := pop_back_grows s ns0 l v hr hs
        rw [run_ops_cons_ok env (Op.pop_back) ops s t1 h1] at h
        obtain ⟨ms, g2, hm, hc⟩ := run_ops_ring env ops t1 t _ g1.ring g1.sound h
        refine ⟨ms, Grows.trans hr hs g1 g2, ?_, ?_⟩
        · simpa [model_ops, Op.model] using hm
        · simp [pops, pushes] at hc ⊢; omega
  | Op.pop_front :: ops, s, t, ns, hr, hs, h => by
      rcases ns with _ | ⟨⟨l, v⟩, ns0⟩
      · rw [run_ops_cons_ub env (Op.pop_front) ops s (pop_front_ub s hr)] at h
        cases h
      · obtain ⟨t1, h1, g1, -, -⟩ := pop_front_grows s ns0 l v hr hs
        rw [run_ops_cons_ok env (Op.pop_front) ops s t1 h1] at h
        obtain ⟨ms, g2, hm, hc⟩ := run_ops_ring env ops t1 t _ g1.ring g1.sound h
        refine ⟨ms, Grows.trans hr hs g1 g2, ?_, ?_⟩
        · simpa [model_ops, Op.model] using hm
        · simp [pops, pushes] at hc ⊢; omega

theorem run_ops_total (env : Env) (hno : NoFailure env) :
    ∀ (ops : List (Op T)) (s : State T) (ns : List (Nat × T)),
      Ring s s.this ns → Sound s → guarded ops ns.length = true →
      s.brk + pushes ops ≤ SIZE_MOD → ∃ t, run_ops env ops s = Res.ok () t
  | [], s, _, _, _, _, _ => ⟨s, rfl⟩
  | Op.push_back v :: ops, s, ns, hr, hs, hg, hsp => by
      simp only [pushes] at hsp
      obtain ⟨t1, h1, g1, -, hb⟩ := push_back_grows env v s ns hr hs (hno _).1 (by omega) (hno _).2
      obtain ⟨t, ht⟩ := run_ops_total env hno ops t1 _ g1.ring g1.sound
        (by simpa [guarded] using hg) (by omega)
      exact ⟨t, by rw [run_ops_cons_ok env (Op.push_back v) ops s t1 h1]; exact ht⟩
  | Op.push_front v :: ops, s, ns, hr, hs, hg, hsp => by
      simp only [pushes] at hsp
      obtain ⟨t1, h1, g1, -, hb⟩ := push_front_grows env v s ns hr hs (hno _).1 (by omega) (hno _).2
      obtain ⟨t, ht⟩ := run_ops_total env hno ops t1 _ g1.ring g1.sound
        (by simpa [guarded] using hg) (by omega)
      exact ⟨t, by rw [run_ops_cons_ok env (Op.push_front v) ops s t1 h1]; exact ht⟩
  | Op.pop_back :: ops, s, ns, hr, hs, hg, hsp => by
      simp only [pushes] at hsp
      rcases List.eq_nil_or_concat ns with rfl | ⟨ns0, ⟨l, v⟩, rfl⟩
      · simp [guarded] at hg
      · simp only [List.concat_eq_append] at hr hg
        obtain ⟨t1, h1, g1, -, hb⟩ := pop_back_grows s ns0 l v hr hs
        obtain ⟨t, ht⟩ := run_ops_total env hno ops t1 _ g1.ring g1.sound
          (by simpa [guarded] using hg) (by omega)
        exact ⟨t, by rw [run_ops_cons_ok env (Op.pop_back) ops s t1 h1]; exact ht⟩
  | Op.pop_front :: ops, s, ns, hr, hs, hg, hsp => by
      simp only [pushes] at hsp
      rcases ns with _ | ⟨⟨l, v⟩, ns0⟩
      · simp [guarded] at hg
      · obtain ⟨t1, h1, g1, -, hb⟩ := pop_front_grows s ns0 l v hr hs
        obtain ⟨t, ht⟩ := run_ops_total env hno ops t1 _ g1.ring g1.sound
          (by simpa [guarded] using hg) (by omega)
        exact ⟨t, by rw [run_ops_cons_ok env (Op.pop_front) ops s t1 h1]; exact ht⟩

end Runs

section EndOperations
variable {T : Type}

theorem sound_initial : Sound (State.initial : State T) :=
  ⟨fun _ _ => rfl, Nat.zero_le _⟩

theorem noFailure_reliable : NoFailure Env.reliable := fun _ => ⟨rfl, rfl⟩

theorem build_ok (env : Env) (ops : List (Op T)) (s0 s : State T) (hs0 : Sound s0)
    (h : build env ops s0 = Res.ok () s) :
    ∃ ms, Ring s s.this ms ∧ Sound s ∧ ms.map Prod.snd = model_ops ops [] ∧
      ms.length + pops ops = pushes ops := by
  by_cases hb : s0.brk < SIZE_MOD
  · obtain ⟨t, ht, hr, hs, -⟩ := new_object_ring env.default_allocator s0 hs0 hb
    have h' : run_ops env ops t = Res.ok () s := by
      simpa [build, List_default, ht] using h
    obtain ⟨ms, g, hm, hc⟩ := run_ops_ring env ops t s [] hr hs h'
    exact ⟨ms, g.ring, g.sound, by simpa using hm, by simpa using hc⟩
  · simp [build, List_default, new_object_ub _ _ s0 hb] at h

theorem build_total (env : Env) (ops : List (Op T)) (s0 : State T) (hs0 : Sound s0)
    (hno : NoFailure env) (hg : guarded ops 0 = true) (hsp : s0.brk + pushes ops < SIZE_MOD) :
    ∃ s, build env ops s0 = Res.ok () s := by
  obtain ⟨t, ht, hr, hs, -, hbrk, -⟩ :=
    new_object_ring env.default_allocator s0 hs0 (by omega)
  obtain ⟨s, h⟩ := run_ops_total env hno ops t [] hr hs (by simpa using hg) (by omega)
  exact ⟨s, by simpa [build, List_default, ht] using h⟩

/-- C1: a container built from the empty container by `push_back`, `push_front`,
`pop_back` and `pop_front` calls holds the abstract list of the calls.  When
nothing is planned to fail, every pop meets a non-empty container and addresses
do not run out, the calls complete; and whenever they complete, `size()` is the
length of the abstract list, the walk from `begin()` with `++` until `end()`
visits exactly the abstract list, and the walk from `end()` with `--` until
`begin()` visits it in reverse order. -/
theorem C1_traversal_is_abstract_list (env : Env) (ops : List (Op T)) (s0 : State T)
    (hs0 : Sound s0) :
    (NoFailure env → guarded ops 0 = true → s0.brk + pushes ops < SIZE_MOD →
      ∃ s, build env ops s0 = Res.ok () s) ∧
    (∀ s, build env ops s0 = Res.ok () s →
      size s.this = (model_ops ops []).length ∧
      ∀ fuel, size s.this ≤ fuel →
        forward fuel s = some (model_ops ops []) ∧
        backward fuel s = some (model_ops ops []).reverse) := by
  refine ⟨build_total env ops s0 hs0, ?_⟩
  intro s h
  obtain ⟨ms, hr, -, hm, -⟩ := build_ok env ops s0 s hs0 h
  have hsz : size s.this = ms.length := hr.size
  refine ⟨by rw [hsz, ← hm, List.length_map], ?_⟩
  intro fuel hfuel
  rw [hsz] at hfuel
  rw [← hm]
  exact ⟨forward_ring s ms hr fuel hfuel, backward_ring s ms hr fuel hfuel⟩

theorem C1_witness :
    Sound (State.initial : State Nat) ∧
    ∃ s, build Env.reliable
        [Op.push_back 1, Op.push_front 0, Op.push_back 2, Op.push_back 3, Op.pop_back,
          Op.push_front 7, Op.pop_front] (State.initial : State Nat) = Res.ok () s ∧
      size s.this = 3 ∧ forward 3 s = some [0, 1, 2] ∧ backward 3 s = some [2, 1, 0] := by
  have h := C1_traversal_is_abstract_list Env.reliable
    [Op.push_back 1, Op.push_front 0, Op.push_back 2, Op.push_back 3, Op.pop_back,
      Op.push_front 7, Op.pop_front] (State.initial : State Nat) sound_initial
  obtain ⟨s, hs⟩ := h.1 noFailure_reliable (by decide) (by decide)
  obtain ⟨hsz, hw⟩ := h.2 s hs
  have hsz' : size s.this = 3 := hsz
  exact ⟨sound_initial, s, hs, hsz', hw 3 (by rw [hsz'])⟩

/-- C2: for a sequence of `push_back`, `push_front`, `pop_back` and `pop_front`
calls on an initially empty container: when nothing is planned to fail, every
pop meets a non-empty container and addresses do not run out, the calls
complete; and whenever they complete, `size()` is the number of pushes minus the
number of pops, and `empty()` is true exactly when `size()` is 0. -/
theorem C2_size_is_pushes_minus_pops (env : Env) (ops : List (Op T)) (s0 : State T)
    (hs0 : Sound s0) :
    (NoFailure env → guarded ops 0 = true → s0.brk + pushes ops < SIZE_MOD →
      ∃ s, build env ops s0 = Res.ok () s) ∧
    (∀ s, build env ops s0 = Res.ok () s →
      pops ops ≤ pushes ops ∧ size s.this = pushes ops - pops ops ∧
        (empty s.this = true ↔ size s.this = 0)) := by
  refine ⟨build_total env ops s0 hs0, ?_⟩
  intro s h
  obtain ⟨ms, hr, -, -, hc⟩ := build_ok env ops s0 s hs0 h
  have hsz : size s.this = ms.length := hr.size
  refine ⟨by omega, by omega, ?_⟩
  simp [empty, size]

theorem C2_witness :
    Sound (State.initial : State Nat) ∧
    ∃ s, build Env.reliable
        [Op.push_front 4, Op.pop_back, Op.push_back 5, Op.push_back 6, Op.pop_front]
        (State.initial : State Nat) = Res.ok () s ∧
      size s.this = 1 ∧ (empty s.this = true ↔ size s.this = 0) := by
  have h := C2_size_is_pushes_minus_pops Env.reliable
    [Op.push_front 4, Op.pop_back, Op.push_back 5, Op.push_back 6, Op.pop_front]
    (State.initial : State Nat) sound_initial
  obtain ⟨s, hs⟩ := h.1 noFailure_reliable (by decide) (by decide)
  obtain ⟨-, hsz, he⟩ := h.2 s hs
  exact ⟨sound_initial, s, hs, hsz, he⟩

end EndOperations

section Traces
variable {T : Type}

theorem outstanding_append (a b : List Event) :
    outstanding (a ++ b) = outstanding a + outstanding b := by
  induction a with
  | nil => simp [outstanding]
  | cons e a ih =>
    cases e <;> simp [outstanding, ih] <;> omega

theorem outstanding_built (al : AllocId) (ps : List Nat) :
    outstanding (built al ps) = ps.length := by
  induction ps with
  | nil => rfl
  | cons p ps ih =>
    simp [built, outstanding_append, ih, outstanding]

theorem outstanding_released (al : AllocId) (ps : List Nat) :
    outstanding (released al ps) = -(ps.length : Int) := by
  induction ps with
  | nil => rfl
  | cons p ps ih =>
    simp [released, outstanding_append, ih, outstanding]
    omega

theorem built_append (al : AllocId) (ps qs : List Nat) :
    built al (ps ++ qs) = built al qs ++ built al ps := by
  induction ps with
  | nil => simp [built]
  | cons p ps ih => simp [built, ih]

theorem released_append (al : AllocId) (ps qs : List Nat) :
    released al (ps ++ qs) = released al qs ++ released al ps := by
  induction ps with
  | nil => simp [released]
  | cons p ps ih => simp [released, ih]

theorem singleton_sound : Sound State.singleton := by
  constructor
  · intro a ha
    have h0 : a ≠ 0 := by
      intro h; rw [h] at ha; exact absurd ha (by decide)
    have h1 : a ≠ 1 := by
      intro h; rw [h] at ha; exact absurd ha (by decide)
    simp [State.singleton, h0, h1]
  · decide

theorem singleton_ring : Ring State.singleton State.singleton.this [(1, 5)] := by
  constructor
  · rfl
  · intro n hn
    simp at hn
    subst hn
    rfl
  · exact ⟨⟨rfl, rfl⟩, rfl, rfl⟩
  · simp
  · rfl

/-- C8: when the `construct` step of `push_back` or `push_front` throws after
`allocate` has succeeded, the exception reaches the caller, the storage just
allocated is deallocated (once, by the same allocator), and the heap (what every
address holds and both links of every node) and the data members of the
container are what they were before the call. -/
theorem C8_failed_construct_changes_nothing (env : Env) (v : T) (s : State T) (hs : Sound s)
    (ha : env.allocate_fails s.allocate_calls = false) (hb : s.brk < SIZE_MOD)
    (hc : env.construct_fails s.construct_calls = true) :
    (∃ t, push_back env v s = Res.threw Exc.construct_failed t ∧
      t.kind = s.kind ∧ t.prev = s.prev ∧ t.next = s.next ∧ t.this = s.this ∧
      t.trace = Event.deallocate s.this.alloc_ s.brk ::
        Event.allocate s.this.alloc_ s.brk :: s.trace) ∧
    (∃ t, push_front env v s = Res.threw Exc.construct_failed t ∧
      t.kind = s.kind ∧ t.prev = s.prev ∧ t.next = s.next ∧ t.this = s.this ∧
      t.trace = Event.deallocate s.this.alloc_ s.brk ::
        Event.allocate s.this.alloc_ s.brk :: s.trace) :=
  ⟨⟨_, push_back_construct_fail env v s ha hb hc (hs.fresh _ (le_refl _)),
      rfl, rfl, rfl, rfl, rfl⟩,
    ⟨_, push_front_construct_fail env v s ha hb hc (hs.fresh _ (le_refl _)),
      rfl, rfl, rfl, rfl, rfl⟩⟩

theorem C8_witness :
    (∃ t, push_back (Env.construct_fails_at 1) 6 State.singleton =
        Res.threw Exc.construct_failed t ∧
      t.kind = State.singleton.kind ∧ t.prev = State.singleton.prev ∧
      t.next = State.singleton.next ∧ t.this = State.singleton.this ∧
      t.trace = Event.deallocate State.singleton.this.alloc_ State.singleton.brk ::
        Event.allocate State.singleton.this.alloc_ State.singleton.brk ::
          State.singleton.trace) ∧
    (∃ t, push_front (Env.construct_fails_at 1) 6 State.singleton =
        Res.threw Exc.construct_failed t ∧
      t.kind = State.singleton.kind ∧ t.prev = State.singleton.prev ∧
      t.next = State.singleton.next ∧ t.this = State.singleton.this ∧
      t.trace = Event.deallocate State.singleton.this.alloc_ State.singleton.brk ::
        Event.allocate State.singleton.this.alloc_ State.singleton.brk ::
          State.singleton.trace) :=
  C8_failed_construct_changes_nothing (Env.construct_fails_at 1) 6 State.singleton
    singleton_sound rfl (by decide) rfl

end Traces

section Loops
variable {T : Type}

theorem for_count_zero (body : M T Unit) (s : State T) :
    for_count 0 body s = Res.ok () s := rfl

theorem for_count_succ_ok (k : Nat) (body : M T Unit) (s s1 : State T)
    (h : body s = Res.ok () s1) : for_count (k + 1) body s = for_count k body s1 := by
  rw [for_count]
  simp [h]

theorem pop_back_loop :
    ∀ (new : List (Nat × T)) (s : State T) (ns : List (Nat × T)),
      Ring s s.this (ns ++ new) → Sound s →
      ∃ t, for_count new.length pop_back s = Res.ok () t ∧ Grows s t (ns ++ new) ns ∧
        t.trace = released s.this.alloc_ (new.map Prod.fst).reverse ++ s.trace ∧
        t.brk = s.brk := by
  intro new
  induction new using List.reverseRecOn with
  | nil =>
    intro s ns hr hs
    refine ⟨s, rfl, ?_, rfl, rfl⟩
    simp only [List.append_nil] at hr ⊢
    exact Grows.refl hr hs
  | append_singleton new n ih =>
    intro s ns hr hs
    obtain ⟨l, v⟩ := n
    rw [← List.append_assoc] at hr
    obtain ⟨t1, h1, g1, htr1, hb1⟩ := pop_back_grows s (ns ++ new) l v hr hs
    obtain ⟨t, h2, g2, htr2, hb2⟩ := ih t1 ns g1.ring g1.sound
    refine ⟨t, ?_, ?_, ?_, by rw [hb2, hb1]⟩
    · rw [List.length_append, List.length_singleton, for_count_succ_ok _ _ _ _ h1]
      exact h2
    · have := Grows.trans hr hs g1 g2
      rwa [List.append_assoc] at this
    · rw [htr2, htr1, g1.alloc]
      simp [released]

theorem pop_front_loop :
    ∀ (old : List (Nat × T)) (s : State T) (rest : List (Nat × T)),
      Ring s s.this (old ++ rest) → Sound s →
      ∃ t, for_count old.length pop_front s = Res.ok () t ∧ Grows s t (old ++ rest) rest ∧
        t.trace = released s.this.alloc_ (old.map Prod.fst) ++ s.trace ∧ t.brk = s.brk
  | [], s, rest, hr, hs => ⟨s, rfl, Grows.refl hr hs, rfl, rfl⟩
  | (l, v) :: old, s, rest, hr, hs => by
      obtain ⟨t1, h1, g1, htr1, hb1⟩ := pop_front_grows s (old ++ rest) l v hr hs
      obtain ⟨t, h2, g2, htr2, hb2⟩ := pop_front_loop old t1 rest g1.ring g1.sound
      refine ⟨t, ?_, Grows.trans hr hs g1 g2, ?_, by rw [hb2, hb1]⟩
      · rw [List.length_cons, for_count_succ_ok _ _ _ _ h1]
        exact h2
      · rw [htr2, htr1, g1.alloc]
        simp [released]

theorem Linked.agree {prev next prev1 next1 : Nat → Nat} :
    ∀ (xs : List Nat) (a b : Nat), Linked prev next a xs b → Linked prev1 next1 a xs b →
      (∀ x ∈ a :: xs, next1 x = next x) ∧ (∀ x ∈ xs ++ [b], prev1 x = prev x)
  | [], a, b, h, h1 => by
      constructor
      · intro x hx
        simp at hx
        rw [hx, h.1, h1.1]
      · intro x hx
        simp at hx
        rw [hx, h.2, h1.2]
  | y :: xs, a, b, h, h1 => by
      obtain ⟨hn, hp⟩ := Linked.agree xs y b h.2 h1.2
      constructor
      · intro x hx
        rcases List.mem_cons.mp hx with rfl | hx
        · rw [h.1.1, h1.1.1]
        · exact hn x hx
      · intro x hx
        rcases List.mem_cons.mp hx with rfl | hx
        · rw [h.1.2, h1.1.2]
        · exact hp x hx

theorem Ring.agree_with {s t : State T} {c d : ListObj} {ns : List (Nat × T)}
    (h1 : Ring s c ns) (h2 : Ring t d ns) (hf : d.fake_node_ = c.fake_node_) :
    ∀ a ∈ c.fake_node_ :: ns.map Prod.fst,
      t.kind a = s.kind a ∧ t.prev a = s.prev a ∧ t.next a = s.next a := by
  have hl2 := h2.linked
  rw [hf] at hl2
  obtain ⟨hn, hp⟩ := Linked.agree _ _ _ h1.linked hl2
  intro a ha
  refine ⟨?_, hp a ?_, hn a ha⟩
  · rcases List.mem_cons.mp ha with rfl | hm
    · rw [h1.sentinel, ← hf, h2.sentinel]
    · obtain ⟨n, hn', rfl⟩ := List.mem_map.mp hm
      rw [h1.nodes n hn', h2.nodes n hn']
  · rcases List.mem_cons.mp ha with rfl | hm
    · simp
    · simp [hm]

theorem Grows.restored {s t : State T} {ns : List (Nat × T)} (hr : Ring s s.this ns)
    (hs : Sound s) (g : Grows s t ns ns) :
    (∀ a, a < s.brk → t.kind a = s.kind a ∧ t.prev a = s.prev a ∧ t.next a = s.next a) ∧
    (∀ a, s.brk ≤ a → t.kind a = Kind.free) ∧ t.this = s.this := by
  refine ⟨?_, ?_, ?_⟩
  · intro a ha
    by_cases hm : a ∈ s.this.fake_node_ :: ns.map Prod.fst
    · exact Ring.agree_with hr g.ring g.fake a hm
    · exact ⟨g.kind_eq a hm ha, g.prev_eq a hm ha, g.next_eq a hm ha⟩
  · intro a ha
    refine g.fresh a ha ?_
    intro hm
    exact absurd (hr.lt_brk hs a (List.mem_cons_of_mem _ hm)) (not_lt.mpr ha)
  · have h1 := g.fake
    have h2 := g.alloc
    have h3 : t.this.size_ = s.this.size_ := by rw [g.ring.size, hr.size]
    cases ht : t.this
    cases hs' : s.this
    rw [ht, hs'] at h1 h2 h3
    simp at h1 h2 h3
    simp [h1, h2, h3]

end Loops

section PushRuns
variable {T : Type}

theorem push_back_counters (env : Env) (v : T) (s t : State T)
    (ha : env.allocate_fails s.allocate_calls = false) (hb : s.brk < SIZE_MOD)
    (hc : env.construct_fails s.construct_calls = false)
    (hf : s.kind s.this.fake_node_ = Kind.base)
    (hl : (s.kind (s.prev s.this.fake_node_)).is_object = true)
    (hp : s.kind s.brk = Kind.free)
    (h : push_back env v s = Res.ok () t) :
    t.allocate_calls = s.allocate_calls + 1 ∧ t.construct_calls = s.construct_calls + 1 := by
  rw [push_back_ok env v s ha hb hc hf hl hp] at h
  cases h
  exact ⟨rfl, rfl⟩

theorem push_back_step (env : Env) (v : T) (s : State T) (ns : List (Nat × T))
    (hr : Ring s s.this ns) (hs : Sound s)
    (ha : env.allocate_fails s.allocate_calls = false) (hb : s.brk < SIZE_MOD)
    (hc : env.construct_fails s.construct_calls = false) :
    ∃ t, push_back env v s = Res.ok () t ∧ Grows s t ns (ns ++ [(s.brk, v)]) ∧
      t.trace = Event.construct s.this.alloc_ s.brk :: Event.allocate s.this.alloc_ s.brk :: s.trace ∧
      t.brk = s.brk + 1 ∧ t.allocate_calls = s.allocate_calls + 1 ∧
      t.construct_calls = s.construct_calls + 1 := by
  obtain ⟨t, h, g, htr, hbrk⟩ := push_back_grows env v s ns hr hs ha hb hc
  have hlast := getLastD_mem_cons (ns.map Prod.fst) s.this.fake_node_
  rw [← hr.prev_fake] at hlast
  obtain ⟨h1, h2⟩ := push_back_counters env v s t ha hb hc hr.sentinel
    (hr.is_object _ hlast) (hs.fresh _ (le_refl _)) h
  exact ⟨t, h, g, htr, hbrk, h1, h2⟩

theorem init_loop_nil (env : Env) (s : State T) : init_loop env [] s = Res.ok () s := rfl

theorem init_loop_cons_ok (env : Env) (v : T) (rest : List T) (s s1 : State T)
    (h : push_back env v s = Res.ok () s1) :
    init_loop env (v :: rest) s = init_loop env rest s1 := by
  rw [init_loop]
  simp [h]

theorem init_loop_cons_threw (env : Env) (v : T) (rest : List T) (s s1 : State T) (e : Exc)
    (h : push_back env v s = Res.threw e s1) :
    init_loop env (v :: rest) s = Res.threw e s1 := by
  rw [init_loop]
  simp [h]

theorem init_loop_spec (env : Env) :
    ∀ (init : List T) (s : State T) (ns : List (Nat × T)),
      Ring s s.this ns → Sound s →
      ∃ new t fail, Pushed env s t ns new fail ∧ new.map Prod.snd = init.take new.length ∧
        ((init_loop env init s = Res.ok () t ∧ new.length = init.length ∧ fail = [] ∧
            t.brk = s.brk + new.length) ∨
          (∃ e, init_loop env init s = Res.threw e t ∧ new.length < init.length ∧
            Blocked env s new.length ∧
            (fail = [] ∨
              fail = [Event.deallocate s.this.alloc_ (s.brk + new.length),
                Event.allocate s.this.alloc_ (s.brk + new.length)])))
  | [], s, ns, hr, hs => by
      refine ⟨[], s, [], ⟨?_, rfl, rfl, ?_, ?_⟩, rfl, Or.inl ⟨rfl, rfl, rfl, rfl⟩⟩
      · simpa using Grows.refl hr hs
      · intro i hi; cases hi
      · simpa using hs.bound
  | v :: rest, s, ns, hr, hs => by
      by_cases hflag : env.allocate_fails s.allocate_calls = false ∧ s.brk < SIZE_MOD ∧
          env.construct_fails s.construct_calls = false
      · obtain ⟨t1, h1, g1, htr1, hb1, ha1, hc1⟩ :=
          push_back_step env v s ns hr hs hflag.1 hflag.2.1 hflag.2.2
        obtain ⟨new, t, fail, hp, hv, hcase⟩ := init_loop_spec env rest t1 _ g1.ring g1.sound
        have hg : Grows s t ns (ns ++ (s.brk, v) :: new) := by
          have := Grows.trans hr hs g1 hp.grows
          simpa using this
        refine ⟨(s.brk, v) :: new, t, fail, ⟨hg, ?_, ?_, ?_, ?_⟩, ?_, ?_⟩
        · simp only [List.map_cons, List.length_cons, List.range'_succ]
          rw [hp.addrs, hb1]
        · rw [hp.trace, htr1, g1.alloc]
          simp [built]
        · intro i hi
          rcases i with _ | i
          · exact ⟨hflag.1, hflag.2.2⟩
          · have := hp.plan i (by simpa using hi)
            rw [ha1, hc1] at this
            rw [show s.allocate_calls + (i + 1) = s.allocate_calls + 1 + i by omega,
              show s.construct_calls + (i + 1) = s.construct_calls + 1 + i by omega]
            exact this
        · have := hp.room
          rw [hb1] at this
          simp only [List.length_cons]
          omega
        · simp [hv]
        · rcases hcase with ⟨hok, hlen, hfail, hbrk⟩ | ⟨e, hth, hlen, hbl, hfail⟩
          · left
            refine ⟨by rw [init_loop_cons_ok env v rest s t1 h1]; exact hok, by simp [hlen],
              hfail, ?_⟩
            rw [hbrk, hb1, List.length_cons]
            omega
          · right
            refine ⟨e, by rw [init_loop_cons_ok env v rest s t1 h1]; exact hth,
              by simpa using hlen, ?_, ?_⟩
            · unfold Blocked at hbl ⊢
              rw [ha1, hc1, hb1] at hbl
              rw [List.length_cons,
                show s.allocate_calls + (new.length + 1) = s.allocate_calls + 1 + new.length by omega,
                show s.construct_calls + (new.length + 1) = s.construct_calls + 1 + new.length by omega,
                show s.brk + (new.length + 1) = s.brk + 1 + new.length by omega]
              exact hbl
            · rw [g1.alloc, hb1] at hfail
              rw [List.length_cons,
                show s.brk + (new.length + 1) = s.brk + 1 + new.length by omega]
              exact hfail
      · obtain ⟨e, t1, h1, g1, -, -, -, -, htr⟩ := push_back_fails env v s ns hr hs hflag
        have hbl : Blocked env s 0 := by
          unfold Blocked
          simp only [Nat.add_zero]
          by_contra hcon
          push_neg at hcon
          apply hflag
          exact ⟨by simpa using hcon.1, by omega, by simpa using hcon.2.2⟩
        rcases htr with htr | htr
        · exact ⟨[], t1, [], ⟨by simpa using g1, rfl, by simpa [built] using htr,
            (fun i hi => by cases hi), by simpa using hs.bound⟩, rfl,
            Or.inr ⟨e, init_loop_cons_threw env v rest s t1 e h1, by simp, hbl, Or.inl rfl⟩⟩
        · exact ⟨[], t1, [Event.deallocate s.this.alloc_ s.brk, Event.allocate s.this.alloc_ s.brk],
            ⟨by simpa using g1, rfl, by simpa [built] using htr,
              (fun i hi => by cases hi), by simpa using hs.bound⟩, rfl,
            Or.inr ⟨e, init_loop_cons_threw env v rest s t1 e h1, by simp, hbl,
              Or.inr (by simp)⟩⟩

end PushRuns

section Literal
variable {T : Type}

theorem with_object_ring (s : State T) (al : AllocId) (hs : Sound s) (hb : s.brk < SIZE_MOD) :
    Ring (s.with_object al) (s.with_object al).this [] ∧ Sound (s.with_object al) := by
  obtain ⟨t, ht, hr, hs', -⟩ := new_object_ring al s hs hb
  rw [new_object_run 0 al s hb] at ht
  cases ht
  exact ⟨hr, hs'⟩

theorem List_init_eq (env : Env) (init : List T) (alloc : AllocId) (s : State T)
    (hb : s.brk < SIZE_MOD) :
    List_init env init alloc s =
      init_loop env init (s.with_object (env.select_on_container_copy_construction alloc)) := by
  simp only [List_init, M.bind_run, new_object_run 0 _ s hb, set_alloc_, catching_with_index,
    State.with_object]
  generalize init_loop env init _ = r
  cases r <;> simp [for_count]

theorem List_init_ub (env : Env) (init : List T) (alloc : AllocId) (s : State T)
    (hb : ¬ s.brk < SIZE_MOD) : List_init env init alloc s = Res.ub := by
  simp [List_init, new_object_ub 0 _ s hb]

theorem size_mod_gt (n : Nat) (h : n < 100) : n < SIZE_MOD := by
  unfold SIZE_MOD; omega

theorem noFailure_room (env : Env) (s : State T) (j : Nat) (hno : NoFailure env)
    (hroom : s.brk + j < SIZE_MOD) : ¬ Blocked env s j := by
  unfold Blocked
  rintro (h | h | h)
  · rw [(hno _).1] at h; cases h
  · omega
  · rw [(hno _).2] at h; cases h

/-- C3: the list-literal constructor `List(init)`.  When nothing is planned to
fail and addresses do not run out, it completes; and whenever it completes, the
container has `size()` equal to the length of `init`, the walk from `begin()`
to `end()` yields the elements of `init` in order, and the backward walk yields
them in reverse order. -/
theorem C3_literal_constructor (env : Env) (init : List T) (alloc : AllocId) (s0 : State T)
    (hs0 : Sound s0) :
    (NoFailure env → s0.brk + init.length < SIZE_MOD →
      ∃ s, List_init env init alloc s0 = Res.ok () s) ∧
    (∀ s, List_init env init alloc s0 = Res.ok () s →
      size s.this = init.length ∧
      ∀ fuel, size s.this ≤ fuel →
        forward fuel s = some init ∧ backward fuel s = some init.reverse) := by
  constructor
  · intro hno hroom
    have hb : s0.brk < SIZE_MOD := by omega
    obtain ⟨hr, hs⟩ := with_object_ring s0 (env.select_on_container_copy_construction alloc) hs0 hb
    obtain ⟨new, t, fail, hp, hv, hcase⟩ := init_loop_spec env init _ [] hr hs
    rcases hcase with ⟨hok, -⟩ | ⟨e, -, hlen, hbl, -⟩
    · exact ⟨t, by rw [List_init_eq env init alloc s0 hb]; exact hok⟩
    · exact absurd hbl (noFailure_room env _ _ hno (by
        show s0.brk + 1 + new.length < SIZE_MOD
        omega))
  · intro s h
    by_cases hb : s0.brk < SIZE_MOD
    · obtain ⟨hr, hs⟩ := with_object_ring s0 (env.select_on_container_copy_construction alloc) hs0 hb
      obtain ⟨new, t, fail, hp, hv, hcase⟩ := init_loop_spec env init _ [] hr hs
      rw [List_init_eq env init alloc s0 hb] at h
      rcases hcase with ⟨hok, hlen, -⟩ | ⟨e, hth, -⟩
      · rw [hok] at h
        cases h
        have hring : Ring s s.this new := by simpa using hp.grows.ring
        have hvals : new.map Prod.snd = init := by rw [hv, hlen, List.take_length]
        have hsz : size s.this = new.length := hring.size
        refine ⟨by rw [hsz, hlen], ?_⟩
        intro fuel hfuel
        rw [hsz] at hfuel
        rw [← hvals]
        exact ⟨forward_ring s new hring fuel hfuel, backward_ring s new hring fuel hfuel⟩
      · rw [hth] at h
        cases h
    · rw [List_init_ub env init alloc s0 hb] at h
      cases h

theorem C3_witness :
    Sound (State.initial : State Nat) ∧
    ∃ s, List_init Env.reliable [1, 2, 3] 0 (State.initial : State Nat) = Res.ok () s ∧
      size s.this = 3 ∧ forward 3 s = some [1, 2, 3] ∧ backward 3 s = some [3, 2, 1] := by
  have h := C3_literal_constructor Env.reliable [1, 2, 3] 0 (State.initial : State Nat)
    sound_initial
  obtain ⟨s, hs⟩ := h.1 noFailure_reliable (by decide)
  obtain ⟨hsz, hw⟩ := h.2 s hs
  have hsz' : size s.this = 3 := hsz
  exact ⟨sound_initial, s, hs, hsz', hw 3 (by rw [hsz'])⟩

/-- What the list-literal constructor does on failure: when it throws after K
elements were inserted, the handler releases nothing, because `cur_index` is
still 0: the K nodes stay linked into the ring and K allocations stay
outstanding. -/
theorem List_init_failure_keeps_nodes (env : Env) (init : List T) (alloc : AllocId)
    (s0 t : State T) (e : Exc) (hs0 : Sound s0)
    (h : List_init env init alloc s0 = Res.threw e t) :
    ∃ K evs, K < init.length ∧ size t.this = K ∧ forward K t = some (init.take K) ∧
      t.trace = evs ++ s0.trace ∧ outstanding evs = K := by
  by_cases hb : s0.brk < SIZE_MOD
  · obtain ⟨hr, hs⟩ := with_object_ring s0 (env.select_on_container_copy_construction alloc) hs0 hb
    obtain ⟨new, t1, fail, hp, hv, hcase⟩ := init_loop_spec env init _ [] hr hs
    rw [List_init_eq env init alloc s0 hb] at h
    rcases hcase with ⟨hok, -⟩ | ⟨e1, hth, hlen, -, hfail⟩
    · rw [hok] at h
      cases h
    · rw [hth] at h
      cases h
      have hring : Ring t t.this new := by simpa using hp.grows.ring
      refine ⟨new.length, _, hlen, hring.size, ?_, hp.trace, ?_⟩
      · rw [← hv]
        exact forward_ring t new hring _ (le_refl _)
      · rw [outstanding_append, outstanding_built, List.length_map]
        rcases hfail with hf | hf <;> rw [hf] <;> simp [outstanding]
  · rw [List_init_ub env init alloc s0 hb] at h
    cases h

/-- C9 at a failing input: `List({1, 2, 3})` in which the third `construct`
throws leaves the exception with two allocations outstanding. -/
theorem C9_leak_at_third_element :
    ∃ e t evs, List_init (Env.construct_fails_at 2) [1, 2, 3] 0 (State.initial : State Nat) =
        Res.threw e t ∧
      t.trace = evs ++ (State.initial : State Nat).trace ∧ outstanding evs = 2 ∧
      size t.this = 2 ∧ forward 2 t = some [1, 2] := by
  have hb : (State.initial : State Nat).brk < SIZE_MOD := by decide
  obtain ⟨hr, hs⟩ := with_object_ring (State.initial : State Nat)
    ((Env.construct_fails_at 2).select_on_container_copy_construction 0) sound_initial hb
  obtain ⟨new, t, fail, hp, hv, hcase⟩ :=
    init_loop_spec (Env.construct_fails_at 2) [1, 2, 3] _ [] hr hs
  rcases hcase with ⟨-, hlen, -⟩ | ⟨e, hth, hlen, hbl, -⟩
  · have := (hp.plan 2 (by rw [hlen]; decide)).2
    simp [Env.construct_fails_at, State.with_object, State.initial] at this
  · have hK : new.length = 2 := by
      rcases hbl with h | h | h
      · simp [Env.construct_fails_at, Env.reliable] at h
      · simp only [List.length_cons, List.length_nil] at hlen
        have : (State.initial : State Nat).brk = 0 := rfl
        simp only [State.with_object, this, SIZE_MOD] at h
        omega
      · simpa [Env.construct_fails_at, State.with_object, State.initial] using h
    have hth' : List_init (Env.construct_fails_at 2) [1, 2, 3] 0 (State.initial : State Nat) =
        Res.threw e t := by
      rw [List_init_eq _ _ _ _ hb]
      exact hth
    obtain ⟨K, evs, -, hsz, hfw, htr, hout⟩ :=
      List_init_failure_keeps_nodes _ _ _ _ _ _ sound_initial hth'
    have hring : Ring t t.this new := by simpa using hp.grows.ring
    have hKK : K = 2 := by rw [← hsz, ← hK]; exact hring.size
    subst hKK
    exact ⟨e, t, evs, hth', htr, hout, hsz, hfw⟩

end Literal

section Copying
variable {T : Type}

theorem Grows.keeps {s t : State T} {ns ms os : List (Nat × T)} {c : ListObj}
    (g : Grows s t ns ms) (ho : Ring s c os) (hs : Sound s)
    (hd : ∀ a ∈ c.fake_node_ :: os.map Prod.fst, a ∉ s.this.fake_node_ :: ns.map Prod.fst) :
    Ring t c os ∧
      ∀ a ∈ c.fake_node_ :: os.map Prod.fst, a ∉ t.this.fake_node_ :: ms.map Prod.fst := by
  have hlt := ho.lt_brk hs
  refine ⟨ho.transfer rfl rfl (fun a ha => g.kind_eq a (hd a ha) (hlt a ha))
    (fun a ha => g.prev_eq a (hd a ha) (hlt a ha))
    (fun a ha => g.next_eq a (hd a ha) (hlt a ha)), ?_⟩
  intro a ha hm
  rw [g.fake] at hm
  rcases List.mem_cons.mp hm with h | h
  · exact hd a ha (by simp [h])
  · rcases g.origin a h with h' | h'
    · exact hd a ha (List.mem_cons_of_mem _ h')
    · exact absurd (hlt a ha) (not_lt.mpr h')

theorem copy_loop_zero (env : Env) (idx cur : Nat) (s : State T) :
    copy_loop env 0 idx cur s = (idx, Res.ok () s) := rfl

theorem copy_loop_succ_ok (env : Env) (k idx cur nx : Nat) (v : T) (s s1 : State T)
    (hv : get_value cur s = Res.ok v s) (hp : push_back env v s = Res.ok () s1)
    (hn : get_next cur s1 = Res.ok nx s1) :
    copy_loop env (k + 1) idx cur s = copy_loop env k (idx + 1) nx s1 := by
  rw [copy_loop]
  simp [hv, hp, hn]

theorem copy_loop_succ_threw (env : Env) (k idx cur : Nat) (v : T) (s s1 : State T) (e : Exc)
    (hv : get_value cur s = Res.ok v s) (hp : push_back env v s = Res.threw e s1) :
    copy_loop env (k + 1) idx cur s = (idx, Res.threw e s1) := by
  rw [copy_loop]
  simp [hv, hp]

theorem copy_loop_eq (env : Env) :
    ∀ (qs : List (Nat × T)) (s : State T) (ns : List (Nat × T)) (a o idx : Nat),
      Ring s s.this ns → Sound s →
      (∀ n ∈ qs, s.kind n.1 = Kind.node n.2) →
      Linked s.prev s.next a (qs.map Prod.fst) o →
      (∀ x ∈ o :: qs.map Prod.fst, x ∉ s.this.fake_node_ :: ns.map Prod.fst ∧ x < s.brk) →
      ∃ j, j ≤ qs.length ∧
        copy_loop env qs.length idx ((qs.map Prod.fst).headD o) s =
          (idx + j, init_loop env (qs.map Prod.snd) s) ∧
        (∀ t, init_loop env (qs.map Prod.snd) s = Res.ok () t → j = qs.length) ∧
        (∀ e t, init_loop env (qs.map Prod.snd) s = Res.threw e t →
          t.this.size_ = s.this.size_ + j)
  | [], s, ns, a, o, idx, hr, hs, hq, hl, hout => by
      refine ⟨0, le_refl _, rfl, fun _ _ => rfl, ?_⟩
      intro e t h
      rw [List.map_nil, init_loop_nil] at h
      cases h
  | (x, v) :: rest, s, ns, a, o, idx, hr, hs, hq, hl, hout => by
      have hx : s.kind x = Kind.node v := hq (x, v) (by simp)
      have hv : get_value x s = Res.ok v s := by simp [get_value, hx]
      have hxout := hout x (by simp)
      by_cases hflag : env.allocate_fails s.allocate_calls = false ∧ s.brk < SIZE_MOD ∧
          env.construct_fails s.construct_calls = false
      · obtain ⟨t1, h1, g1, -, hb1, -, -⟩ :=
          push_back_step env v s ns hr hs hflag.1 hflag.2.1 hflag.2.2
        have hk1 : ∀ y ∈ o :: (x :: rest.map Prod.fst), t1.kind y = s.kind y ∧
            t1.prev y = s.prev y ∧ t1.next y = s.next y := by
          intro y hy
          have := hout y (by simpa using hy)
          exact ⟨g1.kind_eq y this.1 this.2, g1.prev_eq y this.1 this.2,
            g1.next_eq y this.1 this.2⟩
        have hnx : t1.next x = (rest.map Prod.fst).headD o := by
          rw [(hk1 x (by simp)).2.2]
          exact Linked.next_head _ _ _ hl.2
        have hn : get_next x t1 = Res.ok ((rest.map Prod.fst).headD o) t1 := by
          simp [get_next, (hk1 x (by simp)).1, hx, hnx]
        obtain ⟨j, hj, hrun, hok, hth⟩ := copy_loop_eq env rest t1 _ x o (idx + 1)
          g1.ring g1.sound
          (fun n hn' => by
            rw [(hk1 n.1 (by simp [List.mem_map_of_mem Prod.fst hn'])).1]
            exact hq n (List.mem_cons_of_mem _ hn'))
          (Linked.frame _ _ _ hl.2
            (fun y hy => (hk1 y (by
              rcases List.mem_cons.mp hy with h | h
              · simp [h]
              · simp [h])).2.2)
            (fun y hy => (hk1 y (by
              rcases List.mem_append.mp hy with h | h
              · simp [h]
              · simp at h; simp [h])).2.1))
          (fun y hy => by
            have hy' : y ∈ o :: x :: rest.map Prod.fst := by
              rcases List.mem_cons.mp hy with h | h
              · simp [h]
              · simp [h]
            have := hout y (by simpa using hy')
            refine ⟨?_, lt_of_lt_of_le this.2 g1.brk_le⟩
            rw [g1.fake]
            intro hm
            rcases List.mem_cons.mp hm with h | h
            · exact this.1 (by simp [h])
            · simp only [List.map_append, List.map_cons, List.map_nil, List.mem_append,
                List.mem_singleton] at h
              rcases h with h | h
              · exact this.1 (List.mem_cons_of_mem _ h)
              · exact absurd this.2 (by rw [h]; exact lt_irrefl _))
        refine ⟨j + 1, by simpa using hj, ?_, ?_, ?_⟩
        · rw [List.length_cons, List.map_cons, List.headD_cons,
            copy_loop_succ_ok env _ idx x _ v s t1 hv h1 hn, hrun, List.map_cons,
            init_loop_cons_ok env v _ s t1 h1, Nat.add_assoc, Nat.add_comm 1 j]
        · intro t h
          rw [List.map_cons, init_loop_cons_ok env v _ s t1 h1] at h
          rw [hok t h, List.length_cons]
        · intro e t h
          rw [List.map_cons, init_loop_cons_ok env v _ s t1 h1] at h
          rw [hth e t h, g1.ring.size, hr.size, List.length_append, List.length_singleton]
          omega
      · obtain ⟨e, t1, h1, -, -, -, -, hthis, -⟩ := push_back_fails env v s ns hr hs hflag
        refine ⟨0, Nat.zero_le _, ?_, ?_, ?_⟩
        · rw [List.length_cons, List.map_cons, List.headD_cons,
            copy_loop_succ_threw env _ idx x v s t1 e hv h1, List.map_cons,
            init_loop_cons_threw env v _ s t1 e h1, Nat.add_zero]
        · intro t h
          rw [List.map_cons, init_loop_cons_threw env v _ s t1 e h1] at h
          cases h
        · intro e' t h
          rw [List.map_cons, init_loop_cons_threw env v _ s t1 e h1] at h
          cases h
          rw [hthis, Nat.add_zero]

end Copying

section CopyConstructor
variable {T : Type}

theorem with_object_keeps (s : State T) (al : AllocId) (hs : Sound s) (c : ListObj)
    (os : List (Nat × T)) (ho : Ring s c os) :
    Ring (s.with_object al) c os ∧
      ∀ a ∈ c.fake_node_ :: os.map Prod.fst,
        a ∉ (s.with_object al).this.fake_node_ :: ([] : List (Nat × T)).map Prod.fst := by
  have hlt := ho.lt_brk hs
  have hne : ∀ a ∈ c.fake_node_ :: os.map Prod.fst, a ≠ s.brk := fun a ha => (hlt a ha).ne
  refine ⟨ho.transfer rfl rfl ?_ ?_ ?_, ?_⟩
  · intro a ha; simp [State.with_object, hne a ha]
  · intro a ha; simp [State.with_object, hne a ha]
  · intro a ha; simp [State.with_object, hne a ha]
  · intro a ha
    simp [State.with_object, hne a ha]

theorem List_copy_of_ok (env : Env) (other : ListObj) (s0 t : State T) (cur j : Nat)
    (hb : s0.brk < SIZE_MOD)
    (hget : get_next other.fake_node_
      (s0.with_object (env.select_on_container_copy_construction other.alloc_)) =
        Res.ok cur (s0.with_object (env.select_on_container_copy_construction other.alloc_)))
    (hcopy : copy_loop env other.size_ 0 cur
      (s0.with_object (env.select_on_container_copy_construction other.alloc_)) =
        (j, Res.ok () t)) :
    List_copy env other s0 = Res.ok () t := by
  simp only [State.with_object] at hget hcopy
  simp [List_copy, new_object_run 0 _ s0 hb, set_alloc_, catching_with_index, hget, hcopy]

theorem List_copy_of_threw (env : Env) (other : ListObj) (s0 t t2 : State T) (cur j : Nat)
    (e : Exc) (hb : s0.brk < SIZE_MOD)
    (hget : get_next other.fake_node_
      (s0.with_object (env.select_on_container_copy_construction other.alloc_)) =
        Res.ok cur (s0.with_object (env.select_on_container_copy_construction other.alloc_)))
    (hcopy : copy_loop env other.size_ 0 cur
      (s0.with_object (env.select_on_container_copy_construction other.alloc_)) =
        (j, Res.threw e t))
    (hpop : for_count j pop_back t = Res.ok () t2) :
    List_copy env other s0 = Res.threw e t2 := by
  simp only [State.with_object] at hget hcopy
  simp [List_copy, new_object_run 0 _ s0 hb, set_alloc_, catching_with_index, hget, hcopy, hpop]

theorem List_copy_ub (env : Env) (other : ListObj) (s0 : State T)
    (hb : ¬ s0.brk < SIZE_MOD) : List_copy env other s0 = Res.ub := by
  simp [List_copy, new_object_ub 0 _ s0 hb]

/-- What the copy constructor does, in every case: it appends copies of a
prefix of the source to the new, empty container; it completes when the prefix
is the whole source, and otherwise it pops every copy again and rethrows. -/
theorem List_copy_spec (env : Env) (other : ListObj) (s0 : State T) (os : List (Nat × T))
    (hs0 : Sound s0) (ho : Ring s0 other os) (hb : s0.brk < SIZE_MOD) :
    ∃ new t fail,
      Pushed env (s0.with_object (env.select_on_container_copy_construction other.alloc_))
        t [] new fail ∧
      new.map Prod.snd = (os.map Prod.snd).take new.length ∧
      ((List_copy env other s0 = Res.ok () t ∧ new.length = os.length ∧ fail = []) ∨
        (∃ e t2, List_copy env other s0 = Res.threw e t2 ∧ new.length < os.length ∧
          Blocked env (s0.with_object (env.select_on_container_copy_construction other.alloc_))
            new.length ∧
          (fail = [] ∨ fail =
            [Event.deallocate (env.select_on_container_copy_construction other.alloc_)
                (s0.brk + 1 + new.length),
              Event.allocate (env.select_on_container_copy_construction other.alloc_)
                (s0.brk + 1 + new.length)]) ∧
          Grows t t2 new [] ∧
          t2.trace = released (env.select_on_container_copy_construction other.alloc_)
            (new.map Prod.fst).reverse ++ t.trace ∧
          t2.brk = t.brk)) := by
  obtain ⟨hr1, hs1⟩ := with_object_ring s0
    (env.select_on_container_copy_construction other.alloc_) hs0 hb
  obtain ⟨ho1, hd1⟩ := with_object_keeps s0
    (env.select_on_container_copy_construction other.alloc_) hs0 other os ho
  have hlt1 := ho1.lt_brk hs1
  have hget : get_next other.fake_node_
      (s0.with_object (env.select_on_container_copy_construction other.alloc_)) =
        Res.ok ((os.map Prod.fst).headD other.fake_node_)
          (s0.with_object (env.select_on_container_copy_construction other.alloc_)) := by
    simp [get_next, ho1.sentinel, ho1.next_fake]
  obtain ⟨j, -, hrun, hjok, hjth⟩ := copy_loop_eq env os _ [] other.fake_node_ other.fake_node_ 0
    hr1 hs1 ho1.nodes ho1.linked (fun x hx => ⟨hd1 x hx, hlt1 x hx⟩)
  rw [← ho1.size, Nat.zero_add] at hrun
  obtain ⟨new, t, fail, hp, hv, hcase⟩ := init_loop_spec env (os.map Prod.snd) _ [] hr1 hs1
  refine ⟨new, t, fail, hp, hv, ?_⟩
  rcases hcase with ⟨hok, hlen, hfail, -⟩ | ⟨e, hth, hlen, hbl, hfail⟩
  · left
    rw [hok] at hrun
    exact ⟨List_copy_of_ok env other s0 t _ j hb hget hrun, by simpa using hlen, hfail⟩
  · right
    rw [hth] at hrun
    have hring : Ring t t.this ([] ++ new) := hp.grows.ring
    have hj : j = new.length := by
      have h1 := hjth e t hth
      have h2 := hring.size
      have h3 : (s0.with_object (env.select_on_container_copy_construction other.alloc_)).this.size_
          = 0 := rfl
      rw [h3] at h1
      simp only [List.nil_append] at h2
      omega
    obtain ⟨t2, hpop, g2, htr2, hb2⟩ := pop_back_loop new t [] hring hp.grows.sound
    rw [← hj] at hpop
    refine ⟨e, t2, List_copy_of_threw env other s0 t t2 _ j e hb hget hrun hpop,
      by simpa using hlen, hbl, hfail, by simpa using g2, ?_, hb2⟩
    rw [htr2, hp.grows.alloc]
    rfl

end CopyConstructor

section CopyClaims
variable {T : Type}

theorem pair_sound : Sound State.pair := by
  constructor
  · intro a ha
    have h0 : a ≠ 0 := by
      intro h; rw [h] at ha; exact absurd ha (by decide)
    have h1 : a ≠ 1 := by
      intro h; rw [h] at ha; exact absurd ha (by decide)
    have h2 : a ≠ 2 := by
      intro h; rw [h] at ha; exact absurd ha (by decide)
    simp [State.pair, h0, h1, h2]
  · decide

theorem pair_ring : Ring State.pair State.pair.this [(1, 5), (2, 6)] := by
  constructor
  · rfl
  · intro n hn
    simp at hn
    rcases hn with rfl | rfl <;> rfl
  · exact ⟨⟨rfl, rfl⟩, ⟨rfl, rfl⟩, rfl, rfl⟩
  · decide
  · rfl

theorem Ring.on {s : State T} {c : ListObj} {os : List (Nat × T)} (h : Ring s c os) :
    Ring (s.on c) (s.on c).this os :=
  h.transfer rfl rfl (fun _ _ => rfl) (fun _ _ => rfl) (fun _ _ => rfl)

theorem forward_other (s : State T) (c : ListObj) (os : List (Nat × T)) (h : Ring s c os)
    (fuel : Nat) (hfuel : size c ≤ fuel) : forward fuel (s.on c) = some (os.map Prod.snd) :=
  forward_ring (s.on c) os h.on fuel (by rw [← h.size]; exact hfuel)

theorem with_object_below (s : State T) (al : AllocId) (a : Nat) (ha : a < s.brk) :
    (s.with_object al).kind a = s.kind a ∧ (s.with_object al).prev a = s.prev a ∧
      (s.with_object al).next a = s.next a := by
  simp [State.with_object, ha.ne]

/-- C5: copy construction `List(other)`.  When nothing is planned to fail and
addresses do not run out, it completes; and whenever it completes, the copy has
the size and the forward element sequence of the source, which is unchanged;
the copy is made of nodes at addresses handed out during the call, none of
which is a node of the source; and after any further `push_back`, `push_front`,
`pop_back` and `pop_front` calls on the copy the source still is the same ring
with the same size and element sequence. -/
theorem C5_copy_is_independent (env : Env) (other : ListObj) (s0 : State T)
    (os : List (Nat × T)) (hs0 : Sound s0) (ho : Ring s0 other os) :
    (NoFailure env → s0.brk + os.length < SIZE_MOD →
      ∃ s, List_copy env other s0 = Res.ok () s) ∧
    (∀ s, List_copy env other s0 = Res.ok () s →
      size s.this = size other ∧
      (∀ fuel, size other ≤ fuel →
        forward fuel s = some (os.map Prod.snd) ∧
        forward fuel (s.on other) = some (os.map Prod.snd)) ∧
      (∃ cs, Ring s s.this cs ∧
        ∀ a ∈ s.this.fake_node_ :: cs.map Prod.fst,
          s0.brk ≤ a ∧ a ∉ other.fake_node_ :: os.map Prod.fst) ∧
      (∀ (env1 : Env) (ops : List (Op T)) (s1 : State T),
        run_ops env1 ops s = Res.ok () s1 →
          Ring s1 other os ∧
          ∀ fuel, size other ≤ fuel →
            forward fuel (s1.on other) = some (os.map Prod.snd))) := by
  constructor
  · intro hno hroom
    have hb : s0.brk < SIZE_MOD := by omega
    obtain ⟨new, t, fail, hp, hv, hcase⟩ := List_copy_spec env other s0 os hs0 ho hb
    rcases hcase with ⟨hok, -⟩ | ⟨e, t2, -, hlen, hbl, -⟩
    · exact ⟨t, hok⟩
    · exact absurd hbl (noFailure_room env _ _ hno (by
        show s0.brk + 1 + new.length < SIZE_MOD
        omega))
  · intro s h
    by_cases hb : s0.brk < SIZE_MOD
    · obtain ⟨new, t, fail, hp, hv, hcase⟩ := List_copy_spec env other s0 os hs0 ho hb
      obtain ⟨hr1, hs1⟩ := with_object_ring s0
        (env.select_on_container_copy_construction other.alloc_) hs0 hb
      obtain ⟨ho1, hd1⟩ := with_object_keeps s0
        (env.select_on_container_copy_construction other.alloc_) hs0 other os ho
      rcases hcase with ⟨hok, hlen, -⟩ | ⟨e, t2, hth, -⟩
      · rw [hok] at h
        cases h
        have hring : Ring s s.this new := by simpa using hp.grows.ring
        obtain ⟨ho2, hd2⟩ := hp.grows.keeps ho1 hs1 hd1
        have hvals : new.map Prod.snd = os.map Prod.snd := by
          rw [hv, hlen, ← List.length_map os Prod.snd, List.take_length]
        have hsz : size s.this = size other := by
          show s.this.size_ = other.size_
          rw [hring.size, ho.size, hlen]
        refine ⟨hsz, ?_, ⟨new, hring, ?_⟩, ?_⟩
        · intro fuel hfuel
          refine ⟨?_, forward_other s other os ho2 fuel hfuel⟩
          rw [← hvals]
          exact forward_ring s new hring fuel (by rw [← hring.size]; rw [← hsz] at hfuel; exact hfuel)
        · intro a ha
          have hlt := ho.lt_brk hs0
          have hge : s0.brk ≤ a := by
            rcases List.mem_cons.mp ha with h | h
            · rw [h, hp.grows.fake]
              exact le_refl _
            · have := hp.addrs
              rw [this] at h
              have := (List.mem_range'_1.mp h).1
              exact le_trans (Nat.le_succ _) this
          exact ⟨hge, fun hm => absurd (hlt a hm) (not_lt.mpr hge)⟩
        · intro env1 ops s1 hrun
          obtain ⟨ms, g, -, -⟩ := run_ops_ring env1 ops s s1 new hring hp.grows.sound hrun
          have hd2' : ∀ a ∈ other.fake_node_ :: os.map Prod.fst,
              a ∉ s.this.fake_node_ :: new.map Prod.fst := by
            simpa using hd2
          obtain ⟨ho3, -⟩ := g.keeps ho2 hp.grows.sound hd2'
          exact ⟨ho3, fun fuel hfuel => forward_other s1 other os ho3 fuel hfuel⟩
      · rw [hth] at h
        cases h
    · rw [List_copy_ub env other s0 hb] at h
      cases h

theorem C5_witness :
    Sound State.pair ∧ Ring State.pair State.pair.this [(1, 5), (2, 6)] ∧
    ∃ s, List_copy Env.reliable State.pair.this State.pair = Res.ok () s ∧
      size s.this = 2 ∧ forward 2 s = some [5, 6] ∧
      ∀ s1, run_ops Env.reliable [Op.pop_back, Op.push_front 9] s = Res.ok () s1 →
        forward 2 (s1.on State.pair.this) = some [5, 6] := by
  have h := C5_copy_is_independent Env.reliable State.pair.this State.pair [(1, 5), (2, 6)]
    pair_sound pair_ring
  obtain ⟨s, hs⟩ := h.1 noFailure_reliable (by decide)
  obtain ⟨hsz, hfw, -, hops⟩ := h.2 s hs
  exact ⟨pair_sound, pair_ring, s, hs, hsz, (hfw 2 (le_refl _)).1,
    fun s1 h1 => (hops Env.reliable _ s1 h1).2 2 (le_refl _)⟩

end CopyClaims

section CopyFailure
variable {T : Type}

/-- C10: copy construction `List(other)` in which copying an element fails.
When the copy of the element at some index K below the size of the source is
bound to fail (its `allocate` or its `construct` is planned to throw, or no
address is left), the constructor throws.  And whenever it throws, copying the
element at some index K below the size of the source failed; the K nodes
inserted before were all destroyed and deallocated before the exception left
(the trace of the call is K builds, the failed attempt, then the release of
the same K nodes, last one first), no allocation made for the copy is
outstanding, every address handed out to a node is free again, and the source
and everything else that existed are unchanged. -/
theorem C10_failed_copy_is_cleaned_up (env : Env) (other : ListObj) (s0 : State T)
    (os : List (Nat × T)) (hs0 : Sound s0) (ho : Ring s0 other os) :
    (s0.brk < SIZE_MOD → ∀ K, K < os.length →
      Blocked env (s0.with_object (env.select_on_container_copy_construction other.alloc_)) K →
      ∃ e t, List_copy env other s0 = Res.threw e t) ∧
    (∀ e t, List_copy env other s0 = Res.threw e t →
    ∃ (K : Nat) (addrs : List Nat) (fail : List Event),
      K < os.length ∧ addrs.length = K ∧
      Blocked env (s0.with_object (env.select_on_container_copy_construction other.alloc_)) K ∧
      t.trace =
        released (env.select_on_container_copy_construction other.alloc_) addrs.reverse ++
          (fail ++ built (env.select_on_container_copy_construction other.alloc_) addrs ++
            s0.trace) ∧
      outstanding
        (released (env.select_on_container_copy_construction other.alloc_) addrs.reverse ++
          (fail ++ built (env.select_on_container_copy_construction other.alloc_) addrs)) = 0 ∧
      (∀ a, s0.brk < a → t.kind a = Kind.free) ∧
      (∀ a, a < s0.brk → t.kind a = s0.kind a ∧ t.prev a = s0.prev a ∧ t.next a = s0.next a) ∧
      Ring t other os ∧
      ∀ fuel, size other ≤ fuel → forward fuel (t.on other) = some (os.map Prod.snd)) := by
  refine ⟨fun hb K hK hbl => ?_, fun e t h => ?_⟩
  · obtain ⟨new, t1, fail, hp, -, hcase⟩ := List_copy_spec env other s0 os hs0 ho hb
    rcases hcase with ⟨-, hlen, -⟩ | ⟨e, t, hth, -⟩
    · exfalso
      have hplan := hp.plan K (by rw [hlen]; exact hK)
      have hroom := hp.room
      rcases hbl with h1 | h1 | h1
      · rw [hplan.1] at h1
        cases h1
      · omega
      · rw [hplan.2] at h1
        cases h1
    · exact ⟨e, t, hth⟩
  by_cases hb : s0.brk < SIZE_MOD
  · obtain ⟨new, t1, fail, hp, hv, hcase⟩ := List_copy_spec env other s0 os hs0 ho hb
    obtain ⟨hr1, hs1⟩ := with_object_ring s0
      (env.select_on_container_copy_construction other.alloc_) hs0 hb
    obtain ⟨ho1, hd1⟩ := with_object_keeps s0
      (env.select_on_container_copy_construction other.alloc_) hs0 other os ho
    rcases hcase with ⟨hok, -⟩ | ⟨e1, t2, hth, hlen, hbl, hfail, g2, htr2, -⟩
    · rw [hok] at h
      cases h
    · rw [hth] at h
      cases h
      have g : Grows (s0.with_object (env.select_on_container_copy_construction other.alloc_))
          t [] [] := by
        have g1 := hp.grows
        simp only [List.nil_append] at g1
        exact Grows.trans hr1 hs1 g1 g2
      obtain ⟨hbelow, habove, -⟩ := g.restored hr1 hs1
      obtain ⟨ho2, -⟩ := g.keeps ho1 hs1 hd1
      refine ⟨new.length, new.map Prod.fst, fail, hlen, List.length_map _ _, hbl, ?_, ?_, ?_, ?_,
        ho2, fun fuel hfuel => forward_other t other os ho2 fuel hfuel⟩
      · rw [htr2, hp.trace]
        rfl
      · rw [outstanding_append, outstanding_append, outstanding_released, outstanding_built,
          List.length_reverse]
        rcases hfail with hf | hf <;> rw [hf] <;> simp [outstanding]
      · intro a ha
        exact habove a ha
      · intro a ha
        obtain ⟨h1, h2, h3⟩ := hbelow a (Nat.lt_succ_of_lt ha)
        obtain ⟨k1, k2, k3⟩ := with_object_below s0
          (env.select_on_container_copy_construction other.alloc_) a ha
        exact ⟨h1.trans k1, h2.trans k2, h3.trans k3⟩
  · rw [List_copy_ub env other s0 hb] at h
    cases h

theorem C10_witness :
    Sound State.pair ∧ Ring State.pair State.pair.this [(1, 5), (2, 6)] ∧
    ∃ e t, List_copy (Env.construct_fails_at 3) State.pair.this State.pair = Res.threw e t ∧
      ∃ evs, t.trace = evs ++ State.pair.trace ∧ outstanding evs = 0 ∧
        (∀ a, State.pair.brk < a → t.kind a = Kind.free) ∧
        forward 2 (t.on State.pair.this) = some [5, 6] := by
  refine ⟨pair_sound, pair_ring, ?_⟩
  have hC := C10_failed_copy_is_cleaned_up (Env.construct_fails_at 3) State.pair.this State.pair
    [(1, 5), (2, 6)] pair_sound pair_ring
  obtain ⟨e, t, hth⟩ := hC.1 (size_mod_gt 3 (by omega)) 1 (by decide) (Or.inr (Or.inr rfl))
  obtain ⟨K, addrs, fail1, -, -, -, htr, hout, hfree, -, -, hfw⟩ := hC.2 e t hth
  refine ⟨e, t, hth, _, ?_, hout, hfree, hfw 2 (le_refl _)⟩
  rw [htr]
  simp

end CopyFailure

section AssignRun
variable {T : Type}

theorem with_alloc_ring (s : State T) (al : AllocId) (ns : List (Nat × T))
    (hr : Ring s s.this ns) (hs : Sound s) :
    Ring (s.with_alloc al) (s.with_alloc al).this ns ∧ Sound (s.with_alloc al) :=
  ⟨hr.transfer rfl rfl (fun _ _ => rfl) (fun _ _ => rfl) (fun _ _ => rfl),
    ⟨hs.fresh, hs.bound⟩⟩

theorem with_alloc_other (s : State T) (al : AllocId) (c : ListObj) (os : List (Nat × T))
    (ho : Ring s c os) : Ring (s.with_alloc al) c os :=
  ho.transfer rfl rfl (fun _ _ => rfl) (fun _ _ => rfl) (fun _ _ => rfl)

theorem assign_self (env : Env) (other : ListObj) (s : State T)
    (h : s.this.fake_node_ = other.fake_node_) : assign env other s = Res.ok () s := by
  simp [assign, fake_node_, h]

theorem assign_of_ok (env : Env) (other : ListObj) (s t t2 : State T) (cur j : Nat)
    (hne : s.this.fake_node_ ≠ other.fake_node_)
    (hget : get_next other.fake_node_ (s.with_alloc (next_allocator env s.this other)) =
      Res.ok cur (s.with_alloc (next_allocator env s.this other)))
    (hcopy : copy_loop env other.size_ 0 cur (s.with_alloc (next_allocator env s.this other)) =
      (j, Res.ok () t))
    (hpop : for_count s.this.size_ pop_front (t.with_alloc s.this.alloc_) = Res.ok () t2) :
    assign env other s = Res.ok () (t2.with_alloc (next_allocator env s.this other)) := by
  simp only [State.with_alloc, next_allocator] at hget hcopy hpop ⊢
  simp [assign, fake_node_, alloc_, size_, set_alloc_, catching_with_index, hne, hget, hcopy,
    hpop]

theorem assign_of_threw (env : Env) (other : ListObj) (s t t2 : State T) (cur j : Nat)
    (e : Exc) (hne : s.this.fake_node_ ≠ other.fake_node_)
    (hget : get_next other.fake_node_ (s.with_alloc (next_allocator env s.this other)) =
      Res.ok cur (s.with_alloc (next_allocator env s.this other)))
    (hcopy : copy_loop env other.size_ 0 cur (s.with_alloc (next_allocator env s.this other)) =
      (j, Res.threw e t))
    (hpop : for_count j pop_back t = Res.ok () t2) :
    assign env other s = Res.threw e (t2.with_alloc s.this.alloc_) := by
  simp only [State.with_alloc, next_allocator] at hget hcopy hpop ⊢
  simp [assign, fake_node_, alloc_, size_, set_alloc_, catching_with_index, hne, hget, hcopy,
    hpop]

end AssignRun

section AssignSpec
variable {T : Type}

/-- What copy assignment between two distinct containers does, in every case:
it appends copies of a prefix of the source behind the old nodes; when the
prefix is the whole source it then pops the old nodes from the front, and
otherwise it pops every copy again from the back and rethrows. -/
theorem assign_spec (env : Env) (other : ListObj) (s : State T) (ns os : List (Nat × T))
    (hs : Sound s) (hr : Ring s s.this ns) (ho : Ring s other os)
    (hd : ∀ x ∈ other.fake_node_ :: os.map Prod.fst,
      x ∉ s.this.fake_node_ :: ns.map Prod.fst) :
    ∃ new t fail,
      Pushed env (s.with_alloc (next_allocator env s.this other)) t ns new fail ∧
      new.map Prod.snd = (os.map Prod.snd).take new.length ∧
      ((∃ t2, assign env other s = Res.ok () (t2.with_alloc (next_allocator env s.this other)) ∧
          new.length = os.length ∧ fail = [] ∧
          Grows (t.with_alloc s.this.alloc_) t2 (ns ++ new) new ∧
          t2.trace = released s.this.alloc_ (ns.map Prod.fst) ++ t.trace) ∨
        (∃ e t2, assign env other s = Res.threw e (t2.with_alloc s.this.alloc_) ∧
          new.length < os.length ∧
          Blocked env (s.with_alloc (next_allocator env s.this other)) new.length ∧
          (fail = [] ∨ fail =
            [Event.deallocate (next_allocator env s.this other) (s.brk + new.length),
              Event.allocate (next_allocator env s.this other) (s.brk + new.length)]) ∧
          Grows t t2 (ns ++ new) ns ∧
          t2.trace = released (next_allocator env s.this other) (new.map Prod.fst).reverse ++
            t.trace)) := by
  have hne : s.this.fake_node_ ≠ other.fake_node_ := by
    intro h
    exact hd other.fake_node_ (by simp) (by simp [h])
  obtain ⟨hr1, hs1⟩ := with_alloc_ring s (next_allocator env s.this other) ns hr hs
  have ho1 := with_alloc_other s (next_allocator env s.this other) other os ho
  have hlt1 := ho1.lt_brk hs1
  have hget : get_next other.fake_node_ (s.with_alloc (next_allocator env s.this other)) =
      Res.ok ((os.map Prod.fst).headD other.fake_node_)
        (s.with_alloc (next_allocator env s.this other)) := by
    simp [get_next, ho1.sentinel, ho1.next_fake]
  obtain ⟨j, -, hrun, hjok, hjth⟩ := copy_loop_eq env os _ ns other.fake_node_ other.fake_node_ 0
    hr1 hs1 ho1.nodes ho1.linked (fun x hx => ⟨hd x hx, hlt1 x hx⟩)
  rw [← ho1.size, Nat.zero_add] at hrun
  obtain ⟨new, t, fail, hp, hv, hcase⟩ := init_loop_spec env (os.map Prod.snd) _ ns hr1 hs1
  refine ⟨new, t, fail, hp, hv, ?_⟩
  rcases hcase with ⟨hok, hlen, hfail, -⟩ | ⟨e, hth, hlen, hbl, hfail⟩
  · left
    rw [hok] at hrun
    obtain ⟨hr2, hs2⟩ := with_alloc_ring t s.this.alloc_ _ hp.grows.ring hp.grows.sound
    obtain ⟨t2, hpop, g2, htr2, -⟩ := pop_front_loop ns (t.with_alloc s.this.alloc_) new hr2 hs2
    rw [← hr.size] at hpop
    exact ⟨t2, assign_of_ok env other s t t2 _ j hne hget hrun hpop, by simpa using hlen,
      hfail, g2, htr2⟩
  · right
    rw [hth] at hrun
    have hj : j = new.length := by
      have h1 := hjth e t hth
      have h2 := hp.grows.ring.size
      have h3 : (s.with_alloc (next_allocator env s.this other)).this.size_ = ns.length :=
        hr.size
      rw [h3] at h1
      simp only [List.length_append] at h2
      omega
    obtain ⟨t2, hpop, g2, htr2, -⟩ := pop_back_loop new t ns hp.grows.ring hp.grows.sound
    rw [← hj] at hpop
    refine ⟨e, t2, assign_of_threw env other s t t2 _ j e hne hget hrun hpop,
      by simpa using hlen, hbl, hfail, g2, ?_⟩
    rw [htr2, hp.grows.alloc]
    rfl

end AssignSpec

section AssignClaims
variable {T : Type}

theorem two_lists_sound : Sound State.two_lists := by
  constructor
  · intro a ha
    have h0 : a ≠ 0 := by
      intro h; rw [h] at ha; exact absurd ha (by decide)
    have h1 : a ≠ 1 := by
      intro h; rw [h] at ha; exact absurd ha (by decide)
    have h2 : a ≠ 2 := by
      intro h; rw [h] at ha; exact absurd ha (by decide)
    have h3 : a ≠ 3 := by
      intro h; rw [h] at ha; exact absurd ha (by decide)
    have h4 : a ≠ 4 := by
      intro h; rw [h] at ha; exact absurd ha (by decide)
    have h5 : a ≠ 5 := by
      intro h; rw [h] at ha; exact absurd ha (by decide)
    simp [State.two_lists, h0, h1, h2, h3, h4, h5]
  · decide

theorem two_lists_first : Ring State.two_lists State.two_lists.this [(1, 5), (2, 6)] := by
  constructor
  · rfl
  · intro n hn
    simp at hn
    rcases hn with rfl | rfl <;> rfl
  · exact ⟨⟨rfl, rfl⟩, ⟨rfl, rfl⟩, rfl, rfl⟩
  · decide
  · rfl

theorem two_lists_second : Ring State.two_lists State.second_list [(4, 7), (5, 8)] := by
  constructor
  · rfl
  · intro n hn
    simp at hn
    rcases hn with rfl | rfl <;> rfl
  · exact ⟨⟨rfl, rfl⟩, ⟨rfl, rfl⟩, rfl, rfl⟩
  · decide
  · rfl

theorem two_lists_apart :
    ∀ x ∈ State.second_list.fake_node_ :: ([(4, 7), (5, 8)] : List (Nat × Nat)).map Prod.fst,
      x ∉ State.two_lists.this.fake_node_ :: ([(1, 5), (2, 6)] : List (Nat × Nat)).map Prod.fst := by
  decide

/-- C6: copy assignment `a = b` between two distinct containers.  When nothing
is planned to fail and addresses do not run out, it completes; and whenever it
completes, `a` has the size and the forward element sequence of `b`, `b` is
unchanged, every node `a` held before is free, and the trace of the call is the
building of all the new nodes followed by the release (destroy, then
deallocate) of each old node once, in forward order: no old node is released
before every element of `b` has been copied. -/
theorem C6_copy_assignment (env : Env) (other : ListObj) (s : State T)
    (ns os : List (Nat × T)) (hs : Sound s) (hr : Ring s s.this ns) (ho : Ring s other os)
    (hd : ∀ x ∈ other.fake_node_ :: os.map Prod.fst,
      x ∉ s.this.fake_node_ :: ns.map Prod.fst) :
    (NoFailure env → s.brk + os.length ≤ SIZE_MOD →
      ∃ t, assign env other s = Res.ok () t) ∧
    (∀ t, assign env other s = Res.ok () t →
      size t.this = size other ∧
      (∀ fuel, size other ≤ fuel →
        forward fuel t = some (os.map Prod.snd) ∧
        forward fuel (t.on other) = some (os.map Prod.snd)) ∧
      (∀ a ∈ other.fake_node_ :: os.map Prod.fst,
        t.kind a = s.kind a ∧ t.prev a = s.prev a ∧ t.next a = s.next a) ∧
      (∀ a ∈ ns.map Prod.fst, t.kind a = Kind.free) ∧
      t.this.alloc_ = next_allocator env s.this other ∧
      ∃ addrs : List Nat, addrs.length = os.length ∧ (∀ a ∈ addrs, s.brk ≤ a) ∧
        t.trace = released s.this.alloc_ (ns.map Prod.fst) ++
          (built (next_allocator env s.this other) addrs ++ s.trace)) := by
  obtain ⟨new, t1, fail, hp, hv, hcase⟩ := assign_spec env other s ns os hs hr ho hd
  obtain ⟨hr1, hs1⟩ := with_alloc_ring s (next_allocator env s.this other) ns hr hs
  have ho1 := with_alloc_other s (next_allocator env s.this other) other os ho
  constructor
  · intro hno hroom
    rcases hcase with ⟨t2, hok, -⟩ | ⟨e, t2, -, hlen, hbl, -⟩
    · exact ⟨_, hok⟩
    · exact absurd hbl (noFailure_room env _ _ hno (by
        show s.brk + new.length < SIZE_MOD
        omega))
  · intro t h
    rcases hcase with ⟨t2, hok, hlen, hfail, g2, htr2⟩ | ⟨e, t2, hth, -⟩
    · rw [hok] at h
      cases h
      obtain ⟨hr3, -⟩ := with_alloc_ring t2 (next_allocator env s.this other) new
        g2.ring g2.sound
      obtain ⟨hr2, hs2⟩ := with_alloc_ring t1 s.this.alloc_ _ hp.grows.ring hp.grows.sound
      obtain ⟨ho2, hd2⟩ := hp.grows.keeps ho1 hs1 hd
      obtain ⟨ho3, -⟩ := g2.keeps (with_alloc_other t1 s.this.alloc_ other os ho2) hs2 hd2
      have ho4 := with_alloc_other t2 (next_allocator env s.this other) other os ho3
      have hvals : new.map Prod.snd = os.map Prod.snd := by
        rw [hv, hlen, ← List.length_map os Prod.snd, List.take_length]
      have hsz : size (t2.with_alloc (next_allocator env s.this other)).this = size other := by
        show (t2.with_alloc (next_allocator env s.this other)).this.size_ = other.size_
        rw [hr3.size, ho.size, hlen]
      have habove : ∀ a ∈ new.map Prod.fst, s.brk ≤ a := by
        intro a ha
        rw [hp.addrs] at ha
        exact (List.mem_range'_1.mp ha).1
      refine ⟨hsz, ?_, ?_, ?_, rfl, new.map Prod.fst, by rw [List.length_map, hlen], habove, ?_⟩
      · intro fuel hfuel
        refine ⟨?_, forward_other _ other os ho4 fuel hfuel⟩
        rw [← hvals]
        exact forward_ring _ new hr3 fuel (by rw [← hr3.size]; rw [← hsz] at hfuel; exact hfuel)
      · exact Ring.agree_with ho ho4 rfl
      · intro a ha
        refine g2.freed a (by simp [ha]) ?_
        intro hm
        exact absurd (hr.lt_brk hs a (List.mem_cons_of_mem _ ha)) (not_lt.mpr (habove a hm))
      · show t2.trace = _
        rw [htr2]
        show _ ++ t1.trace = _
        rw [hp.trace, hfail]
        rfl
    · rw [hth] at h
      cases h

theorem C6_witness :
    Sound State.two_lists ∧ Ring State.two_lists State.two_lists.this [(1, 5), (2, 6)] ∧
    Ring State.two_lists State.second_list [(4, 7), (5, 8)] ∧
    ∃ t, assign Env.reliable State.second_list State.two_lists = Res.ok () t ∧
      size t.this = 2 ∧ forward 2 t = some [7, 8] ∧
      forward 2 (t.on State.second_list) = some [7, 8] ∧
      t.kind 1 = Kind.free ∧ t.kind 2 = Kind.free := by
  have h := C6_copy_assignment Env.reliable State.second_list State.two_lists
    [(1, 5), (2, 6)] [(4, 7), (5, 8)] two_lists_sound two_lists_first two_lists_second
    two_lists_apart
  obtain ⟨t, ht⟩ := h.1 noFailure_reliable (by decide)
  obtain ⟨hsz, hfw, -, hfree, -⟩ := h.2 t ht
  exact ⟨two_lists_sound, two_lists_first, two_lists_second, t, ht, hsz,
    (hfw 2 (le_refl _)).1, (hfw 2 (le_refl _)).2, hfree 1 (by simp), hfree 2 (by simp)⟩

/-- C7: copy assignment `a = b` between two distinct containers in which
copying an element fails.  When the copy of the element of `b` at some index K
below the size of `b` is bound to fail (its `allocate` or its `construct` is
planned to throw, or no address is left), the assignment throws.  And whenever
it throws, copying the element of `b` at some index K failed; afterwards
the data members of `a` (size and allocator) are what they were, everything
that existed before the call (every node's kind, value and links, so also the
ring and the element sequence of `a`) is unchanged, every address handed out
during the attempt is free again, and the trace of the call is K builds, the
failed attempt and the release of the same K nodes: no allocation of the
attempt is outstanding. -/
theorem C7_failed_assignment_rolls_back (env : Env) (other : ListObj) (s : State T)
    (ns os : List (Nat × T)) (hs : Sound s) (hr : Ring s s.this ns)
    (ho : Ring s other os)
    (hd : ∀ x ∈ other.fake_node_ :: os.map Prod.fst,
      x ∉ s.this.fake_node_ :: ns.map Prod.fst) :
    (∀ K, K < os.length → Blocked env (s.with_alloc (next_allocator env s.this other)) K →
      ∃ e t, assign env other s = Res.threw e t) ∧
    (∀ e t, assign env other s = Res.threw e t →
    t.this = s.this ∧
    (∀ a, a < s.brk → t.kind a = s.kind a ∧ t.prev a = s.prev a ∧ t.next a = s.next a) ∧
    (∀ a, s.brk ≤ a → t.kind a = Kind.free) ∧
    Ring t t.this ns ∧
    (∀ fuel, size s.this ≤ fuel → forward fuel t = some (ns.map Prod.snd)) ∧
    ∃ (K : Nat) (addrs : List Nat) (fail : List Event),
      K < os.length ∧ addrs.length = K ∧
      Blocked env (s.with_alloc (next_allocator env s.this other)) K ∧
      t.trace = released (next_allocator env s.this other) addrs.reverse ++
        (fail ++ built (next_allocator env s.this other) addrs ++ s.trace) ∧
      outstanding (released (next_allocator env s.this other) addrs.reverse ++
        (fail ++ built (next_allocator env s.this other) addrs)) = 0) := by
  obtain ⟨new, t1, fail, hp, hv, hcase⟩ := assign_spec env other s ns os hs hr ho hd
  refine ⟨fun K hK hbl => ?_, fun e t h => ?_⟩
  · rcases hcase with ⟨t2, -, hlen, -⟩ | ⟨e, t2, hth, -⟩
    · exfalso
      have hplan := hp.plan K (by rw [hlen]; exact hK)
      have hroom := hp.room
      rcases hbl with h1 | h1 | h1
      · rw [hplan.1] at h1
        cases h1
      · omega
      · rw [hplan.2] at h1
        cases h1
    · exact ⟨e, _, hth⟩
  obtain ⟨hr1, hs1⟩ := with_alloc_ring s (next_allocator env s.this other) ns hr hs
  rcases hcase with ⟨t2, hok, -⟩ | ⟨e1, t2, hth, hlen, hbl, hfail, g2, htr2⟩
  · rw [hok] at h
    cases h
  · rw [hth] at h
    cases h
    have g : Grows (s.with_alloc (next_allocator env s.this other)) t2 ns ns :=
      Grows.trans hr1 hs1 hp.grows g2
    obtain ⟨hbelow, habove, hthis⟩ := g.restored hr1 hs1
    obtain ⟨hr3, -⟩ := with_alloc_ring t2 s.this.alloc_ ns g.ring g.sound
    have hthis' : (t2.with_alloc s.this.alloc_).this = s.this := by
      show ({ t2.this with alloc_ := s.this.alloc_ } : ListObj) = s.this
      rw [hthis]
      rfl
    refine ⟨hthis', hbelow, habove, hr3, ?_, new.length, new.map Prod.fst, fail, hlen,
      List.length_map _ _, hbl, ?_, ?_⟩
    · intro fuel hfuel
      exact forward_ring _ ns hr3 fuel (by rw [← hr.size]; exact hfuel)
    · show t2.trace = _
      rw [htr2, hp.trace]
      rfl
    · rw [outstanding_append, outstanding_append, outstanding_released, outstanding_built,
        List.length_reverse]
      rcases hfail with hf | hf <;> rw [hf] <;> simp [outstanding]

theorem C7_witness :
    Sound State.two_lists ∧ Ring State.two_lists State.two_lists.this [(1, 5), (2, 6)] ∧
    Ring State.two_lists State.second_list [(4, 7), (5, 8)] ∧
    ∃ e t, assign (Env.construct_fails_at 5) State.second_list State.two_lists =
        Res.threw e t ∧
      t.this = State.two_lists.this ∧ forward 2 t = some [5, 6] ∧
      (∀ a, State.two_lists.brk ≤ a → t.kind a = Kind.free) ∧
      ∃ evs, t.trace = evs ++ State.two_lists.trace ∧ outstanding evs = 0 := by
  refine ⟨two_lists_sound, two_lists_first, two_lists_second, ?_⟩
  have hC := C7_failed_assignment_rolls_back (Env.construct_fails_at 5) State.second_list
    State.two_lists [(1, 5), (2, 6)] [(4, 7), (5, 8)] two_lists_sound two_lists_first
    two_lists_second two_lists_apart
  obtain ⟨e, t, hth⟩ := hC.1 1 (by decide) (Or.inr (Or.inr rfl))
  obtain ⟨hthis, -, hfree, -, hfw, K, addrs, fail1, -, -, -, htr, hout⟩ := hC.2 e t hth
  refine ⟨e, t, hth, hthis, hfw 2 (le_refl _), hfree, _, ?_, hout⟩
  rw [htr]
  simp

end AssignClaims

section FixedSize
variable {T : Type}

theorem fill_loop_zero (env : Env) (v : T) (idx cur : Nat) (s : State T) :
    fill_loop env v 0 idx cur s = Res.ok cur s := rfl

theorem fill_loop_succ_ok (env : Env) (v : T) (k idx cur : Nat) (s : State T)
    (ha : env.allocate_fails s.allocate_calls = false) (hb : s.brk < SIZE_MOD)
    (hc : env.construct_fails s.construct_calls = false)
    (hcur : (s.kind cur).is_object = true) (hp : s.kind s.brk = Kind.free) :
    fill_loop env v (k + 1) idx cur s = fill_loop env v k (idx + 1) s.brk (s.filled cur v) := by
  have hne : cur ≠ s.brk := by
    intro h; rw [h, hp] at hcur; cases hcur
  rw [fill_loop]
  simp [allocate, construct, get_next, set_next, set_prev, alloc_, ha, hb, hc, hcur, hne,
    hne.symm, not_le.mpr hb, State.filled]

theorem fill_loop_succ_fail (env : Env) (v : T) (k idx cur : Nat) (s : State T)
    (hcur : (s.kind cur).is_object = true) (hp : s.kind s.brk = Kind.free)
    (h : ¬(env.allocate_fails s.allocate_calls = false ∧ s.brk < SIZE_MOD ∧
          env.construct_fails s.construct_calls = false)) :
    ∀ c t, fill_loop env v (k + 1) idx cur s ≠ Res.ok c t := by
  have hne : cur ≠ s.brk := by
    intro h; rw [h, hp] at hcur; cases hcur
  intro c t
  by_cases ha : env.allocate_fails s.allocate_calls = true ∨ SIZE_MOD ≤ s.brk
  · rw [fill_loop]
    simp [allocate, alloc_, ha]
  · have ha1 : env.allocate_fails s.allocate_calls = false := by
      cases h' : env.allocate_fails s.allocate_calls
      · rfl
      · exact absurd (Or.inl h') ha
    have hb : s.brk < SIZE_MOD := by
      by_contra h'
      exact ha (Or.inr (not_lt.mp h'))
    have hc : env.construct_fails s.construct_calls = true := by
      cases h' : env.construct_fails s.construct_calls
      · exact absurd ⟨ha1, hb, h'⟩ h
      · rfl
    rw [fill_loop]
    simp [allocate, construct, deallocate, get_next, set_next, alloc_, ha1, hb, hc, hcur, hne,
      hne.symm, not_le.mpr hb, set_size_]
    generalize unwind_loop idx cur _ = r
    cases r <;> simp

theorem Filling.cur_object {s : State T} {xs : List Nat} {v : T} (h : Filling s xs v) :
    (s.kind (xs.getLastD s.this.fake_node_)).is_object = true := by
  rcases List.eq_nil_or_concat xs with rfl | ⟨pre, c, rfl⟩
  · simp [h.sentinel]
  · rw [List.concat_eq_append] at h ⊢
    simp [h.nodes c (by simp)]

theorem Filling.fake_not_built {s : State T} {xs : List Nat} {v : T} (h : Filling s xs v) :
    s.this.fake_node_ ∉ xs := by
  intro hm
  have := h.nodes _ hm
  rw [h.sentinel] at this
  cases this

theorem Filling.below_brk {s : State T} {xs : List Nat} {v : T} (h : Filling s xs v) :
    ∀ a ∈ s.this.fake_node_ :: xs, a < s.brk := by
  intro a ha
  by_contra hlt
  have hfree := h.sound.fresh a (not_lt.mp hlt)
  rcases List.mem_cons.mp ha with rfl | hm
  · rw [h.sentinel] at hfree; cases hfree
  · rw [h.nodes a hm] at hfree; cases hfree

theorem Filling.step {s : State T} {xs : List Nat} {v : T} (h : Filling s xs v)
    (hb : s.brk < SIZE_MOD) :
    Filling (s.filled (xs.getLastD s.this.fake_node_) v) (xs ++ [s.brk]) v := by
  have hlt := h.below_brk
  have hf : s.this.fake_node_ ≠ s.brk := (hlt _ (by simp)).ne
  have hx : ∀ x ∈ xs, x ≠ s.brk := fun x hx' => (hlt x (List.mem_cons_of_mem _ hx')).ne
  constructor
  · show Function.update s.kind s.brk (Kind.node v) s.this.fake_node_ = Kind.base
    simp [hf, h.sentinel]
  · intro x hx'
    show Function.update s.kind s.brk (Kind.node v) x = Kind.node v
    rcases List.mem_append.mp hx' with hm | hm
    · simp [hx x hm, h.nodes x hm]
    · simp at hm
      subst hm
      exact Function.update_same _ _ _
  · rw [List.nodup_append]
    refine ⟨h.nodup, by simp, ?_⟩
    intro a ha hb'
    simp at hb'
    exact hx a ha hb'
  · intro pre c hpc
    obtain ⟨h1, h2⟩ := List.append_inj' hpc (by simp)
    have h3 : s.brk = c := by simpa using h2
    subst h1 h3
    clear hpc h2
    show Linked (Function.update s.prev s.brk (xs.getLastD s.this.fake_node_))
      (Function.update (Function.update s.next (xs.getLastD s.this.fake_node_) s.brk) s.brk s.brk)
      s.this.fake_node_ xs s.brk
    rcases List.eq_nil_or_concat xs with hnil | ⟨pre1, c1, hcat⟩
    · subst hnil
      simp [Linked, hf, hf.symm]
    · rw [List.concat_eq_append] at hcat
      subst hcat
      have hl := h.linked pre1 c1 rfl
      have hc1 : c1 ≠ s.brk := hx c1 (by simp)
      have hnd := h.nodup
      have hfn := h.fake_not_built
      rw [Linked.append_iff]
      have hlast : (pre1 ++ [c1]).getLastD s.this.fake_node_ = c1 := by simp
      rw [hlast]
      refine ⟨Linked.frame _ _ _ hl ?_ ?_, by simp [hc1], by simp⟩
      · intro x hx'
        have hxc : x ≠ c1 := by
          rintro rfl
          rcases List.mem_cons.mp hx' with h' | h'
          · exact hfn (by simp [← h'])
          · exact (List.nodup_append.mp hnd).2.2 h' (by simp)
        have hxp : x ≠ s.brk := by
          rcases List.mem_cons.mp hx' with h' | h'
          · rw [h']; exact hf
          · exact hx x (by simp [h'])
        simp [hxc, hxp]
      · intro x hx'
        have hxp : x ≠ s.brk := hx x hx'
        simp [hxp]
  · constructor
    · intro a ha
      have : a ≠ s.brk := by
        have : s.brk + 1 ≤ a := ha
        omega
      show Function.update s.kind s.brk (Kind.node v) a = Kind.free
      simp [this]
      exact h.sound.fresh a (by
        have : s.brk + 1 ≤ a := ha
        omega)
    · show s.brk + 1 ≤ SIZE_MOD
      omega

theorem fill_loop_spec (env : Env) (v : T) :
    ∀ (k idx : Nat) (s : State T) (xs : List Nat), Filling s xs v →
      (∃ ys t, fill_loop env v k idx (xs.getLastD s.this.fake_node_) s =
            Res.ok ((xs ++ ys).getLastD s.this.fake_node_) t ∧
          Filling t (xs ++ ys) v ∧ ys.length = k ∧ t.this = s.this) ∨
      ((∀ c t, fill_loop env v k idx (xs.getLastD s.this.fake_node_) s ≠ Res.ok c t) ∧
        (NoFailure env → SIZE_MOD < s.brk + k))
  | 0, idx, s, xs, h => Or.inl ⟨[], s, by simp [fill_loop_zero], by simpa using h, rfl, rfl⟩
  | k + 1, idx, s, xs, h => by
      have hp : s.kind s.brk = Kind.free := h.sound.fresh _ (le_refl _)
      by_cases hflag : env.allocate_fails s.allocate_calls = false ∧ s.brk < SIZE_MOD ∧
          env.construct_fails s.construct_calls = false
      · have hstep := fill_loop_succ_ok env v k idx _ s hflag.1 hflag.2.1 hflag.2.2
          h.cur_object hp
        have hfill := h.step hflag.2.1
        have hlast : (xs ++ [s.brk]).getLastD
            (s.filled (xs.getLastD s.this.fake_node_) v).this.fake_node_ = s.brk := by simp
        rcases fill_loop_spec env v k (idx + 1) _ _ hfill with
          ⟨ys, t, hrun, hfin, hlen, hthis⟩ | ⟨hnever, hroom⟩
        · left
          rw [hlast] at hrun
          refine ⟨s.brk :: ys, t, ?_, by simpa using hfin, by simp [hlen], hthis⟩
          rw [hstep, hrun]
          simp
          rfl
        · right
          rw [hlast] at hnever
          refine ⟨fun c t => by rw [hstep]; exact hnever c t, fun hno => ?_⟩
          have := hroom hno
          have hb : (s.filled (xs.getLastD s.this.fake_node_) v).brk = s.brk + 1 := rfl
          omega
      · right
        refine ⟨fill_loop_succ_fail env v k idx _ s h.cur_object hp hflag, fun hno => ?_⟩
        by_contra hcon
        exact hflag ⟨(hno _).1, by omega, (hno _).2⟩

theorem Filling.close {s : State T} {xs : List Nat} {v : T} (h : Filling s xs v)
    (hsz : s.this.size_ = xs.length) :
    ∃ t, (do set_next (xs.getLastD s.this.fake_node_) (← fake_node_)
             set_prev (← fake_node_) (xs.getLastD s.this.fake_node_) : M T Unit) s =
        Res.ok () t ∧
      Ring t t.this (xs.map (fun x => (x, v))) ∧ Sound t ∧ t.this = s.this := by
  have hobj := h.cur_object
  refine ⟨{ s with
      next := Function.update s.next (xs.getLastD s.this.fake_node_) s.this.fake_node_
      prev := Function.update s.prev s.this.fake_node_ (xs.getLastD s.this.fake_node_) },
    ?_, ?_, ⟨h.sound.fresh, h.sound.bound⟩, rfl⟩
  · have hf : (s.kind s.this.fake_node_).is_object = true := by rw [h.sentinel]; rfl
    simp only [M.bind_run, fake_node_, set_next, set_prev, hobj, hf, if_true]
  have hmap : (xs.map (fun x => (x, v))).map Prod.fst = xs := by
    simp [List.map_map, Function.comp_def]
  constructor
  · exact h.sentinel
  · intro n hn
    obtain ⟨x, hx, rfl⟩ := List.mem_map.mp hn
    exact h.nodes x hx
  · rw [hmap]
    show Linked (Function.update s.prev s.this.fake_node_ (xs.getLastD s.this.fake_node_))
      (Function.update s.next (xs.getLastD s.this.fake_node_) s.this.fake_node_)
      s.this.fake_node_ xs s.this.fake_node_
    rcases List.eq_nil_or_concat xs with hnil | ⟨pre, c, hcat⟩
    · subst hnil
      simp [Linked, List.getLastD]
    · rw [List.concat_eq_append] at hcat
      subst hcat
      have hl := h.linked pre c rfl
      have hnd := h.nodup
      have hfn := h.fake_not_built
      have hlast : (pre ++ [c]).getLastD s.this.fake_node_ = c := by simp
      rw [hlast, Linked.append_iff]
      refine ⟨Linked.frame _ _ _ hl ?_ ?_, by simp, by simp⟩
      · intro x hx
        have hxc : x ≠ c := by
          rintro rfl
          rcases List.mem_cons.mp hx with h' | h'
          · exact hfn (by simp [← h'])
          · exact (List.nodup_append.mp hnd).2.2 h' (by simp)
        simp [hxc]
      · intro x hx
        have hxf : x ≠ s.this.fake_node_ := by
          rintro rfl
          exact hfn hx
        simp [hxf]
  · rw [hmap]
    exact h.nodup
  · show s.this.size_ = _
    rw [hsz, List.length_map]

end FixedSize

section FixedSizeClaims
variable {T : Type}

theorem with_sized_object_filling (s : State T) (sz : Nat) (al : AllocId) (v : T)
    (hs : Sound s) (hb : s.brk < SIZE_MOD) : Filling (s.with_sized_object sz al) [] v := by
  constructor
  · simp [State.with_sized_object]
  · intro x hx; cases hx
  · exact List.nodup_nil
  · intro pre c h
    exact absurd h (by simp)
  · constructor
    · intro a ha
      have h1 : s.brk + 1 ≤ a := ha
      have : a ≠ s.brk := by omega
      simp [State.with_sized_object, this]
      exact hs.fresh a (by omega)
    · show s.brk + 1 ≤ SIZE_MOD
      omega

theorem List_count_value_run (env : Env) (count : Nat) (v : T) (alloc : AllocId) (s : State T)
    (hb : s.brk < SIZE_MOD) :
    List_count_value env count v alloc s =
      match fill_loop env v count 0 s.brk (s.with_sized_object count alloc) with
      | Res.ok cur t =>
          (do set_next cur (← fake_node_)
              set_prev (← fake_node_) cur : M T Unit) t
      | Res.threw e t => Res.threw e t
      | Res.ub => Res.ub := by
  simp only [List_count_value, M.bind_run, new_object_run count alloc s hb, fake_node_,
    State.with_sized_object]
  cases fill_loop env v count 0 s.brk _ <;> rfl

theorem List_count_value_ub (env : Env) (count : Nat) (v : T) (alloc : AllocId) (s : State T)
    (hb : ¬ s.brk < SIZE_MOD) : List_count_value env count v alloc s = Res.ub := by
  simp [List_count_value, new_object_ub count alloc s hb]

/-- What a fixed-size constructor does when it completes, and that it completes
when nothing is planned to fail and addresses do not run out. -/
theorem List_count_value_spec (env : Env) (count : Nat) (v : T) (alloc : AllocId)
    (s0 : State T) (hs0 : Sound s0) :
    (NoFailure env → s0.brk + count < SIZE_MOD →
      ∃ s, List_count_value env count v alloc s0 = Res.ok () s) ∧
    (∀ s, List_count_value env count v alloc s0 = Res.ok () s →
      ∃ xs : List Nat, xs.length = count ∧ Ring s s.this (xs.map (fun x => (x, v))) ∧
        Sound s) := by
  by_cases hb : s0.brk < SIZE_MOD
  · have hfill := with_sized_object_filling s0 count alloc v hs0 hb
    have hrun := List_count_value_run env count v alloc s0 hb
    rcases fill_loop_spec env v count 0 _ [] hfill with
      ⟨ys, t, hloop, hfin, hlen, hthis⟩ | ⟨hnever, hroom⟩
    · have hloop' : fill_loop env v count 0 s0.brk (s0.with_sized_object count alloc) =
          Res.ok (ys.getLastD s0.brk) t := by
        simpa using hloop
      rw [hloop'] at hrun
      have hfin' : Filling t ys v := by simpa using hfin
      have hf : t.this.fake_node_ = s0.brk := by rw [hthis]; rfl
      obtain ⟨u, hu, hring, hsound, -⟩ := hfin'.close (by rw [hthis, hlen]; rfl)
      rw [hf] at hu
      have hrun' : List_count_value env count v alloc s0 = Res.ok () u := hrun.trans hu
      refine ⟨fun _ _ => ⟨u, hrun'⟩, ?_⟩
      intro s h
      rw [hrun'] at h
      cases h
      exact ⟨ys, hlen, hring, hsound⟩
    · have hnever' : ∀ c t, fill_loop env v count 0 s0.brk
          (s0.with_sized_object count alloc) ≠ Res.ok c t := by
        simpa using hnever
      constructor
      · intro hno hsp
        have := hroom hno
        have hb0 : (s0.with_sized_object count alloc).brk = s0.brk + 1 := rfl
        omega
      · intro s h
        rw [hrun] at h
        cases hfl : fill_loop env v count 0 s0.brk (s0.with_sized_object count alloc) with
        | ok c t => exact absurd hfl (hnever' c t)
        | threw e t => rw [hfl] at h; cases h
        | ub => rw [hfl] at h; cases h
  · refine ⟨fun _ hsp => absurd (by omega) hb, ?_⟩
    intro s h
    rw [List_count_value_ub env count v alloc s0 hb] at h
    cases h

/-- C4: the fixed-size constructors.  When nothing is planned to fail and
addresses do not run out, `List(N, v)` completes; and whenever it completes,
`size()` is N, the walk from `begin()` to `end()` visits exactly N elements, each
equal to `v`, the backward walk does too, and the ring is closed in both
directions: the `next` of the last node (the sentinel's `prev`) is the sentinel
and the `prev` of the first node (the sentinel's `next`) is the sentinel.
`List(N)` runs the same statements with the default value of `T`. -/
theorem C4_fixed_size_constructor (env : Env) (count : Nat) (v : T) (alloc : AllocId)
    (s0 : State T) (hs0 : Sound s0) :
    (NoFailure env → s0.brk + count < SIZE_MOD →
      ∃ s, List_count_value env count v alloc s0 = Res.ok () s) ∧
    (∀ s, List_count_value env count v alloc s0 = Res.ok () s →
      size s.this = count ∧
      (∀ fuel, count ≤ fuel →
        forward fuel s = some (List.replicate count v) ∧
        backward fuel s = some (List.replicate count v)) ∧
      s.next (s.prev s.this.fake_node_) = s.this.fake_node_ ∧
      s.prev (s.next s.this.fake_node_) = s.this.fake_node_) ∧
    (∀ inst : Inhabited T,
      @List_count T inst env count alloc = List_count_value env count (@default T inst) alloc) := by
  obtain ⟨htotal, hspec⟩ := List_count_value_spec env count v alloc s0 hs0
  refine ⟨htotal, ?_, fun _ => rfl⟩
  intro s h
  obtain ⟨xs, hlen, hring, -⟩ := hspec s h
  have hvals : (xs.map (fun x => (x, v))).map Prod.snd = List.replicate count v := by
    rw [List.map_map, ← hlen]
    exact List.map_const' xs v
  have hl : (xs.map (fun x => (x, v))).length = count := by rw [List.length_map, hlen]
  refine ⟨by rw [← hl]; exact hring.size, ?_, ?_, ?_⟩
  · intro fuel hfuel
    rw [← hl] at hfuel
    refine ⟨?_, ?_⟩
    · rw [← hvals]
      exact forward_ring s _ hring fuel hfuel
    · have := backward_ring s _ hring fuel hfuel
      rw [hvals, List.reverse_replicate] at this
      exact this
  · rw [hring.prev_fake]
    exact Linked.next_last _ _ _ hring.linked
  · rw [hring.next_fake]
    exact Linked.prev_head _ _ _ hring.linked

theorem C4_witness :
    Sound (State.initial : State Nat) ∧
    ∃ s, List_count_value Env.reliable 5 42 0 (State.initial : State Nat) = Res.ok () s ∧
      size s.this = 5 ∧ forward 5 s = some [42, 42, 42, 42, 42] ∧
      s.next (s.prev s.this.fake_node_) = s.this.fake_node_ := by
  have h := C4_fixed_size_constructor Env.reliable 5 42 0 (State.initial : State Nat)
    sound_initial
  obtain ⟨s, hs⟩ := h.1 noFailure_reliable (by decide)
  obtain ⟨hsz, hfw, hnext, -⟩ := h.2.1 s hs
  exact ⟨sound_initial, s, hs, hsz, (hfw 5 (le_refl _)).1, hnext⟩

end FixedSizeClaims

section Examples

theorem initial_with_object_eq :
    ((State.initial : State Nat).with_object 0) =
      { kind := fun a => if a = 0 then Kind.base else Kind.free
        prev := fun _ => 0, next := fun _ => 0, brk := 1, trace := []
        allocate_calls := 0, construct_calls := 0
        this := { fake_node_ := 0, size_ := 0, alloc_ := 0 } } := by
  simp only [State.with_object, State.initial]
  congr 1
  · funext a; simp [Function.update_apply]
  · funext a; simp [Function.update_apply]
  · funext a; simp [Function.update_apply]

theorem build_eq (env : Env) (ops : List (Op Nat)) (s0 : State Nat) (hb : s0.brk < SIZE_MOD) :
    build env ops s0 = run_ops env ops (s0.with_object env.default_allocator) := by
  have h0 := new_object_run 0 env.default_allocator s0 hb
  simp only [build, List_default, M.bind_run, h0]
  rfl

theorem singleton_pushed :
    push_back Env.reliable 5 ((State.initial : State Nat).with_object 0) =
      Res.ok () State.singleton := by
  rw [initial_with_object_eq]
  refine (push_back_ok Env.reliable (5 : Nat)
    { kind := fun a => if a = 0 then Kind.base else Kind.free
      prev := fun _ => 0, next := fun _ => 0, brk := 1, trace := []
      allocate_calls := 0, construct_calls := 0
      this := { fake_node_ := 0, size_ := 0, alloc_ := 0 } }
    rfl (size_mod_gt 1 (by omega)) rfl rfl rfl rfl).trans ?_
  simp only [State.singleton]
  congr 2
  all_goals
    funext a
    dsimp only
    simp only [Function.update_apply]
    repeat' split
    all_goals first | rfl | omega

theorem pair_pushed :
    push_back Env.reliable 6 State.singleton = Res.ok () State.pair := by
  refine (push_back_ok Env.reliable (6 : Nat) State.singleton
    rfl (size_mod_gt 2 (by omega)) rfl rfl rfl rfl).trans ?_
  simp only [State.singleton, State.pair]
  congr 2
  all_goals
    funext a
    dsimp only
    simp only [Function.update_apply]
    repeat' split
    all_goals first | rfl | omega | simp_all

theorem singleton_built :
    build Env.reliable [Op.push_back 5] (State.initial : State Nat) =
      Res.ok () State.singleton := by
  rw [build_eq _ _ _ (size_mod_gt 0 (by omega)), show Env.reliable.default_allocator = 0 from rfl,
    run_ops_cons_ok Env.reliable (Op.push_back 5) [] _ _ singleton_pushed, run_ops_nil]

theorem pair_built :
    build Env.reliable [Op.push_back 5, Op.push_back 6] (State.initial : State Nat) =
      Res.ok () State.pair := by
  rw [build_eq _ _ _ (size_mod_gt 0 (by omega)), show Env.reliable.default_allocator = 0 from rfl,
    run_ops_cons_ok Env.reliable (Op.push_back 5) _ _ _ singleton_pushed,
    run_ops_cons_ok Env.reliable (Op.push_back 6) [] _ _ pair_pushed, run_ops_nil]

theorem second_list_pushed :
    push_back Env.reliable 7 (State.pair.with_object 0) = Res.ok ()
      { kind := fun a =>
          if a = 0 then Kind.base else if a = 1 then Kind.node 5
          else if a = 2 then Kind.node 6 else if a = 3 then Kind.base
          else if a = 4 then Kind.node 7 else Kind.free
        prev := fun a =>
          if a = 0 then 2 else if a = 1 then 0 else if a = 2 then 1
          else if a = 3 then 4 else if a = 4 then 3 else 0
        next := fun a =>
          if a = 0 then 1 else if a = 1 then 2 else if a = 2 then 0
          else if a = 3 then 4 else if a = 4 then 3 else 0
        brk := 5
        trace := [Event.construct 0 4, Event.allocate 0 4,
          Event.construct 0 2, Event.allocate 0 2, Event.construct 0 1, Event.allocate 0 1]
        allocate_calls := 3
        construct_calls := 3
        this := { fake_node_ := 3, size_ := 1, alloc_ := 0 } } := by
  refine (push_back_ok Env.reliable (7 : Nat) (State.pair.with_object 0)
    rfl (size_mod_gt 4 (by omega)) rfl rfl rfl rfl).trans ?_
  simp only [State.pair, State.with_object]
  congr 2
  all_goals
    funext a
    dsimp only
    simp only [Function.update_apply]
    repeat' split
    all_goals first | rfl | omega | simp_all

theorem two_lists_built :
    build Env.reliable [Op.push_back 7, Op.push_back 8] State.pair =
      Res.ok () (State.two_lists.on State.second_list) := by
  rw [build_eq _ _ _ (size_mod_gt 3 (by omega)), show Env.reliable.default_allocator = 0 from rfl,
    run_ops_cons_ok Env.reliable (Op.push_back 7) _ _ _ second_list_pushed]
  refine (run_ops_cons_ok Env.reliable (Op.push_back 8) [] _ _
    (push_back_ok Env.reliable 8 _ ?_ ?_ ?_ ?_ ?_ ?_)).trans ?_
  · rfl
  · exact size_mod_gt 5 (by omega)
  · rfl
  · rfl
  · rfl
  · rfl
  rw [run_ops_nil]
  simp only [State.two_lists, State.on, State.second_list]
  congr 2
  all_goals
    funext a
    dsimp only
    simp only [Function.update_apply]
    repeat' split
    all_goals first | rfl | omega | simp_all

end Examples

section Unwinding
variable {T : Type}

theorem unwind_loop_zero (cur : Nat) (s : State T) :
    unwind_loop 0 cur s = Res.ok () s := rfl

theorem unwind_loop_succ {s : State T} {pre : List Nat} {c : Nat} {v : T}
    (h : Filling s (pre ++ [c]) v) (n : Nat) :
    unwind_loop (n + 1) c s =
      unwind_loop n (pre.getLastD s.this.fake_node_) (s.released_one c) := by
  have hc : s.kind c = Kind.node v := h.nodes c (by simp)
  have hl := h.linked pre c rfl
  have hprev : s.prev c = pre.getLastD s.this.fake_node_ := Linked.prev_last _ _ _ hl
  have hnext : s.next (pre.getLastD s.this.fake_node_) = c := Linked.next_last _ _ _ hl
  have hq : (s.kind (pre.getLastD s.this.fake_node_)).is_object = true := by
    rcases List.eq_nil_or_concat pre with rfl | ⟨p1, c1, rfl⟩
    · simp [h.sentinel]
    · rw [List.concat_eq_append]
      simp [h.nodes c1 (by simp)]
  have hqc : pre.getLastD s.this.fake_node_ ≠ c := by
    intro he
    rcases List.eq_nil_or_concat pre with rfl | ⟨p1, c1, rfl⟩
    · simp at he
      rw [← he, h.sentinel] at hc
      cases hc
    · rw [List.concat_eq_append] at he h
      simp at he
      subst he
      have := h.nodup
      simp [List.nodup_append] at this
  generalize pre.getLastD s.this.fake_node_ = q at hprev hnext hq hqc ⊢
  have hq2 : (Function.update s.kind c Kind.raw q).is_object = true := by
    rw [Function.update_noteq hqc]
    exact hq
  rw [unwind_loop]
  simp [get_prev, get_next, destroy, deallocate, alloc_, hc, hprev, hnext, hq, hq2,
    State.released_one]

theorem Filling.drop_last {s : State T} {pre : List Nat} {c : Nat} {v : T}
    (h : Filling s (pre ++ [c]) v) : Filling (s.released_one c) pre v := by
  have hnd := h.nodup
  rw [List.nodup_append] at hnd
  have hf : s.this.fake_node_ ≠ c := by
    intro he
    exact h.fake_not_built (by rw [he]; simp)
  have hx : ∀ x ∈ pre, x ≠ c := by
    rintro x hx rfl
    exact hnd.2.2 hx (by simp)
  constructor
  · show Function.update s.kind c Kind.free s.this.fake_node_ = Kind.base
    rw [Function.update_noteq hf]
    exact h.sentinel
  · intro x hx'
    show Function.update s.kind c Kind.free x = Kind.node v
    rw [Function.update_noteq (hx x hx')]
    exact h.nodes x (by simp [hx'])
  · exact hnd.1
  · intro p1 c1 hp
    have hl := h.linked (p1 ++ [c1]) c (by rw [hp])
    rw [Linked.append_iff] at hl
    exact hl.1
  · constructor
    · intro a ha
      show Function.update s.kind c Kind.free a = Kind.free
      by_cases hac : a = c
      · rw [hac]; exact Function.update_same _ _ _
      · rw [Function.update_noteq hac]
        exact h.sound.fresh a ha
    · exact h.sound.bound

/-- What the loop of lines 98-105 does: it releases the nodes built so far,
the last one first, and touches no link. -/
theorem unwind_loop_spec (v : T) :
    ∀ (n : Nat) (xs : List Nat) (s : State T), xs.length = n → Filling s xs v →
      ∃ t, unwind_loop n (xs.getLastD s.this.fake_node_) s = Res.ok () t ∧
        t.trace = released s.this.alloc_ xs.reverse ++ s.trace ∧
        (∀ a, t.kind a = if a ∈ xs then Kind.free else s.kind a) ∧
        t.prev = s.prev ∧ t.next = s.next ∧ t.brk = s.brk ∧ t.this = s.this ∧
        t.allocate_calls = s.allocate_calls ∧ t.construct_calls = s.construct_calls
  | 0, xs, s, hlen, _ => by
      have : xs = [] := List.length_eq_zero.mp hlen
      subst this
      exact ⟨s, rfl, by simp [released], by simp, rfl, rfl, rfl, rfl, rfl, rfl⟩
  | n + 1, xs, s, hlen, h => by
      rcases List.eq_nil_or_concat xs with rfl | ⟨pre, c, rfl⟩
      · simp at hlen
      · rw [List.concat_eq_append] at hlen h ⊢
        have hlen1 : pre.length = n := by simpa using hlen
        have hstep := unwind_loop_succ h n
        obtain ⟨t, hrun, htr, hk, hp, hn, hb, hthis, hac, hcc⟩ :=
          unwind_loop_spec v n pre (s.released_one c) hlen1 h.drop_last
        have hlast : (pre ++ [c]).getLastD s.this.fake_node_ = c := by simp
        refine ⟨t, ?_, ?_, ?_, hp, hn, hb, hthis, hac, hcc⟩
        · rw [hlast, hstep]
          exact hrun
        · rw [htr]
          simp [State.released_one, released]
        · intro a
          rw [hk a]
          by_cases hap : a ∈ pre
          · simp [hap]
          · by_cases hac' : a = c
            · subst hac'
              simp [State.released_one]
            · simp [hap, hac', State.released_one]

theorem fill_loop_alloc_fail (env : Env) (v : T) (k idx cur : Nat) (s : State T)
    (ha : env.allocate_fails s.allocate_calls = true ∨ SIZE_MOD ≤ s.brk) :
    fill_loop env v (k + 1) idx cur s =
      Res.threw Exc.bad_alloc { s with allocate_calls := s.allocate_calls + 1 } := by
  rw [fill_loop]
  simp [allocate, alloc_, ha]

theorem fill_loop_construct_fail (env : Env) (v : T) (k idx cur : Nat) (s : State T)
    (ha : env.allocate_fails s.allocate_calls = false) (hb : s.brk < SIZE_MOD)
    (hc : env.construct_fails s.construct_calls = true)
    (hcur : (s.kind cur).is_object = true) (hp : s.kind s.brk = Kind.free) :
    fill_loop env v (k + 1) idx cur s =
      match unwind_loop idx cur (s.failed cur) with
      | Res.ok () t => Res.threw Exc.construct_failed { t with this := { t.this with size_ := 0 } }
      | Res.threw e t => Res.threw e t
      | Res.ub => Res.ub := by
  have hne : cur ≠ s.brk := by
    intro h; rw [h, hp] at hcur; cases hcur
  have hk : Function.update s.kind s.brk Kind.free = s.kind := by
    rw [← hp]; exact Function.update_eq_self _ _
  rw [fill_loop]
  simp [allocate, construct, deallocate, get_next, set_next, alloc_, ha, hb, hc, hcur, hne,
    hne.symm, not_le.mpr hb, set_size_, State.failed, hk]
  generalize unwind_loop idx cur _ = r
  cases r <;> simp

theorem Filling.failed {s : State T} {xs : List Nat} {v : T} (h : Filling s xs v)
    (hb : s.brk < SIZE_MOD) : Filling (s.failed (xs.getLastD s.this.fake_node_)) xs v := by
  constructor
  · exact h.sentinel
  · exact h.nodes
  · exact h.nodup
  · intro pre c hpc
    subst hpc
    have hl := h.linked pre c rfl
    have hnd := h.nodup
    have hfn := h.fake_not_built
    have hlast : (pre ++ [c]).getLastD s.this.fake_node_ = c := by simp
    rw [hlast]
    show Linked s.prev (Function.update s.next c s.brk) s.this.fake_node_ pre c
    refine Linked.frame _ _ _ hl ?_ (fun _ _ => rfl)
    intro x hx
    have hxc : x ≠ c := by
      rintro rfl
      rcases List.mem_cons.mp hx with h1 | h1
      · exact hfn (by simp [← h1])
      · exact (List.nodup_append.mp hnd).2.2 h1 (by simp)
    exact Function.update_noteq hxc _ _
  · constructor
    · intro a ha
      have h1 : s.brk + 1 ≤ a := ha
      exact h.sound.fresh a (by omega)
    · show s.brk + 1 ≤ SIZE_MOD
      omega

/-- What the loop of a fixed-size constructor does, in every case.  It builds
nodes at the addresses `s.brk`, `s.brk + 1`, ... as long as `allocate` and
`construct` succeed.  It completes after `k` of them; it leaves with
`bad_alloc`, everything built so far still in place, when an `allocate` fails;
and when a `construct` fails it gives the storage back, releases the nodes
built so far (last one first), sets `size_` to 0 and rethrows. -/
theorem fill_loop_cases (env : Env) (v : T) :
    ∀ (k idx : Nat) (s : State T) (xs : List Nat), Filling s xs v → idx = xs.length →
      ∃ (ys : List Nat) (t : State T),
        ys = List.range' s.brk ys.length ∧
        (∀ i, i < ys.length → env.allocate_fails (s.allocate_calls + i) = false ∧
          env.construct_fails (s.construct_calls + i) = false) ∧
        s.brk + ys.length ≤ SIZE_MOD ∧
        ((fill_loop env v k idx (xs.getLastD s.this.fake_node_) s =
              Res.ok ((xs ++ ys).getLastD s.this.fake_node_) t ∧
            ys.length = k ∧ Filling t (xs ++ ys) v ∧ t.this = s.this ∧
            t.trace = built s.this.alloc_ ys ++ s.trace) ∨
          (fill_loop env v k idx (xs.getLastD s.this.fake_node_) s = Res.threw Exc.bad_alloc t ∧
            ys.length < k ∧
            (env.allocate_fails (s.allocate_calls + ys.length) = true ∨
              SIZE_MOD ≤ s.brk + ys.length) ∧
            Filling t (xs ++ ys) v ∧ t.this = s.this ∧
            t.trace = built s.this.alloc_ ys ++ s.trace ∧ t.brk = s.brk + ys.length) ∨
          (fill_loop env v k idx (xs.getLastD s.this.fake_node_) s =
              Res.threw Exc.construct_failed t ∧
            ys.length < k ∧
            env.allocate_fails (s.allocate_calls + ys.length) = false ∧
            s.brk + ys.length < SIZE_MOD ∧
            env.construct_fails (s.construct_calls + ys.length) = true ∧
            t.this = { s.this with size_ := 0 } ∧
            t.trace = released s.this.alloc_ (xs ++ ys).reverse ++
              (Event.deallocate s.this.alloc_ (s.brk + ys.length) ::
                Event.allocate s.this.alloc_ (s.brk + ys.length) ::
                  (built s.this.alloc_ ys ++ s.trace)) ∧
            (∀ a, t.kind a = if a ∈ xs ∨ s.brk ≤ a then Kind.free else s.kind a) ∧
            t.prev s.this.fake_node_ = s.prev s.this.fake_node_ ∧
            t.next s.this.fake_node_ = (if xs = [] then s.brk else s.next s.this.fake_node_) ∧
            t.brk = s.brk + ys.length + 1))
  | 0, idx, s, xs, h, _ =>
      ⟨[], s, rfl, fun i hi => absurd hi (Nat.not_lt_zero i), h.sound.bound,
        Or.inl ⟨by simp [fill_loop_zero], rfl, by simpa using h, rfl, rfl⟩⟩
  | k + 1, idx, s, xs, h, hidx => by
      have hp : s.kind s.brk = Kind.free := h.sound.fresh _ (le_refl _)
      by_cases ha : env.allocate_fails s.allocate_calls = true ∨ SIZE_MOD ≤ s.brk
      · refine ⟨[], { s with allocate_calls := s.allocate_calls + 1 }, rfl,
          fun i hi => absurd hi (Nat.not_lt_zero i), h.sound.bound, Or.inr (Or.inl ?_)⟩
        refine ⟨fill_loop_alloc_fail env v k idx _ s ha, Nat.succ_pos k, by simpa using ha, ?_,
          rfl, rfl, rfl⟩
        rw [List.append_nil]
        exact ⟨h.sentinel, h.nodes, h.nodup, h.linked, ⟨h.sound.fresh, h.sound.bound⟩⟩
      · have ha1 : env.allocate_fails s.allocate_calls = false := by
          cases h1 : env.allocate_fails s.allocate_calls
          · rfl
          · exact absurd (Or.inl h1) ha
        have hb : s.brk < SIZE_MOD := by
          by_contra h1
          exact ha (Or.inr (not_lt.mp h1))
        cases hc : env.construct_fails s.construct_calls
        · have hstep := fill_loop_succ_ok env v k idx _ s ha1 hb hc h.cur_object hp
          have hfill := h.step hb
          have hlast : (xs ++ [s.brk]).getLastD
              (s.filled (xs.getLastD s.this.fake_node_) v).this.fake_node_ = s.brk := by simp
          have hf : s.this.fake_node_ ≠ s.brk := (h.below_brk _ (by simp)).ne
          obtain ⟨ys, t, haddr, hplan, hroom, hcase⟩ := fill_loop_cases env v k (idx + 1) _ _ hfill
            (by simp [hidx])
          rw [hlast] at hcase
          have hbrk : (s.filled (xs.getLastD s.this.fake_node_) v).brk = s.brk + 1 := rfl
          have hthis : (s.filled (xs.getLastD s.this.fake_node_) v).this = s.this := rfl
          have hac : (s.filled (xs.getLastD s.this.fake_node_) v).allocate_calls =
              s.allocate_calls + 1 := rfl
          have hcc : (s.filled (xs.getLastD s.this.fake_node_) v).construct_calls =
              s.construct_calls + 1 := rfl
          have htr : (s.filled (xs.getLastD s.this.fake_node_) v).trace =
              Event.construct s.this.alloc_ s.brk :: Event.allocate s.this.alloc_ s.brk ::
                s.trace := rfl
          rw [hbrk] at haddr hroom
          rw [hac, hcc] at hplan
          simp only [hbrk, hthis, hac, hcc, htr] at hcase
          have hplan' : ∀ i, i < (s.brk :: ys).length →
              env.allocate_fails (s.allocate_calls + i) = false ∧
                env.construct_fails (s.construct_calls + i) = false := by
            intro i hi
            cases i with
            | zero => exact ⟨ha1, hc⟩
            | succ i =>
                have := hplan i (by simpa using hi)
                rw [Nat.add_assoc, Nat.add_comm 1 i, Nat.add_assoc, Nat.add_comm 1 i] at this
                exact this
          refine ⟨s.brk :: ys, t, ?_, hplan', by simp; omega, ?_⟩
          · rw [List.length_cons, List.range'_succ]
            congr 1
          · rcases hcase with ⟨hrun, hlen, hfin, hth, htrace⟩ |
              ⟨hrun, hlen, hblk, hfin, hth, htrace, hbr⟩ |
              ⟨hrun, hlen, hpa, hpb, hpc, hth, htrace, hkind, hprev, hnext, hbr⟩
            · left
              refine ⟨?_, by simp [hlen], by simpa using hfin, hth, ?_⟩
              · rw [hstep, hrun]
                simp
              · rw [htrace]
                simp [built]
            · right; left
              refine ⟨by rw [hstep, hrun], by simp; omega, ?_, by simpa using hfin, hth, ?_, ?_⟩
              · rcases hblk with h1 | h1
                · left
                  rw [List.length_cons, ← Nat.add_assoc, Nat.add_right_comm]
                  exact h1
                · right
                  rw [List.length_cons]
                  omega
              · rw [htrace]
                simp [built]
              · rw [hbr, List.length_cons]
                omega
            · right; right
              have e1 : s.brk + 1 + ys.length = s.brk + (s.brk :: ys).length := by
                rw [List.length_cons]; omega
              refine ⟨by rw [hstep, hrun], by simp; omega, ?_, ?_, ?_, hth, ?_, ?_, ?_, ?_, ?_⟩
              · rw [List.length_cons, ← Nat.add_assoc, Nat.add_right_comm]
                exact hpa
              · rw [List.length_cons]
                omega
              · rw [List.length_cons, ← Nat.add_assoc, Nat.add_right_comm]
                exact hpc
              · rw [htrace, e1]
                simp [built]
              · intro a
                rw [hkind a]
                by_cases hax : a ∈ xs
                · simp [hax]
                · by_cases hab : s.brk ≤ a
                  · rcases Nat.eq_or_lt_of_le hab with h1 | h1
                    · subst h1; simp
                    · have : s.brk + 1 ≤ a := h1
                      simp [hab, this]
                  · have h1 : ¬ s.brk + 1 ≤ a := by omega
                    have h2 : a ≠ s.brk := by omega
                    simp [hax, hab, h1, h2, State.filled]
              · rw [hprev]
                show Function.update s.prev s.brk _ s.this.fake_node_ = _
                exact Function.update_noteq hf _ _
              · rw [hnext]
                simp only [List.append_eq_nil, List.cons_ne_self, and_false, if_false]
                show Function.update (Function.update s.next _ s.brk) s.brk s.brk
                  s.this.fake_node_ = _
                rw [Function.update_noteq hf]
                by_cases hx : xs = []
                · subst hx
                  simp [List.getLastD]
                · have hne : s.this.fake_node_ ≠ xs.getLastD s.this.fake_node_ := by
                    intro he
                    rcases List.eq_nil_or_concat xs with h1 | ⟨pre, c, h1⟩
                    · exact hx h1
                    · rw [List.concat_eq_append] at h1
                      subst h1
                      simp at he
                      exact h.fake_not_built (by rw [he]; simp)
                  rw [Function.update_noteq hne, if_neg hx]
              · rw [hbr, List.length_cons]
                omega
        · have hrun := fill_loop_construct_fail env v k idx _ s ha1 hb hc h.cur_object hp
          have hfail := h.failed hb
          obtain ⟨t, hun, htr, hk, hpv, hnx, hbr, hthis, -, -⟩ :=
            unwind_loop_spec v idx xs _ hidx.symm hfail
          have hfk : (s.failed (xs.getLastD s.this.fake_node_)).this = s.this := rfl
          rw [hfk] at hun
          rw [hun] at hrun
          refine ⟨[], { t with this := { t.this with size_ := 0 } }, rfl,
            fun i hi => absurd hi (Nat.not_lt_zero i), h.sound.bound, Or.inr (Or.inr ?_)⟩
          refine ⟨hrun, Nat.succ_pos k, ha1, hb, hc, ?_, ?_, ?_, ?_, ?_, ?_⟩
          · show ({ t.this with size_ := 0 } : ListObj) = _
            rw [hthis]
            rfl
          · show t.trace = _
            rw [htr]
            simp [State.failed, built]
          · intro a
            show t.kind a = _
            rw [hk a]
            by_cases hax : a ∈ xs
            · simp [hax]
            · by_cases hab : s.brk ≤ a
              · simp [hax, hab]
                exact h.sound.fresh a hab
              · simp [hax, hab, State.failed]
          · show t.prev _ = _
            rw [hpv]
            rfl
          · show t.next _ = _
            rw [hnx]
            show Function.update s.next _ s.brk s.this.fake_node_ = _
            by_cases hx : xs = []
            · subst hx
              simp [List.getLastD]
            · have hne : s.this.fake_node_ ≠ xs.getLastD s.this.fake_node_ := by
                intro he
                rcases List.eq_nil_or_concat xs with h1 | ⟨pre, c, h1⟩
                · exact hx h1
                · rw [List.concat_eq_append] at h1
                  subst h1
                  simp at he
                  exact h.fake_not_built (by rw [he]; simp)
              rw [Function.update_noteq hne, if_neg hx]
          · show t.brk = _
            rw [hbr]
            rfl

/-- What the fixed-size constructor `List(count, value, alloc)` does, in every
case, when there is room for the container object: the nodes it builds are at
the addresses that follow the object; it completes after `count` of them,
leaves with `bad_alloc` and all nodes built so far still allocated when an
`allocate` fails, and releases everything when a `construct` fails. -/
theorem List_count_value_cases (env : Env) (count : Nat) (v : T) (alloc : AllocId)
    (s0 : State T) (hs0 : Sound s0) (hb : s0.brk < SIZE_MOD) :
    ∃ (ys : List Nat) (t : State T),
      ys = List.range' (s0.brk + 1) ys.length ∧
      (∀ i, i < ys.length → env.allocate_fails (s0.allocate_calls + i) = false ∧
        env.construct_fails (s0.construct_calls + i) = false) ∧
      s0.brk + 1 + ys.length ≤ SIZE_MOD ∧
      ((ys.length = count ∧ ∃ u, List_count_value env count v alloc s0 = Res.ok () u) ∨
        (List_count_value env count v alloc s0 = Res.threw Exc.bad_alloc t ∧
          ys.length < count ∧
          (env.allocate_fails (s0.allocate_calls + ys.length) = true ∨
            SIZE_MOD ≤ s0.brk + 1 + ys.length) ∧
          (∀ y ∈ ys, t.kind y = Kind.node v) ∧
          t.this = { fake_node_ := s0.brk, size_ := count, alloc_ := alloc } ∧
          t.trace = built alloc ys ++ s0.trace) ∨
        (List_count_value env count v alloc s0 = Res.threw Exc.construct_failed t ∧
          ys.length < count ∧
          env.allocate_fails (s0.allocate_calls + ys.length) = false ∧
          s0.brk + 1 + ys.length < SIZE_MOD ∧
          env.construct_fails (s0.construct_calls + ys.length) = true ∧
          t.this = { fake_node_ := s0.brk, size_ := 0, alloc_ := alloc } ∧
          t.trace = released alloc ys.reverse ++
            (Event.deallocate alloc (s0.brk + 1 + ys.length) ::
              Event.allocate alloc (s0.brk + 1 + ys.length) :: (built alloc ys ++ s0.trace)) ∧
          (∀ a, s0.brk < a → t.kind a = Kind.free) ∧
          (∀ a, a ≤ s0.brk → t.kind a = (s0.with_sized_object count alloc).kind a) ∧
          t.prev s0.brk = s0.brk ∧ t.next s0.brk = s0.brk + 1)) := by
  have hfill := with_sized_object_filling s0 count alloc v hs0 hb
  have hrun := List_count_value_run env count v alloc s0 hb
  obtain ⟨ys, t, haddr, hplan, hroom, hcase⟩ :=
    fill_loop_cases env v count 0 (s0.with_sized_object count alloc) [] hfill rfl
  have hbrk : (s0.with_sized_object count alloc).brk = s0.brk + 1 := rfl
  have hthis : (s0.with_sized_object count alloc).this =
      { fake_node_ := s0.brk, size_ := count, alloc_ := alloc } := rfl
  have htr0 : (s0.with_sized_object count alloc).trace = s0.trace := rfl
  have hloop0 : ([] : List Nat).getLastD (s0.with_sized_object count alloc).this.fake_node_ =
      s0.brk := rfl
  rw [hloop0] at hcase
  rw [hbrk] at haddr hroom
  simp only [hbrk, hthis, htr0, List.nil_append] at hcase
  refine ⟨ys, t, haddr, hplan, hroom, ?_⟩
  rcases hcase with ⟨hloop, hlen, hfin, hth, -⟩ |
    ⟨hloop, hlen, hblk, hfin, hth, htrace, -⟩ |
    ⟨hloop, hlen, hpa, hpb, hpc, hth, htrace, hkind, hprev, hnext, -⟩
  · left
    rw [hloop] at hrun
    obtain ⟨u, hu, -⟩ := hfin.close (by rw [hth, hlen])
    have hf : t.this.fake_node_ = s0.brk := by rw [hth]
    rw [hf] at hu
    exact ⟨hlen, u, hrun.trans hu⟩
  · right; left
    rw [hloop] at hrun
    exact ⟨hrun, hlen, hblk, hfin.nodes, hth, htrace⟩
  · right; right
    rw [hloop] at hrun
    refine ⟨hrun, hlen, hpa, hpb, hpc, hth, ?_, ?_, ?_, ?_, ?_⟩
    · rw [htrace]
    · intro a ha
      rw [hkind a]
      have : s0.brk + 1 ≤ a := ha
      simp [this]
    · intro a ha
      rw [hkind a]
      have : ¬ s0.brk + 1 ≤ a := by omega
      simp [this]
    · rw [hprev]
      simp [State.with_sized_object]
    · rw [hnext]
      simp

end Unwinding

section FixedSizeFailure
variable {T : Type}

/-- The fixed-size constructor when the `construct` of the node at index `K`
is the first call planned to fail: it throws that failure with `size_` set to 0
and every node released, while the `next` link of the sentinel still holds the
address of the first storage handed out. -/
theorem List_count_value_construct_fails (env : Env) (count : Nat) (v : T) (alloc : AllocId)
    (s0 : State T) (hs0 : Sound s0) (K : Nat) (hK : K < count)
    (hroomK : s0.brk + 1 + K < SIZE_MOD)
    (hplanK : ∀ i, i < K → env.allocate_fails (s0.allocate_calls + i) = false ∧
      env.construct_fails (s0.construct_calls + i) = false)
    (haK : env.allocate_fails (s0.allocate_calls + K) = false)
    (hcK : env.construct_fails (s0.construct_calls + K) = true) :
    ∃ t, List_count_value env count v alloc s0 = Res.threw Exc.construct_failed t ∧
      t.this = { fake_node_ := s0.brk, size_ := 0, alloc_ := alloc } ∧
      t.trace = released alloc (List.range' (s0.brk + 1) K).reverse ++
        (Event.deallocate alloc (s0.brk + 1 + K) ::
          Event.allocate alloc (s0.brk + 1 + K) ::
            (built alloc (List.range' (s0.brk + 1) K) ++ s0.trace)) ∧
      (∀ a, s0.brk < a → t.kind a = Kind.free) ∧
      t.kind s0.brk = Kind.base ∧
      t.prev s0.brk = s0.brk ∧ t.next s0.brk = s0.brk + 1 := by
  have hb : s0.brk < SIZE_MOD := by omega
  obtain ⟨ys, t, haddr, hplan, hroom, hcase⟩ :=
    List_count_value_cases env count v alloc s0 hs0 hb
  rcases hcase with ⟨hlen, -⟩ | ⟨-, -, hblk, -⟩ |
    ⟨hrun, -, -, -, hpc, hth, htrace, hfree, hkeep, hprev, hnext⟩
  · have := (hplan K (by omega)).2
    rw [hcK] at this
    cases this
  · exfalso
    rcases Nat.lt_trichotomy ys.length K with hlt | heq | hgt
    · rcases hblk with h1 | h1
      · rw [(hplanK _ hlt).1] at h1; cases h1
      · omega
    · rcases hblk with h1 | h1
      · rw [heq, haK] at h1; cases h1
      · omega
    · have := (hplan K hgt).2
      rw [hcK] at this
      cases this
  · have hlen : ys.length = K := by
      rcases Nat.lt_trichotomy ys.length K with hlt | heq | hgt
      · have := (hplanK _ hlt).2
        rw [hpc] at this
        cases this
      · exact heq
      · have := (hplan K hgt).2
        rw [hcK] at this
        cases this
    rw [hlen] at haddr htrace
    rw [← haddr]
    refine ⟨t, hrun, hth, htrace, hfree, ?_, hprev, hnext⟩
    rw [hkeep s0.brk (le_refl _)]
    simp [State.with_sized_object]

/-- The fixed-size constructor when the `allocate` for the node at index `K` is
the first call planned to fail: `bad_alloc` leaves the constructor with the `K`
nodes built before still constructed and allocated, and `size_` still `count`. -/
theorem List_count_value_allocate_fails (env : Env) (count : Nat) (v : T) (alloc : AllocId)
    (s0 : State T) (hs0 : Sound s0) (K : Nat) (hK : K < count)
    (hroomK : s0.brk + K < SIZE_MOD)
    (hplanK : ∀ i, i < K → env.allocate_fails (s0.allocate_calls + i) = false ∧
      env.construct_fails (s0.construct_calls + i) = false)
    (haK : env.allocate_fails (s0.allocate_calls + K) = true) :
    ∃ t, List_count_value env count v alloc s0 = Res.threw Exc.bad_alloc t ∧
      t.this = { fake_node_ := s0.brk, size_ := count, alloc_ := alloc } ∧
      t.trace = built alloc (List.range' (s0.brk + 1) K) ++ s0.trace ∧
      (∀ y ∈ List.range' (s0.brk + 1) K, t.kind y = Kind.node v) := by
  have hb : s0.brk < SIZE_MOD := by omega
  obtain ⟨ys, t, haddr, hplan, hroom, hcase⟩ :=
    List_count_value_cases env count v alloc s0 hs0 hb
  rcases hcase with ⟨hlen, -⟩ | ⟨hrun, -, hblk, hnodes, hth, htrace⟩ | ⟨-, -, hpa, -, hpc, -⟩
  · have := (hplan K (by omega)).1
    rw [haK] at this
    cases this
  · have hlen : ys.length = K := by
      rcases Nat.lt_trichotomy ys.length K with hlt | heq | hgt
      · rcases hblk with h1 | h1
        · rw [(hplanK _ hlt).1] at h1; cases h1
        · omega
      · exact heq
      · have := (hplan K hgt).1
        rw [haK] at this
        cases this
    rw [hlen] at haddr
    rw [← haddr]
    exact ⟨t, hrun, hth, htrace, hnodes⟩
  · exfalso
    rcases Nat.lt_trichotomy ys.length K with hlt | heq | hgt
    · have := (hplanK _ hlt).2
      rw [hpc] at this
      cases this
    · rw [heq, haK] at hpa
      cases hpa
    · have := (hplan K hgt).1
      rw [haK] at this
      cases this

/-- C11: a `construct` that fails during fixed-size construction.  When the
`construct` of the node at index K below N is planned to throw, while
everything before it succeeds and its own `allocate` succeeds, `List(N, v)`
throws the failure of `construct`.  And whenever it throws that failure, this
happened at some index K below N, and the trace of the call is: K nodes built,
the storage of the failed node allocated and deallocated again, then each of
the K nodes destroyed and deallocated once, the last built first; the count of
outstanding allocations of the call is 0 and every address handed out is free
again.  `List(N)` runs the same statements with the default value of `T`. -/
theorem C11_failed_construct_is_unwound (env : Env) (count : Nat) (v : T) (alloc : AllocId)
    (s0 : State T) (hs0 : Sound s0) :
    (∀ K, K < count → s0.brk + 1 + K < SIZE_MOD →
      (∀ i, i < K → env.allocate_fails (s0.allocate_calls + i) = false ∧
        env.construct_fails (s0.construct_calls + i) = false) →
      env.allocate_fails (s0.allocate_calls + K) = false →
      env.construct_fails (s0.construct_calls + K) = true →
      ∃ t, List_count_value env count v alloc s0 = Res.threw Exc.construct_failed t) ∧
    (∀ t, List_count_value env count v alloc s0 = Res.threw Exc.construct_failed t →
      ∃ (K : Nat) (addrs : List Nat),
        K < count ∧ addrs = List.range' (s0.brk + 1) K ∧
        env.construct_fails (s0.construct_calls + K) = true ∧
        t.trace = released alloc addrs.reverse ++
          (Event.deallocate alloc (s0.brk + 1 + K) ::
            Event.allocate alloc (s0.brk + 1 + K) :: (built alloc addrs ++ s0.trace)) ∧
        outstanding (released alloc addrs.reverse ++
          (Event.deallocate alloc (s0.brk + 1 + K) ::
            Event.allocate alloc (s0.brk + 1 + K) :: built alloc addrs)) = 0 ∧
        (∀ a, s0.brk < a → t.kind a = Kind.free)) ∧
    (∀ inst : Inhabited T,
      @List_count T inst env count alloc = List_count_value env count (@default T inst) alloc) := by
  refine ⟨?_, ?_, fun _ => rfl⟩
  · intro K hK hroomK hplanK haK hcK
    obtain ⟨t, hrun, -⟩ :=
      List_count_value_construct_fails env count v alloc s0 hs0 K hK hroomK hplanK haK hcK
    exact ⟨t, hrun⟩
  · intro t h
    by_cases hb : s0.brk < SIZE_MOD
    · obtain ⟨ys, t1, haddr, -, -, hcase⟩ :=
        List_count_value_cases env count v alloc s0 hs0 hb
      rcases hcase with ⟨-, u, hu⟩ | ⟨hrun, -⟩ | ⟨hrun, hlen, -, -, hpc, -, htrace, hfree, -⟩
      · rw [hu] at h; cases h
      · rw [hrun] at h; cases h
      · rw [hrun] at h
        cases h
        refine ⟨ys.length, ys, hlen, haddr, hpc, htrace, ?_, hfree⟩
        rw [outstanding_append, outstanding_released, List.length_reverse]
        simp [outstanding, outstanding_built]
    · rw [List_count_value_ub env count v alloc s0 hb] at h
      cases h

theorem C11_witness :
    Sound (State.initial : State Nat) ∧
    ∃ t, List_count_value (Env.construct_fails_at 1) 3 42 0 (State.initial : State Nat) =
        Res.threw Exc.construct_failed t ∧
      ∃ evs, t.trace = evs ++ (State.initial : State Nat).trace ∧ outstanding evs = 0 ∧
        ∀ a, 0 < a → t.kind a = Kind.free := by
  have hC := C11_failed_construct_is_unwound (Env.construct_fails_at 1) 3 42 0
    (State.initial : State Nat) sound_initial
  obtain ⟨t, ht⟩ := hC.1 1 (by decide) (size_mod_gt 2 (by omega))
    (fun i hi => by
      have : i = 0 := by omega
      subst this
      exact ⟨rfl, rfl⟩) rfl rfl
  obtain ⟨K, addrs, -, -, -, htr, hout, hfree⟩ := hC.2.1 t ht
  refine ⟨sound_initial, t, ht, _, ?_, hout, hfree⟩
  rw [htr]
  simp

/-- C13 at a failing input: `List(3, 42)` in which the second `allocate` throws
leaves with `bad_alloc` while the first node is still constructed and
allocated: one allocation is outstanding and `size_` is still 3. -/
theorem C13_allocate_failure_leaks :
    ∃ t, List_count_value (Env.allocate_fails_at 1) 3 42 0 (State.initial : State Nat) =
        Res.threw Exc.bad_alloc t ∧
      t.trace = [Event.construct 0 1, Event.allocate 0 1] ∧ outstanding t.trace = 1 ∧
      t.kind 1 = Kind.node 42 ∧ size t.this = 3 := by
  obtain ⟨t, hrun, hth, htrace, hnodes⟩ :=
    List_count_value_allocate_fails (Env.allocate_fails_at 1) 3 (42 : Nat) 0
      (State.initial : State Nat) sound_initial 1 (by decide) (size_mod_gt 1 (by omega))
      (fun i hi => by
        have : i = 0 := by omega
        subst this
        exact ⟨rfl, rfl⟩) rfl
  have htr : t.trace = [Event.construct 0 1, Event.allocate 0 1] := by
    rw [htrace]
    rfl
  refine ⟨t, hrun, htr, ?_, hnodes 1 (by decide), by rw [hth]; rfl⟩
  rw [htr]
  rfl

end FixedSizeFailure

section Made
variable {T : Type}

theorem run_ops_trace (env : Env) :
    ∀ (ops : List (Op T)) (s t : State T) (ns : List (Nat × T)),
      Ring s s.this ns → Sound s → run_ops env ops s = Res.ok () t →
      ∃ ms evs, Grows s t ns ms ∧ t.trace = evs ++ s.trace ∧
        outstanding evs + (ns.length : Int) = ms.length
  | [], s, t, ns, hr, hs, h => by
      rw [run_ops_nil] at h
      cases h
      exact ⟨ns, [], Grows.refl hr hs, rfl, by simp [outstanding]⟩
  | Op.push_back v :: ops, s, t, ns, hr, hs, h => by
      by_cases hflag : env.allocate_fails s.allocate_calls = false ∧ s.brk < SIZE_MOD ∧
          env.construct_fails s.construct_calls = false
      · obtain ⟨t1, h1, g1, htr1, -⟩ := push_back_grows env v s ns hr hs hflag.1 hflag.2.1 hflag.2.2
        rw [run_ops_cons_ok env (Op.push_back v) ops s t1 h1] at h
        obtain ⟨ms, evs, g2, htr, hc⟩ := run_ops_trace env ops t1 t _ g1.ring g1.sound h
        refine ⟨ms, evs ++ [Event.construct s.this.alloc_ s.brk, Event.allocate s.this.alloc_ s.brk],
          Grows.trans hr hs g1 g2, ?_, ?_⟩
        · rw [htr, htr1]; simp
        · rw [outstanding_append]
          simp [outstanding] at hc ⊢
          omega
      · obtain ⟨e, t1, h1, -⟩ := push_back_fails env v s ns hr hs hflag
        rw [run_ops_cons_threw env (Op.push_back v) ops s t1 e h1] at h
        cases h
  | Op.push_front v :: ops, s, t, ns, hr, hs, h => by
      by_cases hflag : env.allocate_fails s.allocate_calls = false ∧ s.brk < SIZE_MOD ∧
          env.construct_fails s.construct_calls = false
      · obtain ⟨t1, h1, g1, htr1, -⟩ := push_front_grows env v s ns hr hs hflag.1 hflag.2.1 hflag.2.2
        rw [run_ops_cons_ok env (Op.push_front v) ops s t1 h1] at h
        obtain ⟨ms, evs, g2, htr, hc⟩ := run_ops_trace env ops t1 t _ g1.ring g1.sound h
        refine ⟨ms, evs ++ [Event.construct s.this.alloc_ s.brk, Event.allocate s.this.alloc_ s.brk],
          Grows.trans hr hs g1 g2, ?_, ?_⟩
        · rw [htr, htr1]; simp
        · rw [outstanding_append]
          simp [outstanding] at hc ⊢
          omega
      · obtain ⟨e, t1, h1, -⟩ := push_front_fails env v s ns hr hs hflag
        rw [run_ops_cons_threw env (Op.push_front v) ops s t1 e h1] at h
        cases h
  | Op.pop_back :: ops, s, t, ns, hr, hs, h => by
      rcases List.eq_nil_or_concat ns with rfl | ⟨ns0, ⟨l, v⟩, rfl⟩
      · rw [run_ops_cons_ub env (Op.pop_back) ops s (pop_back_ub s hr)] at h
        cases h
      · simp only [List.concat_eq_append] at hr ⊢
        obtain ⟨t1, h1, g1, htr1, -⟩ := pop_back_grows s ns0 l v hr hs
        rw [run_ops_cons_ok env (Op.pop_back) ops s t1 h1] at h
        obtain ⟨ms, evs, g2, htr, hc⟩ := run_ops_trace env ops t1 t _ g1.ring g1.sound h
        refine ⟨ms, evs ++ [Event.deallocate s.this.alloc_ l, Event.destroy s.this.alloc_ l],
          Grows.trans hr hs g1 g2, ?_, ?_⟩
        · rw [htr, htr1]; simp
        · rw [outstanding_append]
          simp [outstanding] at hc ⊢
          omega
  | Op.pop_front :: ops, s, t, ns, hr, hs, h => by
      rcases ns with _ | ⟨⟨l, v⟩, ns0⟩
      · rw [run_ops_cons_ub env (Op.pop_front) ops s (pop_front_ub s hr)] at h
        cases h
      · obtain ⟨t1, h1, g1, htr1, -⟩ := pop_front_grows s ns0 l v hr hs
        rw [run_ops_cons_ok env (Op.pop_front) ops s t1 h1] at h
        obtain ⟨ms, evs, g2, htr, hc⟩ := run_ops_trace env ops t1 t _ g1.ring g1.sound h
        refine ⟨ms, evs ++ [Event.deallocate s.this.alloc_ l, Event.destroy s.this.alloc_ l],
          Grows.trans hr hs g1 g2, ?_, ?_⟩
        · rw [htr, htr1]; simp
        · rw [outstanding_append]
          simp [outstanding] at hc ⊢
          omega

theorem List_count_value_ok (env : Env) (count : Nat) (v : T) (alloc : AllocId)
    (s0 u : State T) (hs0 : Sound s0) (h : List_count_value env count v alloc s0 = Res.ok () u) :
    ∃ ys : List Nat, ys.length = count ∧ Ring u u.this (ys.map (fun x => (x, v))) ∧ Sound u ∧
      u.trace = built alloc ys ++ s0.trace := by
  by_cases hb : s0.brk < SIZE_MOD
  · have hfill := with_sized_object_filling s0 count alloc v hs0 hb
    have hrun := List_count_value_run env count v alloc s0 hb
    obtain ⟨ys, t, -, -, -, hcase⟩ :=
      fill_loop_cases env v count 0 (s0.with_sized_object count alloc) [] hfill rfl
    have hloop0 : ([] : List Nat).getLastD (s0.with_sized_object count alloc).this.fake_node_ =
        s0.brk := rfl
    rw [hloop0] at hcase
    simp only [List.nil_append] at hcase
    rcases hcase with ⟨hloop, hlen, hfin, hth, htrace⟩ | ⟨hloop, -⟩ | ⟨hloop, -⟩
    · have hloop1 : fill_loop env v count 0 s0.brk (s0.with_sized_object count alloc) =
          Res.ok (ys.getLastD s0.brk) t := hloop
      rw [hloop1] at hrun
      have hobj := hfin.cur_object
      have hf : (t.kind t.this.fake_node_).is_object = true := by rw [hfin.sentinel]; rfl
      have hfk : t.this.fake_node_ = s0.brk := by rw [hth]; rfl
      obtain ⟨u1, hu1, hring, hsound, -⟩ := hfin.close (by rw [hth, hlen]; rfl)
      have htr1 : u1.trace = t.trace := by
        simp only [M.bind_run, fake_node_, set_next, set_prev, hobj, hf, if_true] at hu1
        cases hu1
        rfl
      rw [hfk] at hu1
      have hrun1 := hrun.trans hu1
      rw [hrun1] at h
      cases h
      exact ⟨ys, hlen, hring, hsound, htr1.trans htrace⟩
    · rw [hloop] at hrun
      rw [hrun] at h
      cases h
    · rw [hloop] at hrun
      rw [hrun] at h
      cases h
  · rw [List_count_value_ub env count v alloc s0 hb] at h
    cases h

/-- Every public constructor that completes leaves a closed ring around the new
sentinel, and the allocations it made are exactly the nodes of the ring. -/
theorem Ctor.run_spec (env : Env) (c : Ctor T) (s0 s : State T) (hs0 : Sound s0)
    (hready : c.ready s0) (h : c.run env s0 = Res.ok () s) :
    ∃ ns evs, Ring s s.this ns ∧ Sound s ∧ s.trace = evs ++ s0.trace ∧
      outstanding evs = ns.length := by
  cases c with
  | default =>
      by_cases hb : s0.brk < SIZE_MOD
      · obtain ⟨t, ht, hr, hs, -, -, htr, -⟩ := new_object_ring env.default_allocator s0 hs0 hb
        have h1 : new_object 0 env.default_allocator s0 = Res.ok () s := h
        rw [ht] at h1
        cases h1
        exact ⟨[], [], hr, hs, htr, rfl⟩
      · have h1 : new_object 0 env.default_allocator s0 = Res.ok () s := h
        rw [new_object_ub _ _ s0 hb] at h1
        cases h1
  | count_value n v al =>
      obtain ⟨ys, -, hr, hs, htr⟩ := List_count_value_ok env n v al s0 s hs0 h
      exact ⟨_, built al ys, hr, hs, htr, by rw [outstanding_built]; simp⟩
  | count inst n al =>
      obtain ⟨ys, -, hr, hs, htr⟩ :=
        List_count_value_ok env n (@Inhabited.default T inst) al s0 s hs0 h
      exact ⟨_, built al ys, hr, hs, htr, by rw [outstanding_built]; simp⟩
  | copy other =>
      obtain ⟨os, ho⟩ := hready
      have h1 : List_copy env other s0 = Res.ok () s := h
      by_cases hb : s0.brk < SIZE_MOD
      · obtain ⟨new, t, fail, hp, -, hcase⟩ := List_copy_spec env other s0 os hs0 ho hb
        rcases hcase with ⟨hok, -, hfail⟩ | ⟨e, t2, hth, -⟩
        · rw [hok] at h1
          cases h1
          have hr := hp.grows.ring
          rw [List.nil_append] at hr
          refine ⟨new, built (env.select_on_container_copy_construction other.alloc_)
            (new.map Prod.fst), hr, hp.grows.sound, ?_, ?_⟩
          · rw [hp.trace, hfail]
            rfl
          · rw [outstanding_built]; simp
        · rw [hth] at h1
          cases h1
      · rw [List_copy_ub env other s0 hb] at h1
        cases h1
  | init xs al =>
      have h1 : List_init env xs al s0 = Res.ok () s := h
      by_cases hb : s0.brk < SIZE_MOD
      · rw [List_init_eq env xs al s0 hb] at h1
        obtain ⟨hr0, hs1⟩ := with_object_ring s0
          (env.select_on_container_copy_construction al) hs0 hb
        obtain ⟨new, t, fail, hp, -, hcase⟩ := init_loop_spec env xs _ [] hr0 hs1
        rcases hcase with ⟨hok, -, hfail, -⟩ | ⟨e, hth, -⟩
        · rw [hok] at h1
          cases h1
          have hr := hp.grows.ring
          rw [List.nil_append] at hr
          refine ⟨new, built (env.select_on_container_copy_construction al)
            (new.map Prod.fst), hr, hp.grows.sound, ?_, ?_⟩
          · rw [hp.trace, hfail]
            rfl
          · rw [outstanding_built]; simp
        · rw [hth] at h1
          cases h1
      · rw [List_init_ub env xs al s0 hb] at h1
        cases h1

/-- A container made by a public constructor and a sequence of calls that all
complete is a closed ring, and the allocations outstanding from its making are
exactly its nodes. -/
theorem make_spec (env : Env) (c : Ctor T) (ops : List (Op T)) (s0 s : State T)
    (hs0 : Sound s0) (hready : c.ready s0) (h : make env c ops s0 = Res.ok () s) :
    ∃ ns evs, Ring s s.this ns ∧ Sound s ∧ s.trace = evs ++ s0.trace ∧
      outstanding evs = ns.length := by
  have hmk : make env c ops s0 =
      match c.run env s0 with
      | Res.ok () s1 => run_ops env ops s1
      | Res.threw e s1 => Res.threw e s1
      | Res.ub => Res.ub := by
    simp only [make, M.bind_run]
    cases c.run env s0 <;> rfl
  rw [hmk] at h
  cases hc : c.run env s0 with
  | ok u s1 =>
      rw [hc] at h
      obtain ⟨ns, evs, hr, hs, htr, hout⟩ := Ctor.run_spec env c s0 s1 hs0 hready hc
      obtain ⟨ms, evs2, g, htr2, hout2⟩ := run_ops_trace env ops s1 s ns hr hs h
      refine ⟨ms, evs2 ++ evs, g.ring, g.sound, ?_, ?_⟩
      · rw [htr2, htr]; simp
      · rw [outstanding_append, hout]
        omega
  | threw e s1 => rw [hc] at h; cases h
  | ub => rw [hc] at h; cases h

end Made

section CursorWalk
variable {T : Type}

theorem advance_zero (it : Iterator) (s : State T) : advance 0 it s = Res.ok it s := rfl

theorem advance_succ (k a : Nat) (s : State T) (ha : (s.kind a).is_object = true) :
    advance (k + 1) { cur_node_ := a } s = advance k { cur_node_ := s.next a } s := by
  rw [advance]
  simp [Iterator.inc, get_next, ha]

/-- Along a chain of live nodes, `k + 1` applications of `++` to a cursor at the
start of the chain lead to its element number `k`, the end of the chain being
counted as the last element. -/
theorem advance_linked (s : State T) (b : Nat) :
    ∀ (k : Nat) (xs : List Nat) (a : Nat), Linked s.prev s.next a xs b →
      (s.kind a).is_object = true → (∀ x ∈ xs, (s.kind x).is_object = true) → k ≤ xs.length →
      advance (k + 1) { cur_node_ := a } s = Res.ok { cur_node_ := (xs ++ [b]).getD k b } s
  | 0, xs, a, hl, ha, _, _ => by
      rw [advance_succ 0 a s ha, advance_zero, Linked.next_head xs a b hl]
      cases xs <;> rfl
  | k + 1, [], a, _, _, _, hk => by simp at hk
  | k + 1, x :: xs, a, hl, ha, hx, hk => by
      rw [advance_succ (k + 1) a s ha, hl.1.1]
      rw [advance_linked s b k xs x hl.2 (hx x (by simp))
        (fun y hy => hx y (List.mem_cons_of_mem _ hy)) (by simpa using hk)]
      rfl

theorem Ring.advance_begin {s : State T} {ns : List (Nat × T)} (hr : Ring s s.this ns)
    (k : Nat) (hk : k ≤ ns.length) :
    advance k { cur_node_ := s.next s.this.fake_node_ } s =
      Res.ok { cur_node_ := (ns.map Prod.fst ++ [s.this.fake_node_]).getD k s.this.fake_node_ } s := by
  have hf : (s.kind s.this.fake_node_).is_object = true := by rw [hr.sentinel]; rfl
  rw [← advance_succ k _ s hf]
  refine advance_linked s _ k _ _ hr.linked hf ?_ (by simpa using hk)
  intro x hx
  obtain ⟨n, hn, rfl⟩ := List.mem_map.mp hx
  rw [hr.nodes n hn]
  rfl

theorem getD_append_singleton (xs : List Nat) (b : Nat) (k : Nat) (hb : b ∉ xs)
    (hk : k ≤ xs.length) : (xs ++ [b]).getD k b = b ↔ k = xs.length := by
  constructor
  · intro h
    by_contra hne
    have hlt : k < xs.length := lt_of_le_of_ne hk hne
    rw [List.getD_eq_getElem?_getD, List.getElem?_append_left hlt,
      List.getElem?_eq_getElem hlt] at h
    have h2 : xs[k] = b := h
    exact hb (h2 ▸ List.getElem_mem _)
  · rintro rfl
    simp [List.getD_eq_getElem?_getD]

/-- C14: cursors on a container made by a public constructor and any sequence
of completed `push_back`, `push_front`, `pop_back` and `pop_front` calls.
`begin()` and `end()` are defined; for every `k` up to `size()`, advancing the
cursor `begin()` `k` times with `++` is defined and gives a cursor that compares
equal to `end()` exactly when `k` is `size()`; one `++` from `end()` gives a
cursor equal to `begin()`; and two cursors compare equal exactly when they
reference the same node. -/
theorem C14_cursor_reaches_end (env : Env) (c : Ctor T) (ops : List (Op T)) (s0 s : State T)
    (hs0 : Sound s0) (hready : c.ready s0) (h : make env c ops s0 = Res.ok () s) :
    ∃ b e, begin_ s = Res.ok b s ∧ end_ s = Res.ok e s ∧
      (∀ k, k ≤ size s.this →
        ∃ it, advance k b s = Res.ok it s ∧ (Iterator.eq it e = true ↔ k = size s.this)) ∧
      (∃ it, Iterator.inc e s = Res.ok it s ∧ Iterator.eq it b = true) ∧
      (∀ x y : Iterator, (Iterator.eq x y = true ↔ x.cur_node_ = y.cur_node_) ∧
        (Iterator.ne x y = true ↔ x.cur_node_ ≠ y.cur_node_)) := by
  obtain ⟨ns, -, hr, -, -, -⟩ := make_spec env c ops s0 s hs0 hready h
  have hf : (s.kind s.this.fake_node_).is_object = true := by rw [hr.sentinel]; rfl
  refine ⟨{ cur_node_ := s.next s.this.fake_node_ }, { cur_node_ := s.this.fake_node_ },
    by simp [begin_, fake_node_, get_next, hf], rfl, ?_, ?_, ?_⟩
  · intro k hk
    have hsz : size s.this = ns.length := hr.size
    rw [hsz] at hk ⊢
    refine ⟨_, hr.advance_begin k hk, ?_⟩
    have hlen : (ns.map Prod.fst).length = ns.length := List.length_map _ _
    have hiff := getD_append_singleton (ns.map Prod.fst) s.this.fake_node_ k hr.fake_not_mem
      (by rw [hlen]; exact hk)
    rw [hlen] at hiff
    unfold Iterator.eq
    rw [beq_iff_eq]
    exact hiff
  · exact ⟨{ cur_node_ := s.next s.this.fake_node_ }, by simp [Iterator.inc, get_next, hf],
      by simp [Iterator.eq]⟩
  · intro x y
    simp [Iterator.eq, Iterator.ne]

theorem C14_witness :
    Sound (State.initial : State Nat) ∧
    make Env.reliable Ctor.default [Op.push_back 5, Op.push_back 6] (State.initial : State Nat) =
      Res.ok () State.pair ∧
    ∃ b e, begin_ State.pair = Res.ok b State.pair ∧ end_ State.pair = Res.ok e State.pair ∧
      (∀ k, k ≤ 2 →
        ∃ it, advance k b State.pair = Res.ok it State.pair ∧ (Iterator.eq it e = true ↔ k = 2)) ∧
      ∃ it, Iterator.inc e State.pair = Res.ok it State.pair ∧ Iterator.eq it b = true := by
  obtain ⟨b, e, hb, he, hk, hinc, -⟩ := C14_cursor_reaches_end Env.reliable Ctor.default
    [Op.push_back 5, Op.push_back 6] (State.initial : State Nat) State.pair sound_initial
    trivial pair_built
  exact ⟨sound_initial, pair_built, b, e, hb, he, hk, hinc⟩

end CursorWalk

section Clearing
variable {T : Type}

theorem clear_loop_zero (cur : Nat) (s : State T) : clear_loop 0 cur s = Res.ok () s := rfl

theorem clear_loop_succ (n x : Nat) (v : T) (s : State T) (hx : s.kind x = Kind.node v) :
    clear_loop (n + 1) x s = clear_loop n (s.next x) (s.released_one x) := by
  rw [clear_loop]
  simp [get_next, destroy, deallocate, alloc_, hx, Kind.is_object, State.released_one]

/-- What the loop of `clear` does on a chain of live nodes: it releases them in
the order of the chain and touches no link. -/
theorem clear_loop_spec (b : Nat) :
    ∀ (xs : List Nat) (a : Nat) (s : State T), Linked s.prev s.next a xs b →
      (∀ x ∈ xs, ∃ v, s.kind x = Kind.node v) → xs.Nodup →
      ∃ t, clear_loop xs.length (xs.headD b) s = Res.ok () t ∧
        t.trace = released s.this.alloc_ xs ++ s.trace ∧
        (∀ y, t.kind y = if y ∈ xs then Kind.free else s.kind y) ∧
        t.prev = s.prev ∧ t.next = s.next ∧ t.this = s.this ∧ t.brk = s.brk
  | [], a, s, _, _, _ => ⟨s, rfl, by simp [released], by simp, rfl, rfl, rfl, rfl⟩
  | x :: xs, a, s, hl, hx, hnd => by
      obtain ⟨v, hv⟩ := hx x (by simp)
      have hnd' := List.nodup_cons.mp hnd
      have hl' : Linked (s.released_one x).prev (s.released_one x).next x xs b := hl.2
      have hx' : ∀ y ∈ xs, ∃ w, (s.released_one x).kind y = Kind.node w := by
        intro y hy
        have hne : y ≠ x := by
          rintro rfl
          exact hnd'.1 hy
        obtain ⟨w, hw⟩ := hx y (List.mem_cons_of_mem _ hy)
        exact ⟨w, by simp [State.released_one, hne, hw]⟩
      obtain ⟨t, hrun, htr, hk, hp, hn, hth, hb⟩ :=
        clear_loop_spec b xs x (s.released_one x) hl' hx' hnd'.2
      refine ⟨t, ?_, ?_, ?_, hp, hn, hth, hb⟩
      · rw [List.length_cons, List.headD_cons, clear_loop_succ xs.length x v s hv,
          Linked.next_head xs x b hl.2]
        exact hrun
      · rw [htr]
        simp [State.released_one, released]
      · intro y
        rw [hk y]
        by_cases hy : y ∈ xs
        · simp [hy]
        · by_cases hyx : y = x
          · subst hyx
            simp [State.released_one]
          · simp [hy, hyx, State.released_one]

theorem Ring.clear_run {s : State T} {ns : List (Nat × T)} (hr : Ring s s.this ns) :
    ∃ t, clear s = Res.ok () t ∧
      t.trace = released s.this.alloc_ (ns.map Prod.fst) ++ s.trace ∧
      (∀ y, t.kind y = if y ∈ ns.map Prod.fst then Kind.free else s.kind y) ∧
      t.prev = s.prev ∧ t.next = s.next ∧ t.this = s.this ∧ t.brk = s.brk := by
  have hf : (s.kind s.this.fake_node_).is_object = true := by rw [hr.sentinel]; rfl
  have hx : ∀ x ∈ ns.map Prod.fst, ∃ v, s.kind x = Kind.node v := by
    intro x hx
    obtain ⟨n, hn, rfl⟩ := List.mem_map.mp hx
    exact ⟨n.2, hr.nodes n hn⟩
  obtain ⟨t, hrun, hrest⟩ := clear_loop_spec s.this.fake_node_ (ns.map Prod.fst)
    s.this.fake_node_ s hr.linked hx hr.nodup
  refine ⟨t, ?_, hrest⟩
  rw [← hrun]
  simp [clear, fake_node_, get_next, size_, hf, hr.size, hr.next_fake]

/-- C16: destruction of a container made by a public constructor and any
sequence of completed `push_back`, `push_front`, `pop_back` and `pop_front`
calls.  The container is a ring of `size()` distinct data nodes `ns`, listed in
forward traversal order from the sentinel's `next`; the destructor completes,
and what it adds to the trace is, for each node of `ns` in this order, one
`destroy` followed by one `deallocate`; the sentinel is not among the released
addresses and is still there afterwards, every data node is free, and the
allocations made for the container since its construction are all given back. -/
theorem C16_destructor_releases_all (env : Env) (c : Ctor T) (ops : List (Op T))
    (s0 s : State T) (hs0 : Sound s0) (hready : c.ready s0)
    (h : make env c ops s0 = Res.ok () s) :
    ∃ (ns : List (Nat × T)) (evs : List Event) (t : State T),
      Ring s s.this ns ∧ ns.length = size s.this ∧
      (∀ fuel, size s.this ≤ fuel → forward fuel s = some (ns.map Prod.snd)) ∧
      s.trace = evs ++ s0.trace ∧
      List_destroy s = Res.ok () t ∧
      t.trace = released s.this.alloc_ (ns.map Prod.fst) ++ s.trace ∧
      s.this.fake_node_ ∉ ns.map Prod.fst ∧ t.kind s.this.fake_node_ = Kind.base ∧
      (∀ a ∈ ns.map Prod.fst, t.kind a = Kind.free) ∧
      outstanding (released s.this.alloc_ (ns.map Prod.fst) ++ evs) = 0 := by
  obtain ⟨ns, evs, hr, -, htr, hout⟩ := make_spec env c ops s0 s hs0 hready h
  obtain ⟨t, hrun, htr2, hk, -⟩ := hr.clear_run
  refine ⟨ns, evs, t, hr, hr.size.symm, ?_, htr, hrun, htr2, hr.fake_not_mem, ?_, ?_, ?_⟩
  · intro fuel hfuel
    exact forward_ring s ns hr fuel (by rw [← hr.size]; exact hfuel)
  · rw [hk, if_neg hr.fake_not_mem]
    exact hr.sentinel
  · intro a ha
    rw [hk, if_pos ha]
  · rw [outstanding_append, outstanding_released, hout]
    simp

theorem C16_witness :
    Sound (State.initial : State Nat) ∧
    make Env.reliable Ctor.default [Op.push_back 5, Op.push_back 6] (State.initial : State Nat) =
      Res.ok () State.pair ∧
    ∃ t, List_destroy State.pair = Res.ok () t ∧ outstanding t.trace = 0 ∧
      t.kind 0 = Kind.base ∧ forward 2 State.pair = some [5, 6] := by
  obtain ⟨ns, evs, t, hr, -, hfw, htr, hrun, htr2, -, hbase, -, hout⟩ :=
    C16_destructor_releases_all Env.reliable Ctor.default [Op.push_back 5, Op.push_back 6]
      (State.initial : State Nat) State.pair sound_initial trivial pair_built
  refine ⟨sound_initial, pair_built, t, hrun, ?_, hbase, forward_ring _ _ pair_ring 2 (le_refl _)⟩
  rw [htr2, htr]
  have h0 : (State.initial : State Nat).trace = [] := rfl
  rw [h0, List.append_nil]
  exact hout

end Clearing

section Ends
variable {T : Type}

theorem Ring.front_eq {s : State T} {a : Nat} {x : T} {ns : List (Nat × T)}
    (hr : Ring s s.this ((a, x) :: ns)) : front s = Res.ok x s := by
  have hf : (s.kind s.this.fake_node_).is_object = true := by rw [hr.sentinel]; rfl
  have hn : s.next s.this.fake_node_ = a := by rw [hr.next_fake]; rfl
  have hk : s.kind a = Kind.node x := hr.nodes (a, x) (by simp)
  simp [front, fake_node_, get_next, get_value, hf, hn, hk]

theorem Ring.back_eq {s : State T} {l : Nat} {y : T} {ns : List (Nat × T)}
    (hr : Ring s s.this (ns ++ [(l, y)])) : back s = Res.ok y s := by
  have hf : (s.kind s.this.fake_node_).is_object = true := by rw [hr.sentinel]; rfl
  have hn : s.prev s.this.fake_node_ = l := by rw [hr.prev_fake]; simp
  have hk : s.kind l = Kind.node y := hr.nodes (l, y) (by simp)
  simp [back, fake_node_, get_prev, get_value, hf, hn, hk]

theorem push_back_of_ok (env : Env) (v : T) (s t : State T) (ns : List (Nat × T))
    (hr : Ring s s.this ns) (hs : Sound s) (h : push_back env v s = Res.ok () t) :
    env.allocate_fails s.allocate_calls = false ∧ s.brk < SIZE_MOD ∧
      env.construct_fails s.construct_calls = false := by
  by_contra hflag
  obtain ⟨e, t1, h1, -⟩ := push_back_fails env v s ns hr hs hflag
  rw [h1] at h
  cases h

theorem push_front_of_ok (env : Env) (v : T) (s t : State T) (ns : List (Nat × T))
    (hr : Ring s s.this ns) (hs : Sound s) (h : push_front env v s = Res.ok () t) :
    env.allocate_fails s.allocate_calls = false ∧ s.brk < SIZE_MOD ∧
      env.construct_fails s.construct_calls = false := by
  by_contra hflag
  obtain ⟨e, t1, h1, -⟩ := push_front_fails env v s ns hr hs hflag
  rw [h1] at h
  cases h

/-- C17: `front()` and `back()` on a container that is a ring of the nodes `ns`.
When the container is not empty, `front()` returns the first and `back()` the
last element of the forward traversal.  When its `allocate` and `construct`
succeed, `push_back(v)` completes, and after every successful `push_back(v)`,
`back()` is `v`, and `front()` is what it was if the container was not empty.
When its `allocate` and `construct` succeed, `push_front(v)` completes, and
after every successful `push_front(v)`, `front()` is `v`, and `back()` is what
it was if the container was not empty. -/
theorem C17_front_and_back (env : Env) (s : State T) (ns : List (Nat × T))
    (hs : Sound s) (hr : Ring s s.this ns) :
    (∀ fuel, size s.this ≤ fuel → forward fuel s = some (ns.map Prod.snd)) ∧
    (ns ≠ [] → ∃ x y, front s = Res.ok x s ∧ back s = Res.ok y s ∧
      (ns.map Prod.snd).head? = some x ∧ (ns.map Prod.snd).getLast? = some y) ∧
    (∀ v, env.allocate_fails s.allocate_calls = false → s.brk < SIZE_MOD →
      env.construct_fails s.construct_calls = false →
      ∃ t, push_back env v s = Res.ok () t) ∧
    (∀ v t, push_back env v s = Res.ok () t →
      back t = Res.ok v t ∧ (ns ≠ [] → ∃ x, front s = Res.ok x s ∧ front t = Res.ok x t)) ∧
    (∀ v, env.allocate_fails s.allocate_calls = false → s.brk < SIZE_MOD →
      env.construct_fails s.construct_calls = false →
      ∃ t, push_front env v s = Res.ok () t) ∧
    (∀ v t, push_front env v s = Res.ok () t →
      front t = Res.ok v t ∧ (ns ≠ [] → ∃ y, back s = Res.ok y s ∧ back t = Res.ok y t)) := by
  refine ⟨fun fuel hfuel => forward_ring s ns hr fuel (by rw [← hr.size]; exact hfuel),
    ?_, ?_, ?_, ?_, ?_⟩
  · intro hne
    obtain ⟨⟨a, x⟩, rest, rfl⟩ := List.exists_cons_of_ne_nil hne
    rcases List.eq_nil_or_concat ((a, x) :: rest) with h0 | ⟨pre, ⟨l, y⟩, hcat⟩
    · cases h0
    · rw [List.concat_eq_append] at hcat
      refine ⟨x, y, hr.front_eq, ?_, by simp, ?_⟩
      · rw [hcat] at hr
        exact hr.back_eq
      · rw [hcat]
        simp
  · intro v ha hb hc
    obtain ⟨t1, h1, -⟩ := push_back_grows env v s ns hr hs ha hb hc
    exact ⟨t1, h1⟩
  · intro v t h
    obtain ⟨ha, hb, hc⟩ := push_back_of_ok env v s t ns hr hs h
    obtain ⟨t1, h1, g, -, -⟩ := push_back_grows env v s ns hr hs ha hb hc
    rw [h1] at h
    cases h
    refine ⟨g.ring.back_eq, ?_⟩
    intro hne
    obtain ⟨⟨a, x⟩, rest, rfl⟩ := List.exists_cons_of_ne_nil hne
    exact ⟨x, hr.front_eq, @Ring.front_eq T _ _ _ (rest ++ [(s.brk, v)]) g.ring⟩
  · intro v ha hb hc
    obtain ⟨t1, h1, -⟩ := push_front_grows env v s ns hr hs ha hb hc
    exact ⟨t1, h1⟩
  · intro v t h
    obtain ⟨ha, hb, hc⟩ := push_front_of_ok env v s t ns hr hs h
    obtain ⟨t1, h1, g, -, -⟩ := push_front_grows env v s ns hr hs ha hb hc
    rw [h1] at h
    cases h
    refine ⟨g.ring.front_eq, ?_⟩
    intro hne
    rcases List.eq_nil_or_concat ns with h0 | ⟨pre, ⟨l, y⟩, hcat⟩
    · exact absurd h0 hne
    · rw [List.concat_eq_append] at hcat
      subst hcat
      exact ⟨y, hr.back_eq, @Ring.back_eq T _ _ _ ((s.brk, v) :: pre) g.ring⟩

theorem C17_witness :
    Sound State.pair ∧ Ring State.pair State.pair.this [(1, 5), (2, 6)] ∧
    forward 2 State.pair = some [5, 6] ∧
    front State.pair = Res.ok 5 State.pair ∧ back State.pair = Res.ok 6 State.pair ∧
    (∃ t, push_back Env.reliable 7 State.pair = Res.ok () t ∧
      back t = Res.ok 7 t ∧ front t = Res.ok 5 t) ∧
    (∃ t, push_front Env.reliable 4 State.pair = Res.ok () t ∧
      front t = Res.ok 4 t ∧ back t = Res.ok 6 t) := by
  have hC := C17_front_and_back Env.reliable State.pair [(1, 5), (2, 6)] pair_sound pair_ring
  obtain ⟨x, y, hx, hy, h1, h2⟩ := hC.2.1 (by simp)
  have hx5 : x = 5 := by simpa using h1.symm
  have hy6 : y = 6 := by simpa using h2.symm
  subst hx5 hy6
  refine ⟨pair_sound, pair_ring, hC.1 2 (le_refl _), hx, hy, ?_, ?_⟩
  · obtain ⟨t, ht⟩ := hC.2.2.1 7 rfl (size_mod_gt 3 (by omega)) rfl
    obtain ⟨hb, hf⟩ := hC.2.2.2.1 7 t ht
    obtain ⟨x, hx1, hx2⟩ := hf (by simp)
    rw [hx] at hx1
    cases hx1
    exact ⟨t, ht, hb, hx2⟩
  · obtain ⟨t, ht⟩ := hC.2.2.2.2.1 4 rfl (size_mod_gt 3 (by omega)) rfl
    obtain ⟨hf, hb⟩ := hC.2.2.2.2.2 4 t ht
    obtain ⟨y, hy1, hy2⟩ := hb (by simp)
    rw [hy] at hy1
    cases hy1
    exact ⟨t, ht, hf, hy2⟩

/-- C18: what a successful `push_back` or `push_front` leaves alone, on a
container that is a ring of the nodes `ns`.  The new node is placed at an
address that held nothing; what every other address holds (the sentinel, every
data node and its value) is unchanged, so a cursor that could be dereferenced
before gives the same value afterwards.  For `push_back` the only `next` links
written are those of the old last node and of the new node, and the only `prev`
links written are those of the sentinel and of the new node; for `push_front`
the only `prev` links written are those of the old first node and of the new
node, and the only `next` links written are those of the sentinel and of the
new node.  (In an empty container the old last and the old first node are the
sentinel itself.) -/
theorem C18_push_moves_nothing (env : Env) (v : T) (s : State T) (ns : List (Nat × T))
    (hs : Sound s) (hr : Ring s s.this ns) :
    (∀ t, push_back env v s = Res.ok () t →
      s.kind s.brk = Kind.free ∧ t.kind s.brk = Kind.node v ∧
      (∀ a, a ≠ s.brk → t.kind a = s.kind a) ∧
      (∀ (it : Iterator) (x : T), Iterator.deref it s = Res.ok x s →
        Iterator.deref it t = Res.ok x t) ∧
      (∀ a, a ≠ s.prev s.this.fake_node_ → a ≠ s.brk → t.next a = s.next a) ∧
      (∀ a, a ≠ s.this.fake_node_ → a ≠ s.brk → t.prev a = s.prev a) ∧
      t.next (s.prev s.this.fake_node_) = s.brk ∧ t.prev s.this.fake_node_ = s.brk ∧
      t.prev s.brk = s.prev s.this.fake_node_ ∧ t.next s.brk = s.this.fake_node_) ∧
    (∀ t, push_front env v s = Res.ok () t →
      s.kind s.brk = Kind.free ∧ t.kind s.brk = Kind.node v ∧
      (∀ a, a ≠ s.brk → t.kind a = s.kind a) ∧
      (∀ (it : Iterator) (x : T), Iterator.deref it s = Res.ok x s →
        Iterator.deref it t = Res.ok x t) ∧
      (∀ a, a ≠ s.this.fake_node_ → a ≠ s.brk → t.next a = s.next a) ∧
      (∀ a, a ≠ s.next s.this.fake_node_ → a ≠ s.brk → t.prev a = s.prev a) ∧
      t.prev (s.next s.this.fake_node_) = s.brk ∧ t.next s.this.fake_node_ = s.brk ∧
      t.next s.brk = s.next s.this.fake_node_ ∧ t.prev s.brk = s.this.fake_node_) := by
  have hp : s.kind s.brk = Kind.free := hs.fresh _ (le_refl _)
  have hf : s.this.fake_node_ ≠ s.brk := by
    intro he
    rw [← he, hr.sentinel] at hp
    cases hp
  have hderef : ∀ (k : Nat → Kind T), (∀ a, a ≠ s.brk → k a = s.kind a) →
      ∀ (it : Iterator) (x : T), s.kind it.cur_node_ = Kind.node x →
        k it.cur_node_ = Kind.node x := by
    intro k hk it x hx
    have hne : it.cur_node_ ≠ s.brk := by
      intro he
      rw [he, hp] at hx
      cases hx
    rw [hk _ hne, hx]
  have hval : ∀ (it : Iterator) (x : T), Iterator.deref it s = Res.ok x s →
      s.kind it.cur_node_ = Kind.node x := by
    intro it x hx
    unfold Iterator.deref get_value at hx
    cases hk : s.kind it.cur_node_ with
    | node w =>
        rw [hk] at hx
        simp only [Res.ok.injEq] at hx
        rw [hx.1]
    | free => rw [hk] at hx; cases hx
    | raw => rw [hk] at hx; cases hx
    | base => rw [hk] at hx; cases hx
  constructor
  · intro t h
    obtain ⟨ha, hb, hc⟩ := push_back_of_ok env v s t ns hr hs h
    have hl : (s.kind (s.prev s.this.fake_node_)).is_object = true := by
      rw [hr.prev_fake]
      rcases List.eq_nil_or_concat ns with h0 | ⟨pre, ⟨l, y⟩, hcat⟩
      · subst h0
        simp [hr.sentinel]
      · rw [List.concat_eq_append] at hcat
        subst hcat
        simp [hr.nodes (l, y) (by simp)]
    have hlne : s.prev s.this.fake_node_ ≠ s.brk := by
      intro he
      rw [he, hp] at hl
      cases hl
    rw [push_back_ok env v s ha hb hc hr.sentinel hl hp] at h
    cases h
    have hk : ∀ a, a ≠ s.brk → Function.update s.kind s.brk (Kind.node v) a = s.kind a :=
      fun a hne => Function.update_noteq hne _ _
    refine ⟨hp, Function.update_same _ _ _, hk, ?_, ?_, ?_, ?_, ?_, ?_, ?_⟩
    · intro it x hx
      have := hderef _ hk it x (hval it x hx)
      simp only [Iterator.deref, get_value]
      rw [this]
    · intro a h1 h2
      simp [Function.update_apply, h1, h2]
    · intro a h1 h2
      simp [Function.update_apply, h1, h2]
    · simp [Function.update_apply, hlne]
    · simp [Function.update_apply]
    · simp [Function.update_apply, hf.symm]
    · simp [Function.update_apply]
  · intro t h
    obtain ⟨ha, hb, hc⟩ := push_front_of_ok env v s t ns hr hs h
    have hl : (s.kind (s.next s.this.fake_node_)).is_object = true := by
      rw [hr.next_fake]
      rcases ns with _ | ⟨⟨a, x⟩, rest⟩
      · simp [hr.sentinel]
      · simp [hr.nodes (a, x) (by simp)]
    have hlne : s.next s.this.fake_node_ ≠ s.brk := by
      intro he
      rw [he, hp] at hl
      cases hl
    rw [push_front_ok env v s ha hb hc hr.sentinel hl hp] at h
    cases h
    have hk : ∀ a, a ≠ s.brk → Function.update s.kind s.brk (Kind.node v) a = s.kind a :=
      fun a hne => Function.update_noteq hne _ _
    refine ⟨hp, Function.update_same _ _ _, hk, ?_, ?_, ?_, ?_, ?_, ?_, ?_⟩
    · intro it x hx
      have := hderef _ hk it x (hval it x hx)
      simp only [Iterator.deref, get_value]
      rw [this]
    · intro a h1 h2
      simp [Function.update_apply, h1, h2]
    · intro a h1 h2
      simp [Function.update_apply, h1, h2]
    · simp [Function.update_apply, hlne]
    · simp [Function.update_apply]
    · simp [Function.update_apply, hf.symm]
    · simp [Function.update_apply]

theorem C18_witness :
    Sound State.pair ∧ Ring State.pair State.pair.this [(1, 5), (2, 6)] ∧
    ∃ t, push_back Env.reliable 7 State.pair = Res.ok () t ∧
      t.kind 1 = Kind.node 5 ∧ t.kind 2 = Kind.node 6 ∧ t.kind 3 = Kind.node 7 ∧
      t.next 1 = 2 ∧ t.prev 2 = 1 ∧ t.next 2 = 3 ∧ t.prev 0 = 3 := by
  obtain ⟨t, ht, -⟩ := push_back_grows Env.reliable 7 State.pair [(1, 5), (2, 6)] pair_ring
    pair_sound rfl (size_mod_gt 3 (by omega)) rfl
  obtain ⟨-, hnew, hk, -, hn, hp, hn2, hp0, -, -⟩ :=
    (C18_push_moves_nothing Env.reliable 7 State.pair [(1, 5), (2, 6)] pair_sound pair_ring).1
      t ht
  refine ⟨pair_sound, pair_ring, t, ht, ?_, ?_, hnew, ?_, ?_, hn2, hp0⟩
  · rw [hk 1 (by decide)]; rfl
  · rw [hk 2 (by decide)]; rfl
  · rw [hn 1 (by decide) (by decide)]; rfl
  · rw [hp 2 (by decide) (by decide)]; rfl

end Ends

section Apart
variable {T : Type}

theorem Linked.next_mid {prev next : Nat → Nat} :
    ∀ (pre : List Nat) (a x : Nat) (suf : List Nat) (b : Nat),
      Linked prev next a (pre ++ x :: suf) b → next x = suf.headD b
  | [], _, x, suf, b, h => Linked.next_head suf x b h.2
  | p :: pre, _, x, suf, b, h => Linked.next_mid pre p x suf b h.2

/-- Two containers with different sentinels share no node. -/
theorem Ring.apart {s : State T} {c d : ListObj} {ns os : List (Nat × T)}
    (hc : Ring s c ns) (hd : Ring s d os) (hne : c.fake_node_ ≠ d.fake_node_) :
    ∀ x ∈ d.fake_node_ :: os.map Prod.fst, x ∉ c.fake_node_ :: ns.map Prod.fst := by
  have hnode : ∀ (r : ListObj) (rs : List (Nat × T)), Ring s r rs → ∀ y ∈ rs.map Prod.fst,
      ∃ w, s.kind y = Kind.node w := by
    intro r rs hr y hy
    obtain ⟨n, hn, rfl⟩ := List.mem_map.mp hy
    exact ⟨n.2, hr.nodes n hn⟩
  have key : ∀ (suf pre : List Nat) (x : Nat), ns.map Prod.fst = pre ++ x :: suf →
      x ∉ os.map Prod.fst := by
    intro suf
    induction suf with
    | nil =>
        intro pre x hsplit hx
        have h1 : s.next x = c.fake_node_ := by
          have := hc.linked
          rw [hsplit] at this
          exact Linked.next_mid pre _ x [] _ this
        obtain ⟨pre', suf', hsplit'⟩ := List.append_of_mem hx
        have h2 : s.next x = suf'.headD d.fake_node_ := by
          have := hd.linked
          rw [hsplit'] at this
          exact Linked.next_mid pre' _ x suf' _ this
        cases suf' with
        | nil => exact hne (h1.symm.trans h2)
        | cons y suf2 =>
            obtain ⟨w, hw⟩ := hnode d os hd y (by rw [hsplit']; simp)
            have : s.kind c.fake_node_ = Kind.node w := by
              rw [← h1, h2]
              exact hw
            rw [hc.sentinel] at this
            cases this
    | cons y suf ih =>
        intro pre x hsplit hx
        have h1 : s.next x = y := by
          have := hc.linked
          rw [hsplit] at this
          exact Linked.next_mid pre _ x (y :: suf) _ this
        obtain ⟨pre', suf', hsplit'⟩ := List.append_of_mem hx
        have h2 : s.next x = suf'.headD d.fake_node_ := by
          have := hd.linked
          rw [hsplit'] at this
          exact Linked.next_mid pre' _ x suf' _ this
        cases suf' with
        | nil =>
            obtain ⟨w, hw⟩ := hnode c ns hc y (by rw [hsplit]; simp)
            have : s.kind d.fake_node_ = Kind.node w := by
              have h3 : d.fake_node_ = y := h2.symm.trans h1
              rw [h3]
              exact hw
            rw [hd.sentinel] at this
            cases this
        | cons y' suf2 =>
            have hy : y' = y := h2.symm.trans h1
            subst hy
            refine ih (pre ++ [x]) y' (by rw [hsplit]; simp) ?_
            rw [hsplit']
            simp
  intro x hx hx'
  rcases List.mem_cons.mp hx with rfl | hxo
  · rcases List.mem_cons.mp hx' with h1 | h1
    · exact hne h1.symm
    · obtain ⟨w, hw⟩ := hnode c ns hc _ h1
      rw [hd.sentinel] at hw
      cases hw
  · rcases List.mem_cons.mp hx' with rfl | h1
    · obtain ⟨w, hw⟩ := hnode d os hd _ hxo
      rw [hc.sentinel] at hw
      cases hw
    · obtain ⟨pre, suf, hsplit⟩ := List.append_of_mem h1
      exact key suf pre x hsplit hxo

theorem Linked.reverse {prev next : Nat → Nat} :
    ∀ (xs : List Nat) (a b : Nat), Linked prev next a xs b → Linked next prev b xs.reverse a
  | [], _, _, h => ⟨h.2, h.1⟩
  | x :: xs, a, b, h => by
      rw [List.reverse_cons, Linked.append_iff]
      exact ⟨Linked.reverse xs x b h.2, h.1.2, h.1.1⟩

theorem Linked.iterate_next {prev next : Nat → Nat} :
    ∀ (xs : List Nat) (a b : Nat) (i : Nat), Linked prev next a xs b → i ≤ xs.length + 1 →
      next^[i] a = (a :: xs ++ [b]).getD i b
  | _, _, _, 0, _, _ => rfl
  | [], a, b, i + 1, h, hi => by
      have : i = 0 := by simpa using hi
      subst this
      exact h.1
  | x :: xs, a, b, i + 1, h, hi => by
      rw [Function.iterate_succ_apply, h.1.1,
        Linked.iterate_next xs x b i h.2 (by simpa using hi)]
      rfl

theorem getD_last_of_append (ys : List Nat) (b : Nat) :
    (ys ++ [b]).getD ys.length b = b := by
  simp [List.getD_eq_getElem?_getD]

theorem getD_mem_of_append (ys : List Nat) (b : Nat) (i : Nat) (hi : i < ys.length) :
    (ys ++ [b]).getD i b ∈ ys := by
  rw [List.getD_eq_getElem?_getD, List.getElem?_append_left hi, List.getElem?_eq_getElem hi]
  exact List.getElem_mem _

theorem Linked.prev_next {prev next : Nat → Nat} :
    ∀ (xs : List Nat) (a b : Nat), Linked prev next a xs b →
      ∀ u ∈ a :: xs, prev (next u) = u
  | [], a, b, h, u, hu => by
      have : u = a := by simpa using hu
      subst this
      rw [h.1, h.2]
  | x :: xs, a, b, h, u, hu => by
      rcases List.mem_cons.mp hu with rfl | hu'
      · rw [h.1.1, h.1.2]
      · exact Linked.prev_next xs x b h.2 u hu'

/-- A container that is a ring is closed. -/
theorem Ring.closed {s : State T} {ns : List (Nat × T)} (hr : Ring s s.this ns) : Closed s := by
  have hl := hr.linked
  have hsz : ListHpp.size s.this = (ns.map Prod.fst).length := by
    rw [List.length_map]
    exact hr.size
  have hrev := Linked.reverse _ _ _ hl
  refine ⟨?_, ?_, ?_⟩
  · rw [hsz, Linked.iterate_next _ _ _ _ hl (le_refl _)]
    exact getD_last_of_append (s.this.fake_node_ :: ns.map Prod.fst) _
  · rw [hsz, ← List.length_reverse, Linked.iterate_next _ _ _ _ hrev (le_refl _)]
    exact getD_last_of_append (s.this.fake_node_ :: (ns.map Prod.fst).reverse) _
  · intro i hi
    rw [hsz] at hi
    have hmem : s.next^[i] s.this.fake_node_ ∈ s.this.fake_node_ :: ns.map Prod.fst := by
      rw [Linked.iterate_next _ _ _ _ hl (by omega)]
      exact getD_mem_of_append (s.this.fake_node_ :: ns.map Prod.fst) _ i
        (by rw [List.length_cons]; omega)
    refine ⟨hr.is_object _ hmem, Linked.prev_next _ _ _ hl _ hmem, ?_⟩
    refine Linked.prev_next _ _ _ hrev _ ?_
    rcases List.mem_cons.mp hmem with h1 | h1
    · rw [h1]; simp
    · exact List.mem_cons_of_mem _ (List.mem_reverse.mpr h1)

/-- In a container that is a ring, `size()` is 0 exactly when both links of the
sentinel reference the sentinel. -/
theorem Ring.selfLinked_iff {s : State T} {ns : List (Nat × T)} (hr : Ring s s.this ns) :
    ListHpp.size s.this = 0 ↔ SelfLinked s := by
  have hsz : ListHpp.size s.this = ns.length := hr.size
  constructor
  · intro h0
    rw [hsz] at h0
    have : ns = [] := List.length_eq_zero.mp h0
    subst this
    exact ⟨hr.linked.1, hr.linked.2⟩
  · intro hself
    rw [hsz]
    cases ns with
    | nil => rfl
    | cons n rest =>
        exfalso
        have h1 : s.next s.this.fake_node_ = n.1 := hr.linked.1.1
        apply hr.fake_not_mem
        rw [← hself.1, h1]
        simp

theorem Op.run_ring (env : Env) (o : Op T) (s t : State T) (ns : List (Nat × T))
    (hr : Ring s s.this ns) (hs : Sound s) (h : o.run env s = Res.ok () t) :
    ∃ ms, Ring t t.this ms ∧ Sound t := by
  have h1 : run_ops env [o] s = Res.ok () t := by
    rw [run_ops_cons_ok env o [] s t h, run_ops_nil]
  obtain ⟨ms, g, -, -⟩ := run_ops_ring env [o] s t ns hr hs h1
  exact ⟨ms, g.ring, g.sound⟩

theorem assign_ring (env : Env) (other : ListObj) (s t : State T) (ns os : List (Nat × T))
    (hr : Ring s s.this ns) (hs : Sound s) (ho : Ring s other os)
    (h : assign env other s = Res.ok () t) :
    ∃ ms, Ring t t.this ms ∧ Sound t := by
  by_cases hne : s.this.fake_node_ = other.fake_node_
  · rw [assign_self env other s hne] at h
    cases h
    exact ⟨ns, hr, hs⟩
  · obtain ⟨new, t1, fail, -, -, hcase⟩ :=
      assign_spec env other s ns os hs hr ho (Ring.apart hr ho hne)
    rcases hcase with ⟨t2, hok, -, -, g, -⟩ | ⟨e, t2, hth, -⟩
    · rw [hok] at h
      cases h
      obtain ⟨h1, h2⟩ := with_alloc_ring t2 (next_allocator env s.this other) new g.ring g.sound
      exact ⟨new, h1, h2⟩
    · rw [hth] at h
      cases h

/-- Every state produced by public operations that completed holds a closed
ring, and its bookkeeping is consistent. -/
theorem Produced.ring {env : Env} {t : State T} (h : Produced env t) :
    ∃ ms, Ring t t.this ms ∧ Sound t := by
  induction h with
  | ctor c s t hs hready hrun =>
      obtain ⟨ns, -, hr, hs1, -, -⟩ := Ctor.run_spec env c s t hs hready hrun
      exact ⟨ns, hr, hs1⟩
  | op o s t _ hrun ih =>
      obtain ⟨ns, hr, hs⟩ := ih
      exact Op.run_ring env o s t ns hr hs hrun
  | assign other os s t _ ho hrun ih =>
      obtain ⟨ns, hr, hs⟩ := ih
      exact assign_ring env other s t ns os hr hs ho hrun

theorem produced_singleton : Produced Env.reliable State.singleton := by
  have h0 : (Ctor.default : Ctor Nat).run Env.reliable (State.initial : State Nat) =
      Res.ok () ((State.initial : State Nat).with_object 0) :=
    new_object_run 0 0 (State.initial : State Nat) (size_mod_gt 0 (by omega))
  have p0 := Produced.ctor Ctor.default _ _ sound_initial trivial h0
  exact Produced.op (Op.push_back 5) _ _ p0 singleton_pushed

theorem produced_pair : Produced Env.reliable State.pair :=
  Produced.op (Op.push_back 6) _ _ produced_singleton pair_pushed

/-- C19: in every state produced by successfully completed public operations
(default, fixed-size, copy and list-literal construction, copy assignment,
`push_back`, `push_front`, and `pop_back` and `pop_front` on a non-empty
container) the ring is closed: from the sentinel, `size() + 1` steps along
`next` lead back to the sentinel, so do `size() + 1` steps along `prev`, and
every node `n` of the ring is live and has `n.next.prev == n` and
`n.prev.next == n`. -/
theorem C19_ring_is_closed (env : Env) (t : State T) (h : Produced env t) : Closed t := by
  obtain ⟨ms, hr, -⟩ := h.ring
  exact hr.closed

theorem C19_witness : Produced Env.reliable State.pair ∧ Closed State.pair :=
  ⟨produced_pair, C19_ring_is_closed Env.reliable State.pair produced_pair⟩

/-- C20: in every state produced by successfully completed public operations,
`size()` is 0 exactly when `next` and `prev` of the sentinel both reference the
sentinel; `begin()` and `end()` are defined and compare equal exactly when
`empty()` is true; and when the container holds one element, `pop_back` and
`pop_front` complete and leave `size()` at 0 and the sentinel linked to itself. -/
theorem C20_empty_iff_self_linked (env : Env) (t : State T) (h : Produced env t) :
    (size t.this = 0 ↔ SelfLinked t) ∧
    (∃ b e, begin_ t = Res.ok b t ∧ end_ t = Res.ok e t ∧
      (Iterator.eq b e = true ↔ empty t.this = true)) ∧
    (size t.this = 1 →
      (∃ u, pop_back t = Res.ok () u ∧ size u.this = 0 ∧ SelfLinked u) ∧
      (∃ u, pop_front t = Res.ok () u ∧ size u.this = 0 ∧ SelfLinked u)) := by
  obtain ⟨ms, hr, hs⟩ := h.ring
  have hf : (t.kind t.this.fake_node_).is_object = true := by rw [hr.sentinel]; rfl
  have hiff := hr.selfLinked_iff
  refine ⟨hiff, ?_, ?_⟩
  · refine ⟨{ cur_node_ := t.next t.this.fake_node_ }, { cur_node_ := t.this.fake_node_ },
      by simp [begin_, fake_node_, get_next, hf], rfl, ?_⟩
    have hemp : empty t.this = true ↔ size t.this = 0 := by
      simp [empty, size]
    rw [hemp]
    unfold Iterator.eq
    rw [beq_iff_eq]
    constructor
    · intro hnext
      have hsz : size t.this = ms.length := hr.size
      rw [hsz]
      cases ms with
      | nil => rfl
      | cons n rest =>
          exfalso
          have h1 : t.next t.this.fake_node_ = n.1 := hr.linked.1.1
          apply hr.fake_not_mem
          have h2 : t.this.fake_node_ = n.1 := hnext.symm.trans h1
          rw [h2]
          simp
    · intro h0
      exact (hiff.mp h0).1
  · intro h1
    have hsz : ms.length = 1 := by rw [← hr.size]; exact h1
    obtain ⟨⟨a, v⟩, rfl⟩ := List.length_eq_one.mp hsz
    constructor
    · obtain ⟨u, hu, g, -, -⟩ := pop_back_grows t [] a v hr hs
      have h0 : size u.this = 0 := g.ring.size
      exact ⟨u, hu, h0, g.ring.selfLinked_iff.mp h0⟩
    · obtain ⟨u, hu, g, -, -⟩ := pop_front_grows t [] a v hr hs
      have h0 : size u.this = 0 := g.ring.size
      exact ⟨u, hu, h0, g.ring.selfLinked_iff.mp h0⟩

theorem C20_witness :
    Produced Env.reliable State.singleton ∧ size State.singleton.this = 1 ∧
    ¬ SelfLinked State.singleton ∧
    ∃ u, pop_back State.singleton = Res.ok () u ∧ size u.this = 0 ∧ SelfLinked u := by
  have hC := C20_empty_iff_self_linked Env.reliable State.singleton produced_singleton
  refine ⟨produced_singleton, rfl, ?_, (hC.2.2 rfl).1⟩
  intro hself
  have := hC.1.mpr hself
  cases this

theorem deallocate_mem_released (al al1 : AllocId) (p : Nat) (ps : List Nat) :
    Event.deallocate al p ∈ released al1 ps ↔ al = al1 ∧ p ∈ ps := by
  induction ps with
  | nil => simp [released]
  | cons q ps ih =>
      simp only [released, List.mem_append, ih, List.mem_cons, List.mem_singleton,
        Event.deallocate.injEq, List.not_mem_nil, or_false]
      constructor
      · rintro (⟨h1, h2⟩ | (⟨h1, h2⟩ | h3))
        · exact ⟨h1, Or.inr h2⟩
        · exact ⟨h1, Or.inl h2⟩
        · cases h3
      · rintro ⟨h1, h2 | h2⟩
        · exact Or.inr (Or.inl ⟨h1, h2⟩)
        · exact Or.inl ⟨h1, h2⟩

theorem deallocate_not_mem_built (al al1 : AllocId) (p : Nat) (ps : List Nat) :
    Event.deallocate al p ∉ built al1 ps := by
  induction ps with
  | nil => simp [built]
  | cons q ps ih => simp [built, ih]

theorem allocate_mem_built (al : AllocId) (p : Nat) (ps : List Nat) (hp : p ∈ ps) :
    Event.allocate al p ∈ built al ps := by
  induction ps with
  | nil => cases hp
  | cons q ps ih =>
      rcases List.mem_cons.mp hp with rfl | h
      · simp [built]
      · simp [built, ih h]

theorem assign_total (env : Env) (other : ListObj) (s : State T) (ns os : List (Nat × T))
    (hs : Sound s) (hr : Ring s s.this ns) (ho : Ring s other os)
    (hne : s.this.fake_node_ ≠ other.fake_node_) (hno : NoFailure env)
    (hroom : s.brk + os.length ≤ SIZE_MOD) : ∃ t, assign env other s = Res.ok () t := by
  obtain ⟨new, t1, fail, hp, hv, hcase⟩ :=
    assign_spec env other s ns os hs hr ho (Ring.apart hr ho hne)
  rcases hcase with ⟨t2, hok, -⟩ | ⟨e, t2, -, hlen, hbl, -⟩
  · exact ⟨_, hok⟩
  · exact absurd hbl (noFailure_room env _ _ hno (by
      show s.brk + new.length < SIZE_MOD
      omega))

end Apart

section Phases
variable {T : Type}

/-- Copy assignment between two distinct objects is its `try` block followed,
when the block completes, by lines 208-212, and, when it throws, by the handler. -/
theorem assign_phases (env : Env) (other : ListObj) (s : State T)
    (hne : s.this.fake_node_ ≠ other.fake_node_) :
    assign env other s =
      match assign_try env other (next_allocator env s.this other) s with
      | (_, Res.ok () t1) =>
          assign_release s.this.alloc_ s.this.size_ (next_allocator env s.this other) t1
      | (j, Res.threw e t1) => assign_handler s.this.alloc_ j e t1
      | (_, Res.ub) => Res.ub := by
  simp only [assign, assign_try, assign_release, assign_handler, next_allocator, M.bind_run,
    fake_node_, alloc_, size_, catching_with_index, ne_eq, hne, not_false_eq_true, if_true]
  simp only [set_alloc_]
  generalize get_next other.fake_node_ _ = g
  cases g with
  | ok cur s1 =>
      simp only
      rcases copy_loop env other.size_ 0 cur s1 with ⟨j, r⟩
      cases r with
      | ok u t1 => rfl
      | threw e t1 =>
          simp only
          cases for_count j pop_back t1 <;> rfl
      | ub => rfl
  | threw e s1 => rfl
  | ub => rfl

/-- What the `try` block of copy assignment between two distinct containers
does: with `alloc_` already set to the chosen allocator, it appends copies of a
prefix of the source behind the old nodes, and completes when the prefix is the
whole source. -/
theorem assign_try_spec (env : Env) (other : ListObj) (s : State T) (ns os : List (Nat × T))
    (hs : Sound s) (hr : Ring s s.this ns) (ho : Ring s other os)
    (hne : s.this.fake_node_ ≠ other.fake_node_) :
    ∃ new t1 fail j,
      Pushed env (s.with_alloc (next_allocator env s.this other)) t1 ns new fail ∧
      ((assign_try env other (next_allocator env s.this other) s = (j, Res.ok () t1) ∧
          new.length = os.length ∧ fail = []) ∨
        (∃ e, assign_try env other (next_allocator env s.this other) s = (j, Res.threw e t1) ∧
          new.length < os.length ∧
          Blocked env (s.with_alloc (next_allocator env s.this other)) new.length)) := by
  obtain ⟨hr1, hs1⟩ := with_alloc_ring s (next_allocator env s.this other) ns hr hs
  have ho1 := with_alloc_other s (next_allocator env s.this other) other os ho
  have hlt1 := ho1.lt_brk hs1
  have hd := Ring.apart hr ho hne
  obtain ⟨j, -, hrun, -, -⟩ := copy_loop_eq env os _ ns other.fake_node_ other.fake_node_ 0
    hr1 hs1 ho1.nodes ho1.linked (fun x hx => ⟨hd x hx, hlt1 x hx⟩)
  rw [← ho1.size, Nat.zero_add] at hrun
  have htry : assign_try env other (next_allocator env s.this other) s =
      (j, init_loop env (os.map Prod.snd) (s.with_alloc (next_allocator env s.this other))) := by
    rw [← hrun]
    have hobj : (s.kind other.fake_node_).is_object = true := by rw [ho.sentinel]; rfl
    have hnx : s.next other.fake_node_ = (os.map Prod.fst).headD other.fake_node_ :=
      ho.next_fake
    simp [assign_try, set_alloc_, get_next, hobj, hnx, State.with_alloc]
  obtain ⟨new, t, fail, hp, -, hcase⟩ := init_loop_spec env (os.map Prod.snd) _ ns hr1 hs1
  refine ⟨new, t, fail, j, hp, ?_⟩
  rcases hcase with ⟨hok, hlen, hfail, -⟩ | ⟨e, hth, hlen, hbl, -⟩
  · left
    rw [hok] at htry
    exact ⟨htry, by simpa using hlen, hfail⟩
  · right
    rw [hth] at htry
    exact ⟨e, htry, by simpa using hlen, hbl⟩

/-- When the `try` block of a copy assignment between two distinct containers
completes, the allocator of the target already is the allocator chosen for the
new content, every old node of the target is still a live node, and the trace
of the block holds the building of the copies and nothing else. -/
theorem assign_try_ok (env : Env) (other : ListObj) (s t1 : State T) (ns os : List (Nat × T))
    (j : Nat) (hs : Sound s) (hr : Ring s s.this ns) (ho : Ring s other os)
    (hne : s.this.fake_node_ ≠ other.fake_node_)
    (h : assign_try env other (next_allocator env s.this other) s = (j, Res.ok () t1)) :
    t1.this.alloc_ = next_allocator env s.this other ∧
    (∀ n ∈ ns, t1.kind n.1 = Kind.node n.2) ∧
    ∃ addrs : List Nat, addrs.length = os.length ∧ (∀ a ∈ addrs, s.brk ≤ a) ∧
      t1.trace = built (next_allocator env s.this other) addrs ++ s.trace := by
  obtain ⟨new, t, fail, j1, hp, hcase⟩ := assign_try_spec env other s ns os hs hr ho hne
  rcases hcase with ⟨hok, hlen, hfail⟩ | ⟨e, hth, -⟩
  · rw [hok] at h
    cases h
    refine ⟨hp.grows.alloc, ?_, new.map Prod.fst, by rw [List.length_map, hlen], ?_, ?_⟩
    · intro n hn
      exact hp.grows.ring.nodes n (List.mem_append_left _ hn)
    · intro a ha
      rw [hp.addrs] at ha
      exact (List.mem_range'_1.mp ha).1
    · rw [hp.trace, hfail]
      rfl
  · rw [hth] at h
    cases h

theorem assign_try_total (env : Env) (other : ListObj) (s : State T) (ns os : List (Nat × T))
    (hs : Sound s) (hr : Ring s s.this ns) (ho : Ring s other os)
    (hne : s.this.fake_node_ ≠ other.fake_node_) (hno : NoFailure env)
    (hroom : s.brk + os.length ≤ SIZE_MOD) :
    ∃ j t1, assign_try env other (next_allocator env s.this other) s = (j, Res.ok () t1) := by
  obtain ⟨new, t, fail, j, hp, hcase⟩ := assign_try_spec env other s ns os hs hr ho hne
  rcases hcase with ⟨hok, -⟩ | ⟨e, -, hlen, hbl⟩
  · exact ⟨j, t, hok⟩
  · exact absurd hbl (noFailure_room env _ _ hno (by
      show s.brk + new.length < SIZE_MOD
      omega))

theorem noFailure_propagating : NoFailure Env.propagating := fun _ => ⟨rfl, rfl⟩

theorem two_allocs_sound : Sound State.two_allocs :=
  ⟨two_lists_sound.fresh, two_lists_sound.bound⟩

theorem two_allocs_first : Ring State.two_allocs State.two_allocs.this [(1, 5), (2, 6)] :=
  two_lists_first.transfer rfl rfl (fun _ _ => rfl) (fun _ _ => rfl) (fun _ _ => rfl)

theorem two_allocs_second : Ring State.two_allocs State.other_list [(4, 7), (5, 8)] := by
  constructor
  · rfl
  · intro n hn
    simp at hn
    rcases hn with rfl | rfl <;> rfl
  · exact ⟨⟨rfl, rfl⟩, ⟨rfl, rfl⟩, rfl, rfl⟩
  · decide
  · rfl

theorem other_list_pushed :
    push_back Env.propagating 7 (State.pair.with_object 1) = Res.ok ()
      { kind := fun a =>
          if a = 0 then Kind.base else if a = 1 then Kind.node 5
          else if a = 2 then Kind.node 6 else if a = 3 then Kind.base
          else if a = 4 then Kind.node 7 else Kind.free
        prev := fun a =>
          if a = 0 then 2 else if a = 1 then 0 else if a = 2 then 1
          else if a = 3 then 4 else if a = 4 then 3 else 0
        next := fun a =>
          if a = 0 then 1 else if a = 1 then 2 else if a = 2 then 0
          else if a = 3 then 4 else if a = 4 then 3 else 0
        brk := 5
        trace := [Event.construct 1 4, Event.allocate 1 4,
          Event.construct 0 2, Event.allocate 0 2, Event.construct 0 1, Event.allocate 0 1]
        allocate_calls := 3
        construct_calls := 3
        this := { fake_node_ := 3, size_ := 1, alloc_ := 1 } } := by
  refine (push_back_ok Env.propagating (7 : Nat) (State.pair.with_object 1)
    rfl (size_mod_gt 4 (by omega)) rfl rfl rfl rfl).trans ?_
  simp only [State.pair, State.with_object]
  congr 2
  all_goals
    funext a
    dsimp only
    simp only [Function.update_apply]
    repeat' split
    all_goals first | rfl | omega | simp_all

theorem make_init_eq (env : Env) (xs : List T) (al : AllocId) (s : State T)
    (hb : s.brk < SIZE_MOD) :
    make env (Ctor.init xs al) [] s =
      init_loop env xs (s.with_object (env.select_on_container_copy_construction al)) := by
  have h1 := List_init_eq env xs al s hb
  have h2 : make env (Ctor.init xs al) [] s =
      match List_init env xs al s with
      | Res.ok () s1 => Res.ok () s1
      | Res.threw e s1 => Res.threw e s1
      | Res.ub => Res.ub := by
    simp only [make, Ctor.run, M.bind_run]
    cases List_init env xs al s <;> rfl
  rw [h2, h1]
  cases init_loop env xs _ <;> rfl

/-- The state `State.two_allocs` is what `List({7, 8}, alloc)` with the
allocator instance 1 makes of `State.pair`. -/
theorem two_allocs_built :
    make Env.propagating (Ctor.init [7, 8] 1) [] State.pair =
      Res.ok () (State.two_allocs.on State.other_list) := by
  rw [make_init_eq Env.propagating [7, 8] 1 State.pair (size_mod_gt 3 (by omega)),
    show Env.propagating.select_on_container_copy_construction 1 = 1 from rfl,
    init_loop_cons_ok Env.propagating 7 [8] _ _ other_list_pushed]
  refine (init_loop_cons_ok Env.propagating 8 [] _ _
    (push_back_ok Env.propagating 8 _ ?_ ?_ ?_ ?_ ?_ ?_)).trans ?_
  · rfl
  · exact size_mod_gt 5 (by omega)
  · rfl
  · rfl
  · rfl
  · rfl
  rw [init_loop_nil]
  have htarget : State.two_allocs.on State.other_list =
      { kind := fun a =>
          if a = 0 then Kind.base else if a = 1 then Kind.node 5
          else if a = 2 then Kind.node 6 else if a = 3 then Kind.base
          else if a = 4 then Kind.node 7 else if a = 5 then Kind.node 8 else Kind.free
        prev := fun a =>
          if a = 0 then 2 else if a = 1 then 0 else if a = 2 then 1
          else if a = 3 then 5 else if a = 4 then 3 else if a = 5 then 4 else 0
        next := fun a =>
          if a = 0 then 1 else if a = 1 then 2 else if a = 2 then 0
          else if a = 3 then 4 else if a = 4 then 5 else if a = 5 then 3 else 0
        brk := 6
        trace := [Event.construct 1 5, Event.allocate 1 5, Event.construct 1 4,
          Event.allocate 1 4, Event.construct 0 2, Event.allocate 0 2, Event.construct 0 1,
          Event.allocate 0 1]
        allocate_calls := 4
        construct_calls := 4
        this := { fake_node_ := 3, size_ := 2, alloc_ := 1 } } := rfl
  rw [htarget]
  congr 2
  all_goals
    funext a
    dsimp only
    simp only [Function.update_apply]
    repeat' split
    all_goals first | rfl | omega | simp_all

/-- C15, in the form that holds of the code: which allocator instance releases what during a copy
assignment `a = b` between two distinct containers, whatever the propagation
policy, when the old nodes of `a` were allocated through the allocator of `a`.

The assignment is its `try` block, followed by lines 208-212 when the block
completes and by the handler when it throws.  The `try` block sets the
allocator of `a` to the allocator chosen for the new content (that of `b` if the
policy propagates, that of `a` otherwise) before it copies: when the block
completes, the allocator of `a` is the chosen one, every old node is still
live, and the trace of the block holds the building of the copies through the
chosen allocator.

When the assignment completes, the old nodes were released in a loop that ran
with the allocator of `a` set back to the old one and ended with it still the
old one; every `deallocate` of the call is of an old node, through the old
allocator, which is the one in the `allocate` event of that node; the chosen
allocator is the allocator of `a` afterwards, and it is the one in the
`allocate` event of every node `a` then holds.

When the assignment throws, every `deallocate` of the call is of a node
allocated during the call, through the same allocator instance, and the
allocator of `a` is the one it had before. -/
theorem C15_allocator_discipline (env : Env) (other : ListObj) (s : State T)
    (ns os : List (Nat × T)) (hs : Sound s) (hr : Ring s s.this ns) (ho : Ring s other os)
    (hne : s.this.fake_node_ ≠ other.fake_node_)
    (hown : ∀ p ∈ ns.map Prod.fst, Event.allocate s.this.alloc_ p ∈ s.trace) :
    (assign env other s =
      match assign_try env other (next_allocator env s.this other) s with
      | (_, Res.ok () t1) =>
          assign_release s.this.alloc_ s.this.size_ (next_allocator env s.this other) t1
      | (j, Res.threw e t1) => assign_handler s.this.alloc_ j e t1
      | (_, Res.ub) => Res.ub) ∧
    (∀ j t1, assign_try env other (next_allocator env s.this other) s = (j, Res.ok () t1) →
      t1.this.alloc_ = (if env.propagate_on_container_copy_assignment = true then other.alloc_
        else s.this.alloc_) ∧
      (∀ n ∈ ns, t1.kind n.1 = Kind.node n.2) ∧
      ∃ addrs : List Nat, addrs.length = os.length ∧ (∀ a ∈ addrs, s.brk ≤ a) ∧
        t1.trace = built (next_allocator env s.this other) addrs ++ s.trace) ∧
    (∀ t, assign env other s = Res.ok () t →
      ∃ (addrs : List Nat) (ms : List (Nat × T)) (j : Nat) (t1 t2 : State T),
        assign_try env other (next_allocator env s.this other) s = (j, Res.ok () t1) ∧
        for_count s.this.size_ pop_front (t1.with_alloc s.this.alloc_) = Res.ok () t2 ∧
        t2.this.alloc_ = s.this.alloc_ ∧
        t = t2.with_alloc (next_allocator env s.this other) ∧
        t.trace = released s.this.alloc_ (ns.map Prod.fst) ++
          (built (next_allocator env s.this other) addrs ++ s.trace) ∧
        (∀ a ∈ addrs, s.brk ≤ a) ∧
        Ring t t.this ms ∧ ms.map Prod.fst = addrs ∧
        t.this.alloc_ = (if env.propagate_on_container_copy_assignment = true then other.alloc_
          else s.this.alloc_) ∧
        (∀ al p, Event.deallocate al p ∈ released s.this.alloc_ (ns.map Prod.fst) ++
            built (next_allocator env s.this other) addrs →
          p ∈ ns.map Prod.fst ∧ al = s.this.alloc_ ∧ Event.allocate al p ∈ s.trace) ∧
        (∀ p ∈ ms.map Prod.fst, Event.allocate t.this.alloc_ p ∈ t.trace)) ∧
    (∀ e t, assign env other s = Res.threw e t →
      ∃ (addrs : List Nat) (fail : List Event),
        t.trace = released (next_allocator env s.this other) addrs.reverse ++
          (fail ++ built (next_allocator env s.this other) addrs ++ s.trace) ∧
        (∀ a ∈ addrs, s.brk ≤ a) ∧
        t.this.alloc_ = s.this.alloc_ ∧
        ∀ al p, Event.deallocate al p ∈ released (next_allocator env s.this other) addrs.reverse ++
            (fail ++ built (next_allocator env s.this other) addrs) →
          Event.allocate al p ∈ fail ++ built (next_allocator env s.this other) addrs) := by
  have hphase := assign_phases env other s hne
  refine ⟨hphase, ?_, ?_, ?_⟩
  · intro j t1 h
    exact assign_try_ok env other s t1 ns os j hs hr ho hne h
  · intro t h
    obtain ⟨new, t1, fail, j, hp, hcase⟩ := assign_try_spec env other s ns os hs hr ho hne
    have habove : ∀ a ∈ new.map Prod.fst, s.brk ≤ a := by
      intro a ha
      rw [hp.addrs] at ha
      exact (List.mem_range'_1.mp ha).1
    rcases hcase with ⟨htry, hlen, hfail⟩ | ⟨e, htry, -⟩
    · obtain ⟨hr2, hs2⟩ := with_alloc_ring t1 s.this.alloc_ _ hp.grows.ring hp.grows.sound
      obtain ⟨t2, hpop, g2, htr2, -⟩ := pop_front_loop ns (t1.with_alloc s.this.alloc_) new hr2 hs2
      rw [← hr.size] at hpop
      have hrun : assign env other s =
          Res.ok () (t2.with_alloc (next_allocator env s.this other)) := by
        rw [hphase, htry]
        simp only [assign_release, M.bind_run, set_alloc_]
        have hpop1 : for_count s.this.size_ pop_front
            { t1 with this := { t1.this with alloc_ := s.this.alloc_ } } = Res.ok () t2 := hpop
        rw [hpop1]
        rfl
      rw [hrun] at h
      cases h
      obtain ⟨hr3, -⟩ := with_alloc_ring t2 (next_allocator env s.this other) new
        g2.ring g2.sound
      have htrace : (t2.with_alloc (next_allocator env s.this other)).trace =
          released s.this.alloc_ (ns.map Prod.fst) ++
            (built (next_allocator env s.this other) (new.map Prod.fst) ++ s.trace) := by
        show t2.trace = _
        rw [htr2]
        show _ ++ t1.trace = _
        rw [hp.trace, hfail]
        rfl
      refine ⟨new.map Prod.fst, new, j, t1, t2, htry, hpop, g2.alloc, rfl, htrace, habove,
        hr3, rfl, rfl, ?_, ?_⟩
      · intro al p hmem
        rcases List.mem_append.mp hmem with h1 | h1
        · obtain ⟨h2, h3⟩ := (deallocate_mem_released al _ p _).mp h1
          exact ⟨h3, h2, by rw [h2]; exact hown p h3⟩
        · exact absurd h1 (deallocate_not_mem_built al _ p _)
      · intro p hp1
        rw [htrace]
        exact List.mem_append_right _ (List.mem_append_left _ (allocate_mem_built _ p _ hp1))
    · exfalso
      rw [hphase, htry] at h
      simp only [assign_handler, M.bind_run] at h
      cases hfc : for_count j pop_back t1 with
      | ok u t3 => rw [hfc] at h; simp [set_alloc_] at h
      | threw e1 t3 => rw [hfc] at h; cases h
      | ub => rw [hfc] at h; cases h
  · intro e t h
    obtain ⟨new, t1, fail, hp, hv, hcase⟩ :=
      assign_spec env other s ns os hs hr ho (Ring.apart hr ho hne)
    have habove : ∀ a ∈ new.map Prod.fst, s.brk ≤ a := by
      intro a ha
      rw [hp.addrs] at ha
      exact (List.mem_range'_1.mp ha).1
    rcases hcase with ⟨t2, hok, -⟩ | ⟨e1, t2, hth, hlen, hbl, hfail, g2, htr2⟩
    · rw [hok] at h
      cases h
    · rw [hth] at h
      cases h
      refine ⟨new.map Prod.fst, fail, ?_, habove, rfl, ?_⟩
      · show t2.trace = _
        rw [htr2, hp.trace]
        rfl
      · intro al p hmem
        rcases List.mem_append.mp hmem with h1 | h1
        · obtain ⟨h2, h3⟩ := (deallocate_mem_released al _ p _).mp h1
          rw [h2]
          exact List.mem_append_right _ (allocate_mem_built _ p _ (List.mem_reverse.mp h3))
        · rcases List.mem_append.mp h1 with h2 | h2
          · rcases hfail with hf | hf
            · rw [hf] at h2
              cases h2
            · rw [hf] at h2 ⊢
              simp only [List.mem_cons, Event.deallocate.injEq, List.mem_singleton,
                List.not_mem_nil, or_false] at h2
              rcases h2 with ⟨h3, h4⟩ | h2
              · rw [h3, h4]
                simp
              · cases h2
          · exact absurd h2 (deallocate_not_mem_built al _ p _)

theorem C15_witness :
    Sound State.two_allocs ∧ Ring State.two_allocs State.two_allocs.this [(1, 5), (2, 6)] ∧
    Ring State.two_allocs State.other_list [(4, 7), (5, 8)] ∧
    State.two_allocs.this.alloc_ = 0 ∧ State.other_list.alloc_ = 1 ∧
    ∃ t addrs, assign Env.propagating State.other_list State.two_allocs = Res.ok () t ∧
      t.trace = released 0 [1, 2] ++ (built 1 addrs ++ State.two_allocs.trace) ∧
      t.this.alloc_ = 1 ∧
      (∀ al p, Event.deallocate al p ∈ released 0 [1, 2] ++ built 1 addrs →
        al = 0 ∧ Event.allocate al p ∈ State.two_allocs.trace) := by
  have hown : ∀ p ∈ ([(1, 5), (2, 6)] : List (Nat × Nat)).map Prod.fst,
      Event.allocate State.two_allocs.this.alloc_ p ∈ State.two_allocs.trace := by
    intro p hp
    simp at hp
    rcases hp with rfl | rfl <;> decide
  have hC := C15_allocator_discipline Env.propagating State.other_list State.two_allocs
    [(1, 5), (2, 6)] [(4, 7), (5, 8)] two_allocs_sound two_allocs_first two_allocs_second
    (by decide) hown
  obtain ⟨t, ht⟩ := assign_total Env.propagating State.other_list State.two_allocs
    [(1, 5), (2, 6)] [(4, 7), (5, 8)] two_allocs_sound two_allocs_first two_allocs_second
    (by decide) noFailure_propagating (size_mod_gt 8 (by omega)).le
  obtain ⟨addrs, ms, j, t1, t2, -, -, -, -, htr, -, -, -, hal, hmatch, -⟩ := hC.2.2.1 t ht
  refine ⟨two_allocs_sound, two_allocs_first, two_allocs_second, rfl, rfl, t, addrs, ht, htr,
    hal, ?_⟩
  intro al p hmem
  obtain ⟨-, h2, h3⟩ := hmatch al p hmem
  exact ⟨h2, h3⟩

/-- C15 as stated fails on `a = b` with two elements each, `a` built through
the allocator instance 0, `b` through the instance 1, and an allocator that
propagates on copy assignment: when the `try` block of `operator=` completes,
the allocator of `a` already is the allocator of `b`, while no `deallocate` has
been made and both old nodes of `a` are still live. -/
theorem C15_allocator_set_before_release :
    State.two_allocs.this.alloc_ = 0 ∧ State.other_list.alloc_ = 1 ∧
    next_allocator Env.propagating State.two_allocs.this State.other_list = 1 ∧
    ∃ j t1, assign_try Env.propagating State.other_list
        (next_allocator Env.propagating State.two_allocs.this State.other_list)
        State.two_allocs = (j, Res.ok () t1) ∧
      t1.this.alloc_ = State.other_list.alloc_ ∧
      t1.kind 1 = Kind.node 5 ∧ t1.kind 2 = Kind.node 6 ∧
      (∀ al p, Event.deallocate al p ∉ t1.trace) ∧
      ∃ t, assign Env.propagating State.other_list State.two_allocs = Res.ok () t ∧
        assign_release 0 2 1 t1 = Res.ok () t := by
  obtain ⟨j, t1, htry⟩ := assign_try_total Env.propagating State.other_list State.two_allocs
    [(1, 5), (2, 6)] [(4, 7), (5, 8)] two_allocs_sound two_allocs_first two_allocs_second
    (by decide) noFailure_propagating (size_mod_gt 8 (by omega)).le
  obtain ⟨hal, hlive, addrs, -, -, htr⟩ := assign_try_ok Env.propagating State.other_list
    State.two_allocs t1 [(1, 5), (2, 6)] [(4, 7), (5, 8)] j two_allocs_sound two_allocs_first
    two_allocs_second (by decide) htry
  obtain ⟨t, ht⟩ := assign_total Env.propagating State.other_list State.two_allocs
    [(1, 5), (2, 6)] [(4, 7), (5, 8)] two_allocs_sound two_allocs_first two_allocs_second
    (by decide) noFailure_propagating (size_mod_gt 8 (by omega)).le
  refine ⟨rfl, rfl, rfl, j, t1, htry, hal, hlive (1, 5) (by simp), hlive (2, 6) (by simp), ?_,
    t, ht, ?_⟩
  · intro al p hmem
    rw [htr] at hmem
    rcases List.mem_append.mp hmem with h1 | h1
    · exact deallocate_not_mem_built al _ p _ h1
    · simp [State.two_allocs] at h1
  · have hph := assign_phases Env.propagating State.other_list State.two_allocs (by decide)
    rw [htry] at hph
    rw [← ht, hph]
    rfl

end Phases

end ListHpp
